import Mathlib

/-!
# mysqlfs: block-addressed file I/O over a relational store

A shallow embedding of the query layer of mysqlfs (`src/query.c`) and of the
filesystem callbacks that drive it (`src/mysqlfs.c`).

* The database is a record of three tables, each a list of rows.  Every
  `mysql_query` call of the source is a `Stmt` handed to `mysql_query` below,
  which consults a fault schedule, appends the statement to a log and applies
  its effect to the tables.  A session with `faults = []` is one on which the
  server refuses no statement; an `INSERT` still fails on a duplicate key.
* `BEGIN`, `COMMIT` and `ROLLBACK` keep and restore a snapshot of the tables.
* `DATA_BLOCK_SIZE` comes from a header that is not part of the sources at
  hand; it is the parameter `B` of every definition that uses it.
* Byte counts, offsets and sequence numbers are natural numbers.  Results of
  type `int` are kept as exact integers, negative for `-errno`; `c_int` gives
  what a 32 bit `int` holds of such a value.
* A name travels inside a statement as the text between the quotes, escaped by
  `mysql_real_escape_string`; the server reads it back with `sql_string_value`.
* The lookup statement of `query_inode_full` is built as text in a buffer of
  `SQL_MAX` bytes; when the text does not fit, what goes out is the cut text,
  which the server is taken to refuse as it does any unfinished statement.
* The callbacks borrow the session from a pool whose code is not among the
  sources; `Pool` counts the sessions handed out.
* The first part of the file holds the definitions: the embedding of the
  source, then the notions the statements are phrased in.  The theorems follow.
-/

namespace Mysqlfs

/-- One byte of file content or of a path name (`char`). -/
abbrev Byte := UInt8

/-- Constant `EIO` of `errno.h`. -/
def EIO : Int := 5
/-- Constant `ENXIO` of `errno.h`. -/
def ENXIO : Int := 6
/-- Constant `ENOENT` of `errno.h`. -/
def ENOENT : Int := 2
/-- Constant `ENOTEMPTY` of `errno.h`. -/
def ENOTEMPTY : Int := 39
/-- Constant `EMFILE` of `errno.h`. -/
def EMFILE : Int := 24
/-- Constant `S_IFMT` of `sys/stat.h`, the bits of a mode that hold the file type. -/
def S_IFMT : Nat := 0o170000
/-- Constant `SQL_MAX` (query.c:30), the size of every statement buffer. -/
def SQL_MAX : Nat := 10240
/-- Constant `INT_MAX` of `limits.h`. -/
def INT_MAX : Nat := 2147483647

/-- Conversion of a value to `size_t` (64 bit, unsigned). -/
def size_t (v : Int) : Nat := (v % 2 ^ 64).toNat

/-- Conversion of a value to `int` (32 bit, two's complement). -/
def c_int (v : Int) : Int := (v + 2 ^ 31) % 2 ^ 32 - 2 ^ 31

/-! ## Text -/

/-- The bytes of a piece of ASCII text. -/
def bytes (s : String) : List Byte :=
  s.toList.map (fun ch => UInt8.ofNat ch.toNat)

/-- Digits of `n`, most significant first, `fuel` bounding their number. -/
def decimal_go : Nat → Nat → List Byte → List Byte
  | 0, _, acc => acc
  | fuel + 1, n, acc =>
    if n < 10 then UInt8.ofNat (48 + n) :: acc
    else decimal_go fuel (n / 10) (UInt8.ofNat (48 + n % 10) :: acc)

/-- What `%d` and `%ld` print for a number that is not negative. -/
def decimal (n : Nat) : List Byte :=
  decimal_go (n + 1) n []

/-- Library call `snprintf(buf, size, ..)` on the formatted text `s`: at most `size - 1`
bytes of it reach the buffer. -/
def snprintf (size : Nat) (s : List Byte) : List Byte :=
  s.take (size - 1)

/-- What `mysql_real_escape_string` writes for one byte: a backslash in front of
NUL, newline, carriage return, backslash, both quotes and Control-Z. -/
def escape_byte (b : Byte) : List Byte :=
  if b = 0 then [92, 48]
  else if b = 10 then [92, 110]
  else if b = 13 then [92, 114]
  else if b = 92 then [92, 92]
  else if b = 39 then [92, 39]
  else if b = 34 then [92, 34]
  else if b = 26 then [92, 90]
  else [b]

/-- Library call `mysql_real_escape_string(mysql, to, from, strlen(from))`: the bytes
written to `to`. -/
def mysql_real_escape_string (src : List Byte) : List Byte :=
  (src.map escape_byte).flatten

/-- The bytes that a backslash followed by `b` stands for inside a quoted SQL
string: the named escapes, the pattern escapes `\%` and `\_` with their
backslash kept, and otherwise `b` itself. -/
def unescape_byte (b : Byte) : List Byte :=
  if b = 48 then [0]
  else if b = 110 then [10]
  else if b = 114 then [13]
  else if b = 116 then [9]
  else if b = 98 then [8]
  else if b = 90 then [26]
  else if b = 37 ∨ b = 95 then [92, b]
  else [b]

/-- Reading of the text between the quotes of an SQL string, `esc` telling
that the byte before was a backslash. -/
def sql_string_go : Bool → List Byte → Option (List Byte)
  | false, [] => some []
  | true, [] => none
  | false, b :: rest =>
    if b = 92 then sql_string_go true rest
    else if b = 39 then none
    else (sql_string_go false rest).map (fun v => b :: v)
  | true, b :: rest => (sql_string_go false rest).map (fun v => unescape_byte b ++ v)

/-- The value the server reads from the text between the quotes of `'...'`;
`none` when a bare quote or a backslash at the end leaves the statement
malformed. -/
def sql_string_value (text : List Byte) : Option (List Byte) :=
  sql_string_go false text

/-- The path without the slashes at its end. -/
def strip_slashes (path : List Byte) : List Byte :=
  (path.reverse.dropWhile (fun b => b = 47)).reverse

/-- Library call `basename` of `libgen.h`: the last component of the path, trailing slashes
apart; `"/"` for a path of slashes only and `"."` for the empty path. -/
def basename (path : List Byte) : List Byte :=
  if path = [] then [46]
  else if strip_slashes path = [] then [47]
  else ((strip_slashes path).reverse.takeWhile (fun b => b ≠ 47)).reverse

/-- Library call `dirname` of `libgen.h`: the path without its last component and without
the slashes before it; `"/"` when nothing but slashes is left and `"."` when
the path has no slash.  (For a path starting with exactly two slashes the C
library keeps both; the lookup makes no difference between the two.) -/
def dirname (path : List Byte) : List Byte :=
  if path = [] then [46]
  else if (strip_slashes path).reverse.dropWhile (fun b => b ≠ 47) = [] then
    (if strip_slashes path = [] then [47] else [46])
  else if ((strip_slashes path).reverse.dropWhile (fun b => b ≠ 47)).dropWhile
      (fun b => b = 47) = [] then [47]
  else (((strip_slashes path).reverse.dropWhile (fun b => b ≠ 47)).dropWhile
    (fun b => b = 47)).reverse

/-! ## Block arithmetic -/

/-- Modelled from the spec: `struct data_blocks_info` of `query.h`, the five values
of section 4.1. -/
structure data_blocks_info where
  seq_first : Nat
  seq_last : Nat
  length_first : Nat
  length_last : Nat
  offset_first : Nat
deriving DecidableEq

/-- Source function `fill_data_blocks_info` (query.c:47), for a request that ends below
`2 ^ 64`: the sums are those of the natural numbers, which is what the machine
computes when `offset + size < 2 ^ 64` (see `fill_data_blocks_info_size_t`). -/
def fill_data_blocks_info (B size offset : Nat) : data_blocks_info :=
  let seq_first := offset / B
  let offset_first := offset % B
  let nr_following_blocks := (offset_first + size) / B
  { seq_first := seq_first
    offset_first := offset_first
    length_first := if nr_following_blocks > 0 then B - offset_first else size
    seq_last := seq_first + nr_following_blocks
    length_last := (offset_first + size) % B }

/-- Source function `fill_data_blocks_info` (query.c:47) in the arithmetic of the machine:
`info->offset_first + size` is a sum in `size_t` and `info->seq_first +
nr_following_blocks` one in `unsigned long` (64 bit, unsigned), and both wrap
at `2 ^ 64`. -/
def fill_data_blocks_info_size_t (B size offset : Nat) : data_blocks_info :=
  let seq_first := offset / B
  let offset_first := offset % B
  let nr_following_blocks := ((offset_first + size) % 2 ^ 64) / B
  { seq_first := seq_first
    offset_first := offset_first
    length_first := if nr_following_blocks > 0 then B - offset_first else size
    seq_last := (seq_first + nr_following_blocks) % 2 ^ 64
    length_last := ((offset_first + size) % 2 ^ 64) % B }

/-! ## Data model -/

/-- Modelled from the spec: the schema of `data_blocks` (section 3); the table
definition itself is not among the sources.  A row inserted without a
`datalength` gets the column default 0. -/
structure BlockRow where
  inode : Nat
  seq : Nat
  data : List Byte
  datalength : Nat
deriving DecidableEq

/-- Modelled from the spec: the schema of `inodes` (section 3). -/
structure InodeRow where
  inode : Nat
  mode : Nat
  uid : Nat
  gid : Nat
  atime : Nat
  mtime : Nat
  ctime : Nat
  size : Nat
  inuse : Int
  deleted : Bool
deriving DecidableEq

/-- Modelled from the spec: the schema of `tree` (section 3); `parent` is NULL
for the root entry. -/
structure TreeRow where
  inode : Nat
  parent : Option Nat
  name : List Byte
deriving DecidableEq

/-- The tables of one database. -/
structure Tables where
  inodes : List InodeRow
  tree : List TreeRow
  data_blocks : List BlockRow
deriving DecidableEq

/-- An operand of the `CONCAT(...)` that `write_one_block` and `query_truncate`
assign to `data`. -/
inductive DataExpr where
  /-- The bound parameter `?`. -/
  | param
  /-- The column `data`. -/
  | data
  /-- Operand `RPAD(data, n, '\0')`. -/
  | rpad (n : Nat)
  /-- Operand `SUBSTRING(data FROM p)`, `p` counted from 1. -/
  | substring_from (p : Nat)
deriving DecidableEq

/-- The statements the query layer sends. -/
inductive Stmt where
  | BEGIN
  | COMMIT
  | ROLLBACK
  /-- Statement `DELETE FROM data_blocks WHERE inode=i AND seq > s`. -/
  | delete_blocks_after (inode seq : Nat)
  /-- Statement `UPDATE data_blocks SET data=CONCAT(parts) WHERE inode=i AND seq=s`, the
  parameter bound to `arg`. -/
  | update_data (parts : List DataExpr) (arg : List Byte) (inode seq : Nat)
  /-- Statement `UPDATE data_blocks SET datalength=OCTET_LENGTH(data) WHERE inode=i AND seq=s`. -/
  | update_datalength (inode seq : Nat)
  /-- Statement `UPDATE inodes SET size=n WHERE inode=i`. -/
  | update_size (size inode : Nat)
  /-- Statement `INSERT INTO data_blocks SET inode=i, seq=s, data=''`. -/
  | insert_block (inode seq : Nat)
  /-- Statement `SELECT SUM(datalength) INTO @iNodeSize FROM data_blocks WHERE inode = i`. -/
  | select_sum_into (inode : Nat)
  /-- Statement `UPDATE inodes SET size = @iNodeSize WHERE inode = i`. -/
  | update_size_from (inode : Nat)
  /-- Statement `SELECT datalength FROM data_blocks WHERE inode=i AND seq=s`. -/
  | select_datalength (inode seq : Nat)
  /-- Statement `SELECT seq, data, datalength FROM data_blocks WHERE inode=i AND seq=s`. -/
  | select_block (inode seq : Nat)
  /-- Statement `SELECT seq, data, datalength FROM data_blocks WHERE inode=i AND seq>=a
  AND seq<=b ORDER BY seq ASC`. -/
  | select_blocks (inode first last : Nat)
  /-- The path lookup of `query_inode_full`: one self-join of `tree` per
  component, each name standing for its escaped text between quotes. -/
  | select_path (names : List (List Byte)) (nlinks : Bool)
  /-- A statement whose text did not fit its buffer: the bytes that went out. -/
  | cut_off (sql : List Byte)
  /-- Statement `INSERT INTO tree (name, parent, inode) VALUES ('name', p, i)`; `name` is
  the text between the quotes. -/
  | insert_tree (name : List Byte) (parent inode : Int)
  /-- Statement `SELECT COUNT(*) FROM tree AS t0 JOIN tree AS t1 ON t0.parent = t1.inode
  WHERE t1.name='name' AND t1.parent = p`. -/
  | select_count_children (name : List Byte) (parent : Int)
  /-- Statement `DELETE FROM tree WHERE name='name' AND parent=p`. -/
  | delete_tree (name : List Byte) (parent : Int)
  /-- Statement `UPDATE tree SET name='new', parent=q WHERE inode=i AND name='old' AND
  parent=p`. -/
  | update_tree (new_name : List Byte) (parent_to inode : Int) (old_name : List Byte)
      (parent_from : Int)
  /-- Statement `UPDATE inodes SET mode = (((mode >> 9) << 9) | ((m & ~ 32768) & ~16384))
  WHERE inode=i`. -/
  | update_mode (mode : Nat) (inode : Int)
  /-- Statement `SELECT inode, mode, uid, gid, atime, mtime FROM inodes WHERE inode=i`. -/
  | select_attr (inode : Int)
  /-- Statement `SELECT size FROM inodes WHERE inode=i`. -/
  | select_size (inode : Int)
  /-- Statement `UPDATE inodes SET inuse = inuse + n WHERE inode=i`. -/
  | update_inuse (increment inode : Int)
  /-- Statement `DELETE FROM inodes WHERE inode=i AND inuse=0 AND deleted=1`. -/
  | delete_purged (inode : Int)
  /-- Statement `UPDATE inodes i LEFT JOIN tree t ON i.inode = t.inode SET i.deleted=1
  WHERE i.inode = i AND t.name IS NULL`. -/
  | update_deleted (inode : Int)
  /-- Statement `UPDATE inodes SET [uid=u ][, gid=g ]WHERE inode=i` of `query_chown`, with
  the assignments that are there. -/
  | update_owner (uid gid : Option Int) (inode : Int)
  /-- Statement `INSERT INTO tree (name, parent) VALUES ('/', NULL)`. -/
  | insert_tree_root
  /-- Statement `INSERT INTO tree (name, parent) VALUES ('name', p)`; the inode number
  is generated by this statement: `query_mknod` reads it with `mysql_insert_id`
  right after it and gives it to the `INSERT` into `inodes`. -/
  | insert_tree_auto (name : List Byte) (parent : Int)
  /-- Statement `INSERT INTO inodes (inode, mode, uid, gid, atime, ctime, mtime)
  VALUES(i, m, u, g, UNIX_TIMESTAMP(NOW()), ..)`. -/
  | insert_inode (inode mode uid gid : Int)
  /-- Statement `SELECT name FROM tree WHERE parent = 'i'`. -/
  | select_names (inode : Int)
  /-- Statement `DELETE from inodes WHERE deleted = 1` (fsck, stage 1). -/
  | delete_deleted_inodes
  /-- Statement `delete from tree where inode not in (select inode from inodes)` (stage 2). -/
  | delete_orphan_tree
  /-- Statement `UPDATE inodes SET inuse=0` (stage 3). -/
  | update_inuse_zero
  /-- Statement `delete from data_blocks where inode not in (select inode from inodes)`
  (stage 4). -/
  | delete_orphan_blocks
  /-- Statement `UPDATE data_blocks SET datalength = OCTET_LENGTH(data)` (stage 5). -/
  | update_all_datalength
  /-- Statement `select inode, sum(datalength) as size from data_blocks group by inode`
  (stage 5). -/
  | select_sizes
  /-- Statement `UPDATE statistics SET value = (SELECT COUNT(*) FROM inodes) WHERE key =
  'total_inodes_count'` (stage 6). -/
  | update_total_inodes_count
  /-- Statement `UPDATE statistics SET value = (SELECT SUM(size) FROM inodes) WHERE key =
  'total_inodes_size'` (stage 6). -/
  | update_total_inodes_size
  /-- Statement `OPTIMIZE TABLE inodes` (stage 7). -/
  | optimize_inodes
  /-- Statement `OPTIMIZE TABLE tree` (stage 7). -/
  | optimize_tree
deriving DecidableEq

/-- A database session: the tables, the snapshot a running transaction rolls
back to, the session variable `@iNodeSize`, the faults still to come (one
entry per statement, `true` for a statement that fails) and the statements
sent so far. -/
structure Conn where
  db : Tables
  txn : Option Tables
  iNodeSize : Option Nat
  faults : List Bool
  log : List Stmt
  /-- The `AUTO_INCREMENT` counter of `tree` as the server holds it; the next
  number handed out is at least this and past every inode number of `tree`. -/
  auto_increment : Nat := 0
  /-- What `mysql_insert_id` returns: the number the last `INSERT` generated. -/
  insert_id : Nat := 0
  /-- What `UNIX_TIMESTAMP(NOW())` gives. -/
  clock : Nat := 0
deriving DecidableEq

/-! ## SQL semantics -/

/-- SQL `RPAD(data, n, '\0')`: cut to `n` bytes, or filled up to `n` with zero bytes. -/
def RPAD (data : List Byte) (n : Nat) : List Byte :=
  data.take n ++ List.replicate (n - data.length) 0

/-- SQL `SUBSTRING(data FROM p)`. -/
def SUBSTRING (data : List Byte) (p : Nat) : List Byte :=
  data.drop (p - 1)

/-- Value of one operand on a row's `data`. -/
def DataExpr.eval (data arg : List Byte) : DataExpr → List Byte
  | .param => arg
  | .data => data
  | .rpad n => RPAD data n
  | .substring_from p => SUBSTRING data p

/-- SQL `CONCAT` of the operands. -/
def CONCAT (data arg : List Byte) (parts : List DataExpr) : List Byte :=
  (parts.map (DataExpr.eval data arg)).flatten

/-- The rows of block `seq` of `inode`. -/
def rows_of_block (t : Tables) (inode seq : Nat) : List BlockRow :=
  t.data_blocks.filter (fun r => r.inode = inode ∧ r.seq = seq)

/-- SQL `SUM(datalength)` over the rows of `inode`; NULL when there is none. -/
def SUM_datalength (t : Tables) (inode : Nat) : Option Nat :=
  match t.data_blocks.filter (fun r => r.inode = inode) with
  | [] => none
  | rs => some (rs.map (·.datalength)).sum

/-- The session with its `data_blocks` table replaced. -/
def Conn.with_blocks (c : Conn) (rows : List BlockRow) : Conn :=
  { c with db := { c.db with data_blocks := rows } }

/-- The session with its `inodes` table replaced. -/
def Conn.with_inodes (c : Conn) (rows : List InodeRow) : Conn :=
  { c with db := { c.db with inodes := rows } }

/-- The session with its `tree` table replaced. -/
def Conn.with_tree (c : Conn) (rows : List TreeRow) : Conn :=
  { c with db := { c.db with tree := rows } }

/-- SQL `t.parent = p` for a number `p`: never true of a NULL parent. -/
def TreeRow.parent_eq (t : TreeRow) (p : Int) : Bool :=
  match t.parent with
  | some q => decide ((q : Int) = p)
  | none => false

/-- SQL `~x` on the 64 bit unsigned integers the bit operators work on. -/
def BIT_NOT (x : Nat) : Nat := 2 ^ 64 - 1 - x

/-- The value `(((mode >> 9) << 9) | ((m & ~ 32768) & ~16384))` that the statement
of `query_chmod` assigns, `mode` being the stored mode. -/
def query_chmod_sql (mode m : Nat) : Nat :=
  ((mode >>> 9) <<< 9) ||| ((m &&& BIT_NOT 32768) &&& BIT_NOT 16384)

/-- Result of `SELECT COUNT(*) FROM tree AS t0 JOIN tree AS t1 ON t0.parent = t1.inode
WHERE t1.name='name' AND t1.parent = p`: the rows whose parent is the inode of
an entry `name` of directory `p`. -/
def count_children (t : Tables) (name : List Byte) (parent : Int) : Nat :=
  ((t.tree.filter (fun t1 => t1.name = name ∧ t1.parent_eq parent)).flatMap
    (fun t1 => t.tree.filter (fun t0 => t0.parent = some t1.inode))).length

/-- The row that `INSERT INTO inodes (inode, mode, uid, gid, atime, ctime, mtime)`
stores: the three times are `now`, the other columns have their default 0. -/
def new_inode_row (inode mode uid gid now : Nat) : InodeRow :=
  { inode := inode, mode := mode, uid := uid, gid := gid, atime := now, mtime := now,
    ctime := now, size := 0, inuse := 0, deleted := false }

/-- The inode number the next `INSERT` into `tree` generates: the counter, or
the number past the largest one in the table when the counter lags behind
(as it does after a restart of the server). -/
def next_inode (c : Conn) : Nat :=
  max c.auto_increment ((c.db.tree.map (fun t => t.inode)).foldr max 0 + 1)

/-- Effect of a statement that does not fail.  `none` is a statement the
server refuses: a duplicate primary key of `data_blocks`, a second entry of
the same name in a directory, a negative number for an unsigned column, a
malformed string, a text that was cut off.  A NULL assigned to `size` is
stored as 0.  The keys are those of the schema as section 3 of the
specification gives it (the table definitions are not among the sources):
name uniqueness is per parent, `inode` is the primary key of `inodes`, and the
block rows of an inode are deleted with its inode row.  The table
`statistics` is not part of the model: the statements on it change none of
the three tables. -/
def exec (c : Conn) : Stmt → Option Conn
  | .BEGIN => some { c with txn := some c.db }
  | .COMMIT => some { c with txn := none }
  | .ROLLBACK => some { c with db := c.txn.getD c.db, txn := none }
  | .delete_blocks_after i s =>
    some (c.with_blocks (c.db.data_blocks.filter (fun r => ¬ (r.inode = i ∧ r.seq > s))))
  | .update_data parts arg i s =>
    some (c.with_blocks (c.db.data_blocks.map (fun r =>
      if r.inode = i ∧ r.seq = s then { r with data := CONCAT r.data arg parts } else r)))
  | .update_datalength i s =>
    some (c.with_blocks (c.db.data_blocks.map (fun r =>
      if r.inode = i ∧ r.seq = s then { r with datalength := r.data.length } else r)))
  | .update_size n i =>
    some (c.with_inodes (c.db.inodes.map (fun r =>
      if r.inode = i then { r with size := n } else r)))
  | .insert_block i s =>
    if rows_of_block c.db i s = [] then
      some (c.with_blocks
        (c.db.data_blocks ++ [{ inode := i, seq := s, data := [], datalength := 0 }]))
    else none
  | .select_sum_into i => some { c with iNodeSize := SUM_datalength c.db i }
  | .update_size_from i =>
    some (c.with_inodes (c.db.inodes.map (fun r =>
      if r.inode = i then { r with size := c.iNodeSize.getD 0 } else r)))
  | .select_datalength _ _ => some c
  | .select_block _ _ => some c
  | .select_blocks _ _ _ => some c
  | .select_path _ _ => some c
  | .cut_off _ => none
  | .insert_tree lit parent inode =>
    match sql_string_value lit with
    | none => none
    | some name =>
      if parent < 0 ∨ inode < 0 then none
      else if c.db.tree.filter (fun t => t.name = name ∧ t.parent_eq parent) = [] then
        some (c.with_tree
          (c.db.tree ++ [{ inode := inode.toNat, parent := some parent.toNat, name := name }]))
      else none
  | .select_count_children lit _ =>
    match sql_string_value lit with
    | none => none
    | some _ => some c
  | .delete_tree lit parent =>
    match sql_string_value lit with
    | none => none
    | some name =>
      some (c.with_tree (c.db.tree.filter (fun t => ¬ (t.name = name ∧ t.parent_eq parent))))
  | .update_tree new_lit parent_to inode old_lit parent_from =>
    match sql_string_value new_lit, sql_string_value old_lit with
    | some new_name, some old_name =>
      if c.db.tree.filter (fun t => (t.inode : Int) = inode ∧ t.name = old_name ∧
          t.parent_eq parent_from) = [] then some c
      else if parent_to < 0 then none
      else if ((c.db.tree.map (fun t =>
            if (t.inode : Int) = inode ∧ t.name = old_name ∧ t.parent_eq parent_from then
              { t with name := new_name, parent := some parent_to.toNat }
            else t)).filter (fun t => t.name = new_name ∧ t.parent_eq parent_to)).length ≤ 1 then
        some (c.with_tree (c.db.tree.map (fun t =>
            if (t.inode : Int) = inode ∧ t.name = old_name ∧ t.parent_eq parent_from then
              { t with name := new_name, parent := some parent_to.toNat }
            else t)))
      else none
    | _, _ => none
  | .update_mode m i =>
    some (c.with_inodes (c.db.inodes.map (fun r =>
      if (r.inode : Int) = i then { r with mode := query_chmod_sql r.mode m } else r)))
  | .select_attr _ => some c
  | .select_size _ => some c
  | .update_inuse n i =>
    some (c.with_inodes (c.db.inodes.map (fun r =>
      if (r.inode : Int) = i then { r with inuse := r.inuse + n } else r)))
  | .delete_purged i =>
    some { c with db :=
      { inodes := c.db.inodes.filter (fun r =>
          ¬ ((r.inode : Int) = i ∧ r.inuse = 0 ∧ r.deleted = true))
        tree := c.db.tree
        data_blocks :=
          if c.db.inodes.filter (fun r =>
              (r.inode : Int) = i ∧ r.inuse = 0 ∧ r.deleted = true) = [] then c.db.data_blocks
          else c.db.data_blocks.filter (fun b => ¬ ((b.inode : Int) = i)) } }
  | .update_deleted i =>
    some (c.with_inodes (c.db.inodes.map (fun r =>
      if (r.inode : Int) = i ∧ c.db.tree.filter (fun t => t.inode = r.inode) = [] then
        { r with deleted := true }
      else r)))
  | .update_owner uid gid i =>
    if uid = none ∧ gid = none then none
    else if uid.getD 0 < 0 ∨ gid.getD 0 < 0 then none
    else
      some (c.with_inodes (c.db.inodes.map (fun r =>
        if (r.inode : Int) = i then
          { r with uid := (uid.getD r.uid).toNat, gid := (gid.getD r.gid).toNat }
        else r)))
  | .insert_tree_root =>
    some { c.with_tree (c.db.tree ++ [{ inode := next_inode c, parent := none, name := [47] }])
      with auto_increment := next_inode c + 1, insert_id := next_inode c }
  | .insert_tree_auto lit parent =>
    match sql_string_value lit with
    | none => none
    | some name =>
      if parent < 0 then none
      else if c.db.tree.filter (fun t => t.name = name ∧ t.parent_eq parent) = [] then
        some { c.with_tree
            (c.db.tree ++ [{ inode := next_inode c, parent := some parent.toNat, name := name }])
          with auto_increment := next_inode c + 1, insert_id := next_inode c }
      else none
  | .insert_inode i mode uid gid =>
    if i < 0 ∨ mode < 0 ∨ uid < 0 ∨ gid < 0 then none
    else if c.db.inodes.filter (fun r => (r.inode : Int) = i) = [] then
      some (c.with_inodes (c.db.inodes ++ [new_inode_row i.toNat mode.toNat uid.toNat gid.toNat
        c.clock]))
    else none
  | .select_names _ => some c
  | .delete_deleted_inodes =>
    some { c with db :=
      { inodes := c.db.inodes.filter (fun r => ¬ (r.deleted = true))
        tree := c.db.tree
        data_blocks := c.db.data_blocks.filter (fun b =>
          c.db.inodes.filter (fun r => r.inode = b.inode ∧ r.deleted = true) = []) } }
  | .delete_orphan_tree =>
    some (c.with_tree (c.db.tree.filter (fun t =>
      ¬ (c.db.inodes.filter (fun r => r.inode = t.inode) = []))))
  | .update_inuse_zero =>
    some (c.with_inodes (c.db.inodes.map (fun r => { r with inuse := 0 })))
  | .delete_orphan_blocks =>
    some (c.with_blocks (c.db.data_blocks.filter (fun b =>
      ¬ (c.db.inodes.filter (fun r => r.inode = b.inode) = []))))
  | .update_all_datalength =>
    some (c.with_blocks (c.db.data_blocks.map (fun r => { r with datalength := r.data.length })))
  | .select_sizes => some c
  | .update_total_inodes_count => some c
  | .update_total_inodes_size => some c
  | .optimize_inodes => some c
  | .optimize_tree => some c

/-- The session after `s` went out: one entry of the fault schedule is used
up and the statement is logged. -/
def Conn.sent (c : Conn) (s : Stmt) : Conn :=
  { c with faults := c.faults.tail, log := c.log ++ [s] }

/-- Library call `mysql_query` (and, for the prepared statement of `write_one_block`,
prepare, bind and execute): 0 and the statement's effect, or 1 and no effect
when the fault schedule or the statement itself fails. -/
def mysql_query (c : Conn) (s : Stmt) : Int × Conn :=
  if c.faults.head? = some true then (1, c.sent s)
  else match exec (c.sent s) s with
    | some c2 => (0, c2)
    | none => (1, c.sent s)

/-! ## Path lookup -/

/-- Pieces of a path between slashes, `cur` being the piece under way. -/
def strtok_go : List Byte → List Byte → List (List Byte)
  | [], cur => if cur = [] then [] else [cur]
  | b :: rest, cur =>
    if b = 47 then (if cur = [] then strtok_go rest [] else cur :: strtok_go rest [])
    else strtok_go rest (cur ++ [b])

/-- The tokens `strtok_r(path, "/", ..)` hands out until it returns NULL: the
non-empty pieces of `path` between slashes. -/
def strtok_r (path : List Byte) : List (List Byte) :=
  strtok_go path []

/-- Rows `t_d` of the self-join after the components `names`, given the rows
`cur` reached so far: `JOIN tree AS t_d ON t_(d-1).inode = t_d.parent` with
`t_d.name = name`. -/
def join_path (tree : List TreeRow) : List (List Byte) → List TreeRow → List TreeRow
  | [], cur => cur
  | name :: names, cur =>
    join_path tree names
      (cur.flatMap (fun p => tree.filter (fun t => t.parent = some p.inode ∧ t.name = name)))

/-- Result rows of the lookup statement: `t0.parent IS NULL`, then one join per
component. -/
def select_path_rows (t : Tables) (names : List (List Byte)) : List TreeRow :=
  join_path t.tree names (t.tree.filter (fun r => r.parent = none))

/-- What `query_inode_full` stores through its pointers. -/
structure inode_full where
  name : List Byte
  inode : Int
  parent : Int
  nlinks : Int
deriving DecidableEq

/-- Value of `tables->tree` after `query_tablename_init` with an empty prefix. -/
def tables_tree : List Byte := bytes "tree"

/-- What `" JOIN %s AS t%d ON t%d.inode = t%d.parent"` prints for `depth`, `depth-1`,
`depth`. -/
def join_clause (depth : Nat) : List Byte :=
  bytes " JOIN " ++ tables_tree ++ bytes " AS t" ++ decimal depth ++ bytes " ON t"
    ++ decimal (depth - 1) ++ bytes ".inode = t" ++ decimal depth ++ bytes ".parent"

/-- What `" AND t%d.name = '%s'"` prints for `depth` and the escaped name. -/
def name_condition (depth : Nat) (esc_name : List Byte) : List Byte :=
  bytes " AND t" ++ decimal depth ++ bytes ".name = '" ++ esc_name ++ bytes "'"

/-- The `while` loop of `query_inode_full` over the tokens still to come: `depth`
counts them, `sql_from` gets one `JOIN` and `sql_where` one condition on the
escaped name for each.  (Both arrays are `SQL_MAX` bytes long; the model is
exact as long as the clauses stay below that.) -/
def query_inode_full_loop : List (List Byte) → Nat → List Byte → List Byte →
    Nat × List Byte × List Byte
  | [], depth, sql_from, sql_where => (depth, sql_from, sql_where)
  | nameptr :: rest, depth, sql_from, sql_where =>
    query_inode_full_loop rest (depth + 1)
      (sql_from ++ join_clause (depth + 1))
      (sql_where ++ name_condition (depth + 1) (mysql_real_escape_string nameptr))

/-- What the last `snprintf` of `query_inode_full` formats: the `SELECT` over the
clauses the loop has built, with the link count as a subquery when `nlinks`
is asked for. -/
def query_inode_full_format (path : List Byte) (nlinks : Bool) : List Byte :=
  match query_inode_full_loop (strtok_r path) 0 (tables_tree ++ bytes " AS t0")
      (bytes "t0.parent IS NULL") with
  | (depth, sql_from, sql_where) =>
    if nlinks then
      bytes "SELECT t" ++ decimal depth ++ bytes ".inode, t" ++ decimal depth
        ++ bytes ".name, t" ++ decimal depth ++ bytes ".parent, "
        ++ bytes "       (SELECT COUNT(inode) FROM " ++ tables_tree ++ bytes " AS t"
        ++ decimal (depth + 1) ++ bytes " WHERE t" ++ decimal (depth + 1) ++ bytes ".inode=t"
        ++ decimal depth ++ bytes ".inode) " ++ bytes "               AS nlinks "
        ++ bytes "FROM " ++ sql_from ++ bytes " WHERE " ++ sql_where
    else
      bytes "SELECT t" ++ decimal depth ++ bytes ".inode, t" ++ decimal depth
        ++ bytes ".name, t" ++ decimal depth ++ bytes ".parent, 1 AS nlinks "
        ++ bytes "FROM " ++ sql_from ++ bytes " WHERE " ++ sql_where

/-- The text in `sql` that `query_inode_full` hands to `mysql_query`. -/
def query_inode_full_sql (path : List Byte) (nlinks : Bool) : List Byte :=
  snprintf SQL_MAX (query_inode_full_format path nlinks)

/-- The statement that text is: the lookup by the components of the path, or,
when the buffer was too small for it, a text cut off. -/
def query_inode_full_stmt (path : List Byte) (nlinks : Bool) : Stmt :=
  if (query_inode_full_format path nlinks).length < SQL_MAX then
    .select_path (strtok_r path) nlinks
  else .cut_off (query_inode_full_sql path nlinks)

/-- Source function `query_inode_full` (query.c:153); `nlinks` says whether the caller passed a
pointer for the link count.  Names are at most 255 bytes long in the table,
so the copy into the caller's `name[PATH_MAX]` is the name itself. -/
def query_inode_full (c : Conn) (path : List Byte) (nlinks : Bool) :
    Int × Option inode_full × Conn :=
  let names := strtok_r path
  let (ret, c) := mysql_query c (query_inode_full_stmt path nlinks)
  if ret ≠ 0 then (- EIO, none, c)
  else match select_path_rows c.db names with
    | [row] =>
      (0, some { name := row.name
                 inode := row.inode
                 parent := match row.parent with
                   | some p => p
                   | none => -1
                 nlinks := if nlinks then
                     ((c.db.tree.filter (fun t => t.inode = row.inode)).length : Int)
                   else 1 }, c)
    | _ => (- ENOENT, none, c)

/-- Source function `query_inode` (query.c:253). -/
def query_inode (c : Conn) (path : List Byte) : Int × Conn :=
  match query_inode_full c path false with
  | (ret, some r, c1) => if ret < 0 then (ret, c1) else (r.inode, c1)
  | (ret, none, c1) => (ret, c1)

/-! ## Truncate -/

/-- The `err_out` exit of `query_truncate`: roll back, return what `ROLLBACK`
returned. -/
def query_truncate_err_out (c : Conn) : Int × Conn :=
  mysql_query c .ROLLBACK

/-- Source function `query_truncate` (query.c:279). -/
def query_truncate (B : Nat) (c : Conn) (path : List Byte) (length : Nat) : Int × Conn :=
  let info := fill_data_blocks_info B length 0
  let (inode, c) := query_inode c path
  if inode < 0 then (inode, c) else
  let i := inode.toNat
  let (_, c) := mysql_query c .BEGIN
  let (ret, c) := mysql_query c (.delete_blocks_after i info.seq_last)
  if ret ≠ 0 then query_truncate_err_out c else
  let (ret, c) := mysql_query c (.update_data [.rpad info.length_last] [] i info.seq_last)
  if ret ≠ 0 then query_truncate_err_out c else
  let (ret, c) := mysql_query c (.update_datalength i info.seq_last)
  if ret ≠ 0 then query_truncate_err_out c else
  let (ret, c) := mysql_query c (.update_size length i)
  if ret ≠ 0 then query_truncate_err_out c else
  let (_, c) := mysql_query c .COMMIT
  (0, c)

/-! ## Read -/

/-- The `alloca`ed, `memset` block of `DATA_BLOCK_SIZE` zero bytes. -/
def zeroes (B : Nat) : List Byte := List.replicate B 0

/-- The result set of the `SELECT` of `query_read`, in the order the cursor
hands the rows out. -/
def select_blocks_rows (t : Tables) (inode first last : Nat) : List BlockRow :=
  if first = last then rows_of_block t inode first
  else List.insertionSort (fun a b : BlockRow => a.seq ≤ b.seq)
    (t.data_blocks.filter (fun r => r.inode = inode ∧ first ≤ r.seq ∧ r.seq ≤ last))

/-- The row under the cursor when it is the row of block `seq`
(`row && (row_seq = atoll(row[0])) == seq`). -/
def cursor_hit (rows : List BlockRow) (seq : Nat) : Option BlockRow :=
  match rows with
  | row :: _ => if row.seq = seq then some row else none
  | [] => none

/-- The source of the copy: `row[1]` on a hit, the block of zero bytes otherwise. -/
def hit_data (B : Nat) (hit : Option BlockRow) : List Byte :=
  match hit with
  | some row => row.data
  | none => zeroes B

/-- The value of `row_len`: `atoll(row[2])` on a hit, `DATA_BLOCK_SIZE` otherwise. -/
def hit_len (B : Nat) (hit : Option BlockRow) : Nat :=
  match hit with
  | some row => row.datalength
  | none => B

/-- One round of the loop of `query_read`, for block `seq`: `hit` is the row
when the cursor holds the row of `seq`, `out` the bytes copied to `buf` so far
and `length` their count.  `none` is the jump to `go_away`. -/
def query_read_block (B : Nat) (info : data_blocks_info) (seq : Nat) (hit : Option BlockRow)
    (out : List Byte) (length : Nat) : Option (List Byte × Nat) :=
  let data : List Byte := hit_data B hit
  let row_len : Nat := hit_len B hit
  if seq = info.seq_first ∧ row_len < info.offset_first then none
  else
    let copy_len : Nat :=
      if seq = info.seq_first then min (row_len - info.offset_first) info.length_first
      else if seq = info.seq_last then min info.length_last row_len
      else min B row_len
    let src : List Byte := if seq = info.seq_first then data.drop info.offset_first else data
    some (out ++ src.take copy_len, length + copy_len)

/-- The `for (seq = info.seq_first; seq <= info.seq_last; seq++)` loop of
`query_read` with `n` rounds left; `rows` is the cursor (its head is `row`).
The result is the state at `go_away`. -/
def query_read_loop (B : Nat) (info : data_blocks_info) :
    Nat → Nat → List BlockRow → List Byte → Nat → List Byte × Nat
  | 0, _, _, out, length => (out, length)
  | n + 1, seq, rows, out, length =>
    match query_read_block B info seq (cursor_hit rows seq) out length with
    | none => (out, length)
    | some (out1, length1) =>
      query_read_loop B info n (seq + 1)
        (if (cursor_hit rows seq).isSome then rows.tail else rows) out1 length1

/-- Source function `query_read` (query.c:700): the returned value, the bytes stored at the
start of `buf`, and the session.  The value is the count `length` itself, which
is what the `int` holds for a request of up to `INT_MAX` bytes. -/
def query_read (B : Nat) (c : Conn) (inode size offset : Nat) : Int × List Byte × Conn :=
  let info := fill_data_blocks_info B size offset
  let (ret, c) := mysql_query c
    (if info.seq_first = info.seq_last then .select_block inode info.seq_first
     else .select_blocks inode info.seq_first info.seq_last)
  if ret ≠ 0 then (- EIO, [], c)
  else
    let rows := select_blocks_rows c.db inode info.seq_first info.seq_last
    let r := query_read_loop B info (info.seq_last + 1 - info.seq_first) info.seq_first rows [] 0
    ((r.2 : Int), r.1, c)

/-! ## Write -/

/-- Source function `query_size_block` (query.c:1109). -/
def query_size_block (c : Conn) (inode seq : Nat) : Int × Conn :=
  let (ret, c) := mysql_query c (.select_datalength inode seq)
  if ret ≠ 0 then (- EIO, c)
  else match rows_of_block c.db inode seq with
    | [] => (- ENXIO, c)
    | row :: _ => (row.datalength, c)

/-- The operands of the `UPDATE` that `write_one_block` builds, by the block's
current size. -/
def write_one_block_sql (current_block_size size offset : Nat) : List DataExpr :=
  if offset = 0 ∧ current_block_size = 0 then [.param]
  else if offset = current_block_size then [.data, .param]
  else
    (if offset > 0 then [.rpad offset] else []) ++ [.param] ++
      (if offset + size < current_block_size then [.substring_from (offset + size + 1)] else [])

/-- Source function `write_one_block` (query.c:808); `data` starts at the caller's pointer. -/
def write_one_block (B : Nat) (c : Conn) (inode seq : Nat) (data : List Byte)
    (size offset : Nat) : Int × Conn :=
  let (r, c) := query_size_block c inode seq
  let current_block_size := size_t r
  if size = 0 then (0, c)
  else if offset + size > B then (- EIO, c)
  else
    let seed : Int × Nat × Conn :=
      if current_block_size = size_t (- ENXIO) then
        let (ret, c1) := mysql_query c (.insert_block inode seq)
        (ret, 0, c1)
      else (0, current_block_size, c)
    if seed.1 ≠ 0 then (- EIO, seed.2.2)
    else
      let (ret, c) := mysql_query seed.2.2
        (.update_data (write_one_block_sql seed.2.1 size offset) (data.take size) inode seq)
      if ret ≠ 0 then (- EIO, c)
      else
        let (ret, c) := mysql_query c (.update_datalength inode seq)
        if ret ≠ 0 then (- EIO, c)
        else ((size : Int), c)

/-- The loop of `query_write` over the full-sized intermediate blocks with `n`
rounds left; `ptr` is the offset of `ptr` from `data`.  An error result is the
value `query_write` returns after its `ROLLBACK`. -/
def query_write_loop (B : Nat) (inode : Nat) (data : List Byte) :
    Nat → Nat → Nat → Int → Conn → Except (Int × Conn) (Nat × Int × Conn)
  | 0, _, ptr, ret_size, c => .ok (ptr, ret_size, c)
  | n + 1, seq, ptr, ret_size, c =>
    let (ret, c) := write_one_block B c inode seq (data.drop ptr) B 0
    if ret < 0 then .error (ret, (mysql_query c .ROLLBACK).2)
    else query_write_loop B inode data n (seq + 1) (ptr + B) (ret_size + ret) c

/-- The end of `query_write`: `COMMIT`, then the size update. -/
def query_write_finish (c : Conn) (inode : Nat) (ret_size : Int) : Int × Conn :=
  let (_, c) := mysql_query c .COMMIT
  let (_, c) := mysql_query c (.select_sum_into inode)
  let (ret, c) := mysql_query c (.update_size_from inode)
  if ret ≠ 0 then (- EIO, c) else (ret_size, c)

/-- Source function `query_write` (query.c:952).  The value returned is the sum of the
counts itself, which is what the `int` `ret_size` holds for a request of up to
`INT_MAX` bytes. -/
def query_write (B : Nat) (c : Conn) (inode : Nat) (data : List Byte) (size offset : Nat) :
    Int × Conn :=
  let info := fill_data_blocks_info B size offset
  let (_, c) := mysql_query c .BEGIN
  let (ret, c) := write_one_block B c inode info.seq_first data info.length_first info.offset_first
  if ret < 0 then (ret, c)
  else if info.seq_first ≠ info.seq_last then
    match query_write_loop B inode data (info.seq_last - (info.seq_first + 1))
        (info.seq_first + 1) info.length_first ret c with
    | .error e => e
    | .ok (ptr, ret_size, c) =>
      let (ret, c) := write_one_block B c inode info.seq_last (data.drop ptr) info.length_last 0
      if ret < 0 then (ret, (mysql_query c .ROLLBACK).2)
      else query_write_finish c inode (ret_size + ret)
  else query_write_finish c inode ret

/-- The primary key of `data_blocks`: no two rows share `(inode, seq)`. -/
def PrimaryKey (rows : List BlockRow) : Prop :=
  rows.Pairwise (fun a b => ¬ (a.inode = b.inode ∧ a.seq = b.seq))

/-- The block invariant of one row: `datalength = length(data) <= DATA_BLOCK_SIZE`. -/
def BlockInv (B : Nat) (r : BlockRow) : Prop :=
  r.datalength = r.data.length ∧ r.data.length ≤ B

/-- A block size the build can have: `DATA_BLOCK_SIZE` is a positive `int`
(it is printed with `%d`). -/
def BlockSize (B : Nat) : Prop :=
  0 < B ∧ B ≤ INT_MAX

/-- The row of block `seq` of `inode`, if there is one. -/
def block_at (rows : List BlockRow) (inode seq : Nat) : Option BlockRow :=
  rows.find? (fun r => r.inode = inode ∧ r.seq = seq)

/-- The byte of the file at position `p`: byte `p mod B` of block `p / B` when
that row exists and is that long, zero otherwise. -/
def file_byte (B : Nat) (rows : List BlockRow) (inode p : Nat) : Byte :=
  match block_at rows inode (p / B) with
  | some r => r.data.getD (p % B) 0
  | none => 0

/-- Bytes of `data` with `arg` written at `off`: the first `off` bytes (filled up with
zero bytes), then `arg`, then what `data` holds behind it. -/
def splice (data : List Byte) (off : Nat) (arg : List Byte) : List Byte :=
  RPAD data off ++ arg ++ data.drop (off + arg.length)

/-- The table after block `(inode, seq)` took `arg` at `off`: the row is
rewritten, or appended when there was none. -/
def put_block (rows : List BlockRow) (inode seq off : Nat) (arg : List Byte) : List BlockRow :=
  if rows.filter (fun r => r.inode = inode ∧ r.seq = seq) = [] then
    rows ++ [{ inode := inode, seq := seq, data := splice [] off arg,
               datalength := (splice [] off arg).length }]
  else
    rows.map (fun r =>
      if r.inode = inode ∧ r.seq = seq then
        { r with data := splice r.data off arg, datalength := (splice r.data off arg).length }
      else r)

/-- The loop of `query_read` with the cursor replaced by a lookup `f` of the
row of each block. -/
def read_blocks (B : Nat) (info : data_blocks_info) (f : Nat → Option BlockRow) :
    Nat → Nat → List Byte → Nat → List Byte × Nat
  | 0, _, out, length => (out, length)
  | n + 1, seq, out, length =>
    match query_read_block B info seq (f seq) out length with
    | none => (out, length)
    | some (out1, length1) => read_blocks B info f n (seq + 1) out1 length1

/-- The table after a block took `arg` at `off`, nothing being written for an
empty `arg`. -/
def put_bytes (rows : List BlockRow) (inode seq off : Nat) (arg : List Byte) : List BlockRow :=
  if arg.length = 0 then rows else put_block rows inode seq off arg

/-- The table after the loop of `query_write` over the intermediate blocks. -/
def write_loop_rows (B inode : Nat) (data : List Byte) :
    Nat → Nat → Nat → List BlockRow → List BlockRow
  | 0, _, _, rows => rows
  | n + 1, seq, ptr, rows =>
    write_loop_rows B inode data n (seq + 1) (ptr + B)
      (put_bytes rows inode seq 0 ((data.drop ptr).take B))

/-- The `data_blocks` table after `query_write` of `data` at `offset`, every
statement succeeding. -/
def query_write_rows (B : Nat) (rows : List BlockRow) (inode : Nat) (data : List Byte)
    (offset : Nat) : List BlockRow :=
  let info := fill_data_blocks_info B data.length offset
  let rows1 := put_bytes rows inode info.seq_first info.offset_first (data.take info.length_first)
  if info.seq_first ≠ info.seq_last then
    let n := info.seq_last - (info.seq_first + 1)
    let rows2 := write_loop_rows B inode data n (info.seq_first + 1) info.length_first rows1
    put_bytes rows2 inode info.seq_last 0
      ((data.drop (info.length_first + n * B)).take info.length_last)
  else rows1

/-- SQL `SUM(datalength)` over the rows of `inode`, 0 when there is none. -/
def sum_datalength (rows : List BlockRow) (inode : Nat) : Nat :=
  ((rows.filter (fun r => r.inode = inode)).map (·.datalength)).sum

/-! ## Order of the result set -/

/-- The order of `ORDER BY seq ASC` is total. -/
instance : IsTotal BlockRow (fun a b => a.seq ≤ b.seq) := ⟨fun a b => Nat.le_total a.seq b.seq⟩

/-- The order of `ORDER BY seq ASC` is transitive. -/
instance : IsTrans BlockRow (fun a b => a.seq ≤ b.seq) :=
  ⟨fun _ _ _ h1 h2 => Nat.le_trans h1 h2⟩

/-! ## Sample databases -/

/-- An inode row of a regular file owned by root, of size 0. -/
def sample_inode (inode : Nat) : InodeRow :=
  { inode := inode, mode := 33188, uid := 0, gid := 0, atime := 0, mtime := 0, ctime := 0,
    size := 0, inuse := 0, deleted := false }

/-- A session on a database with the root directory (inode 0) and the file
`/a` (inode 1), holding the given block rows. -/
def sample_conn (rows : List BlockRow) : Conn :=
  { db := { inodes := [sample_inode 0, sample_inode 1]
            tree := [{ inode := 0, parent := none, name := [47] },
                     { inode := 1, parent := some 0, name := [97] }]
            data_blocks := rows }
    txn := none
    iNodeSize := none
    faults := []
    log := [] }


/-! ## Directory entries -/

/-- Source function `query_mkdirentry` (query.c:348): the name is escaped here and put between
quotes. -/
def query_mkdirentry (c : Conn) (inode : Int) (name : List Byte) (parent : Int) : Int × Conn :=
  let esc_name := mysql_real_escape_string name
  let (ret, c) := mysql_query c (.insert_tree esc_name parent inode)
  if ret ≠ 0 then (- EIO, c) else (0, c)

/-- The number in the one row that `SELECT COUNT(*) ..` of `query_rmdirentry`
returns, `name` being the text between the quotes. -/
def select_count_children_row (t : Tables) (name : List Byte) (parent : Int) : Nat :=
  match sql_string_value name with
  | some v => count_children t v parent
  | none => 0

/-- Source function `query_rmdirentry` (query.c:378): count the rows below the entry, refuse
with `-ENOTEMPTY` when there is one, delete the entry otherwise. -/
def query_rmdirentry (c : Conn) (name : List Byte) (parent : Int) : Int × Conn :=
  let esc_name := mysql_real_escape_string name
  let (ret, c) := mysql_query c (.select_count_children esc_name parent)
  if ret ≠ 0 then (- EIO, c) else
  if select_count_children_row c.db esc_name parent ≠ 0 then (- ENOTEMPTY, c) else
  let (ret, c) := mysql_query c (.delete_tree esc_name parent)
  if ret ≠ 0 then (- EIO, c) else (0, c)

/-- Source function `query_rename` (query.c:1164): three lookups whose results are used as they
come, then one `UPDATE` of the entry. -/
def query_rename (c : Conn) (path_from path_to : List Byte) : Int × Conn :=
  let (inode, c) := query_inode c path_from
  let (parent_from, c) := query_inode c (dirname path_from)
  let esc_old_name := mysql_real_escape_string (basename path_from)
  let (parent_to, c) := query_inode c (dirname path_to)
  let esc_new_name := mysql_real_escape_string (basename path_to)
  let (ret, c) := mysql_query c
    (.update_tree esc_new_name parent_to inode esc_old_name parent_from)
  if ret ≠ 0 then (- EIO, c) else (0, c)

/-! ## Inode attributes -/

/-- Source function `query_chmod` (query.c:587). -/
def query_chmod (c : Conn) (inode : Int) (mode : Nat) : Int × Conn :=
  let (ret, c) := mysql_query c (.update_mode mode inode)
  if ret ≠ 0 then (- EIO, c) else (0, c)

/-- The fields of `struct stat` that the callbacks fill in. -/
structure stat where
  st_ino : Int
  st_mode : Int
  st_nlink : Int
  st_uid : Int
  st_gid : Int
  st_size : Int
  st_blksize : Int
  st_blocks : Int
  st_atime : Int
  st_mtime : Int
deriving DecidableEq

/-- Source function `query_getattr` (query.c:77), `B` being `DATA_BLOCK_SIZE`. -/
def query_getattr (B : Nat) (c : Conn) (path : List Byte) (stbuf : stat) :
    Int × stat × Conn :=
  match query_inode_full c path true with
  | (ret, none, c) => (ret, stbuf, c)
  | (ret, some r, c) =>
    if ret < 0 then (ret, stbuf, c) else
    let (ret, c) := mysql_query c (.select_attr r.inode)
    if ret ≠ 0 then (- EIO, stbuf, c) else
    match c.db.inodes.filter (fun x => (x.inode : Int) = r.inode) with
    | [row] =>
      (0, { stbuf with
              st_ino := r.inode
              st_mode := row.mode
              st_uid := row.uid
              st_gid := row.gid
              st_atime := row.atime
              st_mtime := row.mtime
              st_nlink := r.nlinks
              st_blksize := B }, c)
    | _ => (- ENOENT, stbuf, c)

/-- Source function `query_size` (query.c:1054). -/
def query_size (c : Conn) (inode : Int) : Int × Conn :=
  let (ret, c) := mysql_query c (.select_size inode)
  if ret ≠ 0 then (- EIO, c) else
  match c.db.inodes.filter (fun x => (x.inode : Int) = inode) with
  | [row] => (row.size, c)
  | _ => (- EIO, c)

/-- Source function `query_inuse_inc` (query.c:1229). -/
def query_inuse_inc (c : Conn) (inode : Int) (increment : Int) : Int × Conn :=
  let (ret, c) := mysql_query c (.update_inuse increment inode)
  if ret ≠ 0 then (- EIO, c) else (0, c)

/-- Source function `query_purge_deleted` (query.c:1259). -/
def query_purge_deleted (c : Conn) (inode : Int) : Int × Conn :=
  let (ret, c) := mysql_query c (.delete_purged inode)
  if ret ≠ 0 then (- EIO, c) else (0, c)

/-- Source function `query_set_deleted` (query.c:1289). -/
def query_set_deleted (c : Conn) (inode : Int) : Int × Conn :=
  let (ret, c) := mysql_query c (.update_deleted inode)
  if ret ≠ 0 then (- EIO, c) else (0, c)

/-! ## The callbacks of mysqlfs.c -/

/-- Modelled from the spec: the pool of `pool.c` (section 5): `pool_get` hands out a session
until `ceiling` of them are out, `pool_put` takes one back.  All sessions
work on one database; the model keeps one session, `conn`, and in `borrowed`
the number of sessions out. -/
structure Pool where
  conn : Conn
  borrowed : Nat
  ceiling : Nat
deriving DecidableEq

/-- Modelled from the spec: `pool_get` of `pool.c`: a session, or NULL (`none`) when the ceiling
is reached. -/
def pool_get (p : Pool) : Option (Conn × Pool) :=
  if p.borrowed < p.ceiling then some (p.conn, { p with borrowed := p.borrowed + 1 })
  else none

/-- Modelled from the spec: `pool_put` of `pool.c`: the session goes back, with what it did. -/
def pool_put (p : Pool) (c : Conn) : Pool :=
  { p with conn := c, borrowed := p.borrowed - 1 }

/-- A return without `pool_put`: the database keeps what the session did, the
session stays out. -/
def Pool.keep (p : Pool) (c : Conn) : Pool :=
  { p with conn := c }

/-- Library call `ceill` on the value of an integer expression: the division of `st_size`
by 512 is done on integers before the conversion, so that the argument is a
whole number already. -/
def ceill (x : Int) : Int := x

/-- The `struct stat` after `memset(stbuf, 0, ..)`. -/
def stat_zero : stat :=
  { st_ino := 0, st_mode := 0, st_nlink := 0, st_uid := 0, st_gid := 0, st_size := 0,
    st_blksize := 0, st_blocks := 0, st_atime := 0, st_mtime := 0 }

/-- Source function `mysqlfs_getattr` (mysqlfs.c:39). -/
def mysqlfs_getattr (B : Nat) (p : Pool) (path : List Byte) : Int × stat × Pool :=
  match pool_get p with
  | none => (- EMFILE, stat_zero, p)
  | some (dbconn, p) =>
    let (ret, stbuf, c) := query_getattr B dbconn path stat_zero
    if ret ≠ 0 then (ret, stbuf, pool_put p c) else
    let (inode, c) := query_inode c path
    if inode < 0 then (inode, stbuf, pool_put p c) else
    let (size, c) := query_size c inode
    (ret, { stbuf with st_size := size, st_blocks := ceill (Int.tdiv size 512) }, pool_put p c)

/-- Source function `mysqlfs_unlink` (mysqlfs.c:198).  The return for `nlinks > 1` does not
pass through `pool_put`. -/
def mysqlfs_unlink (p : Pool) (path : List Byte) : Int × Pool :=
  match pool_get p with
  | none => (- EMFILE, p)
  | some (dbconn, p) =>
    match query_inode_full dbconn path true with
    | (ret, none, c) => (ret, pool_put p c)
    | (ret, some r, c) =>
      if ret < 0 then (ret, pool_put p c) else
      let (ret, c) := query_rmdirentry c r.name r.parent
      if ret < 0 then (ret, pool_put p c) else
      if r.nlinks > 1 then (0, p.keep c) else
      let (ret, c) := query_set_deleted c r.inode
      if ret < 0 then (ret, pool_put p c) else
      let (ret, c) := query_purge_deleted c r.inode
      if ret < 0 then (ret, pool_put p c) else
      (0, pool_put p c)

/-- Source function `mysqlfs_chmod` (mysqlfs.c:260). -/
def mysqlfs_chmod (p : Pool) (path : List Byte) (mode : Nat) : Int × Pool :=
  match pool_get p with
  | none => (- EMFILE, p)
  | some (dbconn, p) =>
    let (inode, c) := query_inode dbconn path
    if inode < 0 then (inode, pool_put p c) else
    let (ret, c) := query_chmod c inode mode
    if ret ≠ 0 then (- EIO, pool_put p c) else (ret, pool_put p c)

/-- Source function `mysqlfs_truncate` (mysqlfs.c:318). -/
def mysqlfs_truncate (B : Nat) (p : Pool) (path : List Byte) (length : Nat) : Int × Pool :=
  match pool_get p with
  | none => (- EMFILE, p)
  | some (dbconn, p) =>
    let (ret, c) := query_truncate B dbconn path length
    if ret < 0 then (- EIO, pool_put p c) else (0, pool_put p c)

/-- Source function `mysqlfs_open` (mysqlfs.c:368); the second component is `fi->fh`. -/
def mysqlfs_open (p : Pool) (path : List Byte) : Int × Option Int × Pool :=
  match pool_get p with
  | none => (- EMFILE, none, p)
  | some (dbconn, p) =>
    let (inode, c) := query_inode dbconn path
    if inode < 0 then (- ENOENT, none, pool_put p c) else
    let (ret, c) := query_inuse_inc c inode 1
    if ret < 0 then (ret, some inode, pool_put p c) else (0, some inode, pool_put p c)

/-- Source function `mysqlfs_release` (mysqlfs.c:436), `fh` being `fi->fh`. -/
def mysqlfs_release (p : Pool) (fh : Int) : Int × Pool :=
  match pool_get p with
  | none => (- EMFILE, p)
  | some (dbconn, p) =>
    let (ret, c) := query_inuse_inc dbconn fh (-1)
    if ret < 0 then (ret, pool_put p c) else
    let (ret, c) := query_purge_deleted c fh
    if ret < 0 then (ret, pool_put p c) else (0, pool_put p c)

/-- Source function `mysqlfs_link` (mysqlfs.c:463): the base name is escaped here, and the
escaped text is what `query_mkdirentry` gets as the name. -/
def mysqlfs_link (p : Pool) (path_from path_to : List Byte) : Int × Pool :=
  match pool_get p with
  | none => (- EMFILE, p)
  | some (dbconn, p) =>
    let (inode, c) := query_inode dbconn path_from
    if inode < 0 then (inode, pool_put p c) else
    let (new_parent, c) := query_inode c (dirname path_to)
    if new_parent < 0 then (new_parent, pool_put p c) else
    let esc_name := mysql_real_escape_string (basename path_to)
    let (ret, c) := query_mkdirentry c inode esc_name new_parent
    if ret < 0 then (ret, pool_put p c) else (0, pool_put p c)

/-- Source function `mysqlfs_rename` (mysqlfs.c:561): the result of the `mysqlfs_unlink` of
the target is dropped. -/
def mysqlfs_rename (p : Pool) (path_from path_to : List Byte) : Int × Pool :=
  let (_, p) := mysqlfs_unlink p path_to
  match pool_get p with
  | none => (- EMFILE, p)
  | some (dbconn, p) =>
    let (ret, c) := query_rename dbconn path_from path_to
    (ret, pool_put p c)

/-! ## Owner, new inodes, directory listing -/

/-- Constant `ENAMETOOLONG` of `errno.h`. -/
def ENAMETOOLONG : Int := 36
/-- Constant `PATH_MAX` of `limits.h`. -/
def PATH_MAX : Nat := 4096
/-- Constant `S_IFLNK` of `sys/stat.h`. -/
def S_IFLNK : Nat := 0o120000
/-- The value `(uid_t)-1`, which is `(gid_t)-1` as well. -/
def UID_NONE : Nat := 4294967295

/-- Value of `tables->inodes` after `query_tablename_init` with an empty prefix. -/
def tables_inodes : List Byte := bytes "inodes"

/-- What `%d` and `%ld` print. -/
def decimal_int (v : Int) : List Byte :=
  if v < 0 then 45 :: decimal (- v).toNat else decimal v.toNat

/-- The text that `query_chown` builds in `sql` with its three `snprintf` calls
(it stays far below `SQL_MAX`). -/
def query_chown_sql (inode : Int) (uid gid : Nat) : List Byte :=
  bytes "UPDATE " ++ tables_inodes ++ bytes " SET "
    ++ (if uid ≠ UID_NONE then bytes "uid=" ++ decimal_int (c_int uid) ++ bytes " " else [])
    ++ (if gid ≠ UID_NONE then
          (if uid ≠ UID_NONE then bytes "," else []) ++ bytes " gid="
            ++ decimal_int (c_int gid) ++ bytes " "
        else [])
    ++ bytes "WHERE inode=" ++ decimal_int inode

/-- Source function `query_chown` (query.c:621); the statement is the text of `query_chown_sql`. -/
def query_chown (c : Conn) (inode : Int) (uid gid : Nat) : Int × Conn :=
  let (ret, c) := mysql_query c
    (.update_owner (if uid ≠ UID_NONE then some (c_int uid) else none)
      (if gid ≠ UID_NONE then some (c_int gid) else none) inode)
  if ret ≠ 0 then (- EIO, c) else (0, c)

/-- Library call `strrchr(path, '/')` followed by `++name`: the bytes behind the last slash,
`none` for a path without a slash. -/
def strrchr_slash (path : List Byte) : Option (List Byte) :=
  if 47 ∈ path then some (path.reverse.takeWhile (fun b => b ≠ 47)).reverse else none

/-- The end of `query_mknod`, after the `INSERT` into `tree`: the inode row for
the number that was generated.  On a failure the function returns what
`mysql_query` returned. -/
def query_mknod_inode (c : Conn) (mode uid gid : Nat) : Int × Conn :=
  let new_inode_number : Int := c.insert_id
  let (ret, c) := mysql_query c
    (.insert_inode new_inode_number (c_int mode) (c_int uid) (c_int gid))
  if ret ≠ 0 then (ret, c) else (new_inode_number, c)

/-- Source function `query_mknod` (query.c:458); `uid` and `gid` are those of
`fuse_get_context()`. -/
def query_mknod (c : Conn) (path : List Byte) (mode : Nat) (parent : Int) (uid gid : Nat) :
    Int × Conn :=
  if path = [47] then
    let (ret, c) := mysql_query c .insert_tree_root
    if ret ≠ 0 then (ret, c) else query_mknod_inode c mode uid gid
  else
    match strrchr_slash path with
    | none => (- ENOENT, c)
    | some name =>
      if name = [] then (- ENOENT, c)
      else
        let esc_name := mysql_real_escape_string name
        let (ret, c) := mysql_query c (.insert_tree_auto esc_name parent)
        if ret ≠ 0 then (ret, c) else query_mknod_inode c mode uid gid

/-- Result rows of `SELECT name FROM tree WHERE parent = 'i'`. -/
def select_names_rows (t : Tables) (inode : Int) : List (List Byte) :=
  (t.tree.filter (fun r => r.parent_eq inode)).map (fun r => r.name)

/-- Source function `query_readdir` (query.c:544): the second component holds the names given
to `filler`. -/
def query_readdir (c : Conn) (inode : Int) : Int × List (List Byte) × Conn :=
  let (ret, c) := mysql_query c (.select_names inode)
  if ret ≠ 0 then (- EIO, [], c)
  else (ret, (select_names_rows c.db inode).map basename, c)

/-! ## Consistency repair -/

/-- Result rows of `select inode, sum(datalength) as size from data_blocks group by
inode`: one row for each inode that has block rows. -/
def select_sizes_rows (t : Tables) : List (Nat × Nat) :=
  ((t.data_blocks.map (fun r => r.inode)).dedup).map
    (fun i => (i, sum_datalength t.data_blocks i))

/-- The `while ((row = mysql_fetch_row(myresult)) != NULL)` loop of `query_fsck`:
one `UPDATE` of the size per row, whose result goes to `result` and is not
looked at. -/
def query_fsck_loop : List (Nat × Nat) → Conn → Conn
  | [], c => c
  | row :: rows, c => query_fsck_loop rows (mysql_query c (.update_size row.2 row.1)).2

/-- The stages 6 and 7 of `query_fsck`. -/
def query_fsck_tail (c : Conn) : Int × Conn :=
  let (ret, c) := mysql_query c .update_total_inodes_count
  if ret ≠ 0 then (- EIO, c) else
  let (ret, c) := mysql_query c .update_total_inodes_size
  if ret ≠ 0 then (- EIO, c) else
  let (ret, c) := mysql_query c .optimize_inodes
  if ret ≠ 0 then (- EIO, c) else
  let (ret, c) := mysql_query c .optimize_tree
  if ret ≠ 0 then (- EIO, c) else
  (ret, c)

/-- Source function `query_fsck` (query.c:1326).  In stage 5 the result of the `UPDATE` of
`datalength` is overwritten by that of the `SELECT`, which is tested after the
loop only.  (After a failed `SELECT` there is no result set; the loop is taken
to run over no row.) -/
def query_fsck (c : Conn) : Int × Conn :=
  let (ret, c) := mysql_query c .delete_deleted_inodes
  if ret ≠ 0 then (- EIO, c) else
  let (ret, c) := mysql_query c .delete_orphan_tree
  if ret ≠ 0 then (- EIO, c) else
  let (ret, c) := mysql_query c .update_inuse_zero
  if ret ≠ 0 then (- EIO, c) else
  let (ret, c) := mysql_query c .delete_orphan_blocks
  if ret ≠ 0 then (- EIO, c) else
  let (_, c) := mysql_query c .update_all_datalength
  let (ret, c) := mysql_query c .select_sizes
  let c := query_fsck_loop (if ret ≠ 0 then [] else select_sizes_rows c.db) c
  if ret ≠ 0 then (- EIO, c) else
  query_fsck_tail c

/-! ## More callbacks of mysqlfs.c -/

/-- Source function `mysqlfs_readdir` (mysqlfs.c:76): the names given to `filler`, `.` and
`..` first.  What `query_readdir` returned goes to `ret` and is not looked at. -/
def mysqlfs_readdir (p : Pool) (path : List Byte) : Int × List (List Byte) × Pool :=
  match pool_get p with
  | none => (- EMFILE, [], p)
  | some (dbconn, p) =>
    let (inode, c) := query_inode dbconn path
    if inode < 0 then (inode, [], pool_put p c) else
    let (_, names, c) := query_readdir c inode
    (0, [bytes ".", bytes ".."] ++ names, pool_put p c)

/-- Source function `mysqlfs_mknod` (mysqlfs.c:107); the result of `query_mknod` is kept in an
`int`. -/
def mysqlfs_mknod (p : Pool) (path : List Byte) (mode uid gid : Nat) : Int × Pool :=
  if ¬ (path.length < PATH_MAX) then (- ENAMETOOLONG, p)
  else
    match pool_get p with
    | none => (- EMFILE, p)
    | some (dbconn, p) =>
      let (parent_inode, c) := query_inode dbconn (dirname path)
      if parent_inode < 0 then (- ENOENT, pool_put p c) else
      let (ret, c) := query_mknod c path mode parent_inode uid gid
      if c_int ret < 0 then (c_int ret, pool_put p c) else (0, pool_put p c)

/-- Source function `mysqlfs_symlink` (mysqlfs.c:506): `target` is the text of `from` (its
bytes before the NUL, so that `strlen(from)` is its length), `path` is `to`; the
inode number is kept in an `int`. -/
def mysqlfs_symlink (B : Nat) (p : Pool) (target path : List Byte) (uid gid : Nat) :
    Int × Pool :=
  let (ret, p) := mysqlfs_mknod p path (S_IFLNK ||| 0o755) uid gid
  if ret < 0 then (ret, p) else
  match pool_get p with
  | none => (- EMFILE, p)
  | some (dbconn, p) =>
    let (inode, c) := query_inode dbconn path
    if c_int inode < 0 then (- ENOENT, pool_put p c) else
    let (ret, c) := query_write B c (c_int inode).toNat target target.length 0
    ((if ret > 0 then 0 else ret), pool_put p c)

/-- Source function `mysqlfs_readlink` (mysqlfs.c:535): `buf` is the caller's buffer, of `size`
bytes or more; the second component is the buffer afterwards. -/
def mysqlfs_readlink (B : Nat) (p : Pool) (path buf : List Byte) (size : Nat) :
    Int × List Byte × Pool :=
  match pool_get p with
  | none => (- EMFILE, buf, p)
  | some (dbconn, p) =>
    let (inode, c) := query_inode dbconn path
    if inode < 0 then (- ENOENT, buf, pool_put p c) else
    let (ret, out, c) := query_read B c inode.toNat size 0
    ((if ret > 0 then 0 else ret),
      out ++ (List.replicate size 0 ++ buf.drop size).drop out.length, pool_put p c)

/-! ## Notions of the later statements -/

/-- The splice as the specification words it: the first `off` bytes of `D`,
zero-padded to length `off`, then `P`, then the bytes of `D` from position
`off + |P|` on. -/
def reference_splice (D : List Byte) (off : Nat) (P : List Byte) : List Byte :=
  (D.take off ++ List.replicate (off - D.length) 0) ++ P ++ D.drop (off + P.length)

/-- The most that one round of the loop of `query_read` may copy for block
`seq`: `length_first`, `length_last` or a whole block. -/
def copy_bound (B : Nat) (info : data_blocks_info) (seq : Nat) : Nat :=
  if seq = info.seq_first then info.length_first
  else if seq = info.seq_last then info.length_last
  else B

/-- The data of block `seq` of `inode`, empty when the row is absent. -/
def block_data (rows : List BlockRow) (inode seq : Nat) : List Byte :=
  match block_at rows inode seq with
  | some r => r.data
  | none => []

/-- What the rounds of the loop of `query_read` from block `seq` on may copy
in all. -/
def copy_bound_from (B : Nat) (info : data_blocks_info) (seq : Nat) : Nat :=
  copy_bound B info seq +
    (if seq < info.seq_last then (info.seq_last - (seq + 1)) * B + info.length_last else 0)

/-- The keys of `tree` (section 3 of the specification): one root entry at most, and no
two entries of one directory with the same name. -/
def TreeKey (tree : List TreeRow) : Prop :=
  (tree.filter (fun t => t.parent = none)).length ≤ 1 ∧
  tree.Pairwise (fun a b => ¬ (a.parent = b.parent ∧ a.name = b.name))

/-- The blocks of `inode` hold the text `T` from offset 0 and nothing else: block
`s` is the row of the bytes `s * B ..` of `T` while there are some, and is absent
past the end of `T`. -/
def file_holds (B : Nat) (rows : List BlockRow) (inode : Nat) (T : List Byte) : Prop :=
  ∀ s, (s * B < T.length → ∃ r, block_at rows inode s = some r ∧
          r.data = (T.drop (s * B)).take B ∧ r.datalength = r.data.length) ∧
       (T.length ≤ s * B → block_at rows inode s = none)

/-- A pool of ten sessions, none of them out, on the session `c`. -/
def sample_pool (c : Conn) : Pool :=
  { conn := c, borrowed := 0, ceiling := 10 }

/-- The session `c` with the fault schedule `faults`. -/
def Conn.with_faults (c : Conn) (faults : List Bool) : Conn :=
  { c with faults := faults }

/-! ## Statements on a session without faults -/

@[simp] theorem Conn.sent_db (c : Conn) (s : Stmt) : (c.sent s).db = c.db := rfl
@[simp] theorem Conn.sent_faults (c : Conn) (s : Stmt) : (c.sent s).faults = c.faults.tail := rfl
@[simp] theorem Conn.sent_txn (c : Conn) (s : Stmt) : (c.sent s).txn = c.txn := rfl
@[simp] theorem Conn.sent_iNodeSize (c : Conn) (s : Stmt) : (c.sent s).iNodeSize = c.iNodeSize := rfl
@[simp] theorem Conn.with_blocks_blocks (c : Conn) (rows : List BlockRow) :
    (c.with_blocks rows).db.data_blocks = rows := rfl
@[simp] theorem Conn.with_blocks_inodes (c : Conn) (rows : List BlockRow) :
    (c.with_blocks rows).db.inodes = c.db.inodes := rfl
@[simp] theorem Conn.with_blocks_tree (c : Conn) (rows : List BlockRow) :
    (c.with_blocks rows).db.tree = c.db.tree := rfl
@[simp] theorem Conn.with_blocks_faults (c : Conn) (rows : List BlockRow) :
    (c.with_blocks rows).faults = c.faults := rfl
@[simp] theorem Conn.with_blocks_iNodeSize (c : Conn) (rows : List BlockRow) :
    (c.with_blocks rows).iNodeSize = c.iNodeSize := rfl
@[simp] theorem Conn.with_inodes_blocks (c : Conn) (rows : List InodeRow) :
    (c.with_inodes rows).db.data_blocks = c.db.data_blocks := rfl
@[simp] theorem Conn.with_inodes_inodes (c : Conn) (rows : List InodeRow) :
    (c.with_inodes rows).db.inodes = rows := rfl
@[simp] theorem Conn.with_inodes_tree (c : Conn) (rows : List InodeRow) :
    (c.with_inodes rows).db.tree = c.db.tree := rfl
@[simp] theorem Conn.with_inodes_faults (c : Conn) (rows : List InodeRow) :
    (c.with_inodes rows).faults = c.faults := rfl

/-- A statement that meets no fault returns 0 and has its effect. -/
theorem mysql_query_of_exec {c c2 : Conn} {s : Stmt} (hf : c.faults = [])
    (h : exec (c.sent s) s = some c2) : mysql_query c s = (0, c2) := by
  simp [mysql_query, hf, h]

theorem mysql_query_BEGIN {c : Conn} (hf : c.faults = []) :
    mysql_query c .BEGIN = (0, { c.sent .BEGIN with txn := some c.db }) :=
  mysql_query_of_exec hf rfl

theorem mysql_query_COMMIT {c : Conn} (hf : c.faults = []) :
    mysql_query c .COMMIT = (0, { c.sent .COMMIT with txn := none }) :=
  mysql_query_of_exec hf rfl

theorem mysql_query_delete_blocks_after {c : Conn} (hf : c.faults = []) (i s : Nat) :
    mysql_query c (.delete_blocks_after i s) =
      (0, (c.sent (.delete_blocks_after i s)).with_blocks
        (c.db.data_blocks.filter (fun r => ¬ (r.inode = i ∧ r.seq > s)))) :=
  mysql_query_of_exec hf rfl

theorem mysql_query_update_data {c : Conn} (hf : c.faults = []) (parts : List DataExpr)
    (arg : List Byte) (i s : Nat) :
    mysql_query c (.update_data parts arg i s) =
      (0, (c.sent (.update_data parts arg i s)).with_blocks (c.db.data_blocks.map (fun r =>
        if r.inode = i ∧ r.seq = s then { r with data := CONCAT r.data arg parts } else r))) :=
  mysql_query_of_exec hf rfl

theorem mysql_query_update_datalength {c : Conn} (hf : c.faults = []) (i s : Nat) :
    mysql_query c (.update_datalength i s) =
      (0, (c.sent (.update_datalength i s)).with_blocks (c.db.data_blocks.map (fun r =>
        if r.inode = i ∧ r.seq = s then { r with datalength := r.data.length } else r))) :=
  mysql_query_of_exec hf rfl

theorem mysql_query_update_size {c : Conn} (hf : c.faults = []) (n i : Nat) :
    mysql_query c (.update_size n i) =
      (0, (c.sent (.update_size n i)).with_inodes (c.db.inodes.map (fun r =>
        if r.inode = i then { r with size := n } else r))) :=
  mysql_query_of_exec hf rfl

theorem mysql_query_insert_block {c : Conn} (hf : c.faults = []) (i s : Nat)
    (h : rows_of_block c.db i s = []) :
    mysql_query c (.insert_block i s) =
      (0, (c.sent (.insert_block i s)).with_blocks
        (c.db.data_blocks ++ [{ inode := i, seq := s, data := [], datalength := 0 }])) := by
  apply mysql_query_of_exec hf
  simp only [exec, Conn.sent_db, h, if_true]

theorem mysql_query_select_sum_into {c : Conn} (hf : c.faults = []) (i : Nat) :
    mysql_query c (.select_sum_into i) =
      (0, { c.sent (.select_sum_into i) with iNodeSize := SUM_datalength c.db i }) :=
  mysql_query_of_exec hf rfl

theorem mysql_query_update_size_from {c : Conn} (hf : c.faults = []) (i : Nat) :
    mysql_query c (.update_size_from i) =
      (0, (c.sent (.update_size_from i)).with_inodes (c.db.inodes.map (fun r =>
        if r.inode = i then { r with size := c.iNodeSize.getD 0 } else r))) :=
  mysql_query_of_exec hf rfl

theorem mysql_query_select_datalength {c : Conn} (hf : c.faults = []) (i s : Nat) :
    mysql_query c (.select_datalength i s) = (0, c.sent (.select_datalength i s)) :=
  mysql_query_of_exec hf rfl

theorem mysql_query_select_block {c : Conn} (hf : c.faults = []) (i s : Nat) :
    mysql_query c (.select_block i s) = (0, c.sent (.select_block i s)) :=
  mysql_query_of_exec hf rfl

theorem mysql_query_select_blocks {c : Conn} (hf : c.faults = []) (i a b : Nat) :
    mysql_query c (.select_blocks i a b) = (0, c.sent (.select_blocks i a b)) :=
  mysql_query_of_exec hf rfl

theorem mysql_query_select_path {c : Conn} (hf : c.faults = []) (names : List (List Byte))
    (b : Bool) : mysql_query c (.select_path names b) = (0, c.sent (.select_path names b)) :=
  mysql_query_of_exec hf rfl

theorem size_t_natCast (n : Nat) (h : n < 2 ^ 64) : size_t (n : Int) = n := by
  unfold size_t
  rw [Int.emod_eq_of_lt (by omega) (by exact_mod_cast h)]
  simp

theorem size_t_neg_ENXIO_eq : size_t (- ENXIO) = 2 ^ 64 - 6 := by
  decide

theorem filter_key_of_pk (rows : List BlockRow) (i s : Nat) (hpk : PrimaryKey rows) :
    rows.filter (fun r => r.inode = i ∧ r.seq = s) = [] ∨
    ∃ r, rows.filter (fun r => r.inode = i ∧ r.seq = s) = [r] := by
  have h := List.Pairwise.filter (fun r : BlockRow => decide (r.inode = i ∧ r.seq = s)) hpk
  match hm : rows.filter (fun r => r.inode = i ∧ r.seq = s) with
  | [] => exact Or.inl hm
  | [r] => exact Or.inr ⟨r, hm⟩
  | a :: b :: rest =>
    exfalso
    rw [hm] at h
    have ha : a ∈ rows.filter (fun r => r.inode = i ∧ r.seq = s) := by rw [hm]; simp
    have hb : b ∈ rows.filter (fun r => r.inode = i ∧ r.seq = s) := by rw [hm]; simp
    simp only [List.mem_filter, decide_eq_true_eq] at ha hb
    have := (List.pairwise_cons.mp h).1 b (by simp)
    exact this ⟨by omega, by omega⟩

theorem CONCAT_write_one_block_sql (D P : List Byte) (size off : Nat) (hP : P.length = size) :
    CONCAT D P (write_one_block_sql D.length size off) = splice D off P := by
  unfold write_one_block_sql splice CONCAT RPAD
  by_cases h1 : off = 0 ∧ D.length = 0
  · obtain ⟨h1, h2⟩ := h1
    have : D = [] := List.length_eq_zero.mp h2
    subst this; subst h1
    simp [DataExpr.eval]
  · rw [if_neg h1]
    by_cases h2 : off = D.length
    · subst h2
      simp [DataExpr.eval, RPAD]
    · rw [if_neg h2]
      rcases Nat.eq_zero_or_pos off with h3 | h3
      · subst h3
        by_cases h4 : size < D.length
        · simp [h4, DataExpr.eval, SUBSTRING, hP]
        · have h5 : D.length ≤ size := by omega
          simp [h4, DataExpr.eval, hP, List.drop_eq_nil_of_le h5]
      · by_cases h4 : off + size < D.length
        · simp [h3, h4, DataExpr.eval, RPAD, SUBSTRING, hP]
        · have h5 : D.length ≤ off + size := by omega
          simp [h3, h4, DataExpr.eval, RPAD, hP, List.drop_eq_nil_of_le h5]

theorem query_size_block_none {c : Conn} (hf : c.faults = []) (i s : Nat)
    (h : c.db.data_blocks.filter (fun r => r.inode = i ∧ r.seq = s) = []) :
    query_size_block c i s = (- ENXIO, c.sent (.select_datalength i s)) := by
  simp only [query_size_block, mysql_query_select_datalength hf, rows_of_block, Conn.sent_db, h]
  simp

theorem query_size_block_some {c : Conn} (hf : c.faults = []) (i s : Nat) (row : BlockRow)
    (rest : List BlockRow)
    (h : c.db.data_blocks.filter (fun r => r.inode = i ∧ r.seq = s) = row :: rest) :
    query_size_block c i s = ((row.datalength : Int), c.sent (.select_datalength i s)) := by
  simp only [query_size_block, mysql_query_select_datalength hf, rows_of_block, Conn.sent_db, h]
  simp

theorem write_one_block_eq (B : Nat) (c : Conn) (i s : Nat) (data : List Byte) (size off : Nat)
    (hB : B ≤ INT_MAX) (hf : c.faults = []) (hsz : size ≠ 0) (hb : off + size ≤ B)
    (hlen : size ≤ data.length) (hpk : PrimaryKey c.db.data_blocks)
    (hinv : ∀ r ∈ c.db.data_blocks, r.inode = i → r.seq = s → BlockInv B r) :
    (write_one_block B c i s data size off).1 = size ∧
    (write_one_block B c i s data size off).2.faults = [] ∧
    (write_one_block B c i s data size off).2.db.inodes = c.db.inodes ∧
    (write_one_block B c i s data size off).2.db.tree = c.db.tree ∧
    (write_one_block B c i s data size off).2.db.data_blocks =
      put_block c.db.data_blocks i s off (data.take size) := by
  have hP : (data.take size).length = size := by simp [hlen]
  have hb' : ¬ (off + size > B) := by omega
  unfold write_one_block put_block
  rcases filter_key_of_pk c.db.data_blocks i s hpk with h0 | ⟨row, h1⟩
  · rw [query_size_block_none hf i s h0]
    simp only [hsz, hb', if_false, if_true, size_t_neg_ENXIO_eq]
    rw [mysql_query_insert_block (by simp [hf]) i s (by simpa [rows_of_block] using h0)]
    simp only [ne_eq, not_true_eq_false, if_false]
    rw [mysql_query_update_data (by simp [hf])]
    simp only [ne_eq, not_true_eq_false, if_false]
    rw [mysql_query_update_datalength (by simp [hf])]
    simp only [ne_eq, not_true_eq_false, if_false, h0, if_true, Conn.sent_db, Conn.sent_faults,
      Conn.with_blocks_blocks, Conn.with_blocks_inodes, Conn.with_blocks_tree,
      Conn.with_blocks_faults, hf, List.tail_nil, true_and, List.map_append, List.map_map,
      List.map_cons, List.map_nil]
    have hno : ∀ r ∈ c.db.data_blocks, ¬ (r.inode = i ∧ r.seq = s) := by
      intro r hr
      have := List.filter_eq_nil_iff.mp h0 r hr
      simpa using this
    congr 1
    · conv_rhs => rw [← List.map_id c.db.data_blocks]
      apply List.map_congr_left
      intro r hr
      simp [Function.comp, hno r hr]
    · have := CONCAT_write_one_block_sql [] (data.take size) size off hP
      simp only [List.length_nil] at this
      simp [Function.comp, this]
  · have hrow : row ∈ c.db.data_blocks.filter (fun r => r.inode = i ∧ r.seq = s) := by
      rw [h1]; simp
    have hrow' := List.mem_filter.mp hrow
    simp only [decide_eq_true_eq] at hrow'
    obtain ⟨hlenrow, hle⟩ := hinv row hrow'.1 hrow'.2.1 hrow'.2.2
    have hlt : row.datalength < 2 ^ 64 := by
      have : INT_MAX = 2147483647 := rfl
      omega
    have hne : ¬ (row.datalength = 2 ^ 64 - 6) := by
      have : INT_MAX = 2147483647 := rfl
      omega
    rw [query_size_block_some hf i s row [] h1]
    simp only [hsz, hb', if_false, size_t_neg_ENXIO_eq, size_t_natCast _ hlt, hne]
    rw [mysql_query_update_data (by simp [hf])]
    simp only [ne_eq, not_true_eq_false, if_false]
    rw [mysql_query_update_datalength (by simp [hf])]
    simp only [ne_eq, not_true_eq_false, if_false, h1, if_true, Conn.sent_db, Conn.sent_faults,
      Conn.with_blocks_blocks, Conn.with_blocks_inodes, Conn.with_blocks_tree,
      Conn.with_blocks_faults, hf, List.tail_nil, true_and, List.map_map, reduceCtorEq]
    apply List.map_congr_left
    intro r hr
    by_cases hk : r.inode = i ∧ r.seq = s
    · have : r ∈ c.db.data_blocks.filter (fun r => r.inode = i ∧ r.seq = s) :=
        List.mem_filter.mpr ⟨hr, by simpa using hk⟩
      rw [h1] at this
      have hrr : r = row := by simpa using this
      subst hrr
      have := CONCAT_write_one_block_sql r.data (data.take size) size off hP
      rw [← hlenrow] at this
      simp [Function.comp, hk, this]
    · simp [Function.comp, hk]

theorem exec_faults (c c2 : Conn) (s : Stmt) (h : exec c s = some c2) :
    c2.faults = c.faults := by
  cases s <;> simp only [exec] at h <;> (repeat' split at h) <;>
    first
      | (simp only [Option.some.injEq] at h; subst h; rfl)
      | (simp at h)

/-- Every statement uses up one entry of the fault schedule. -/
theorem mysql_query_faults (c : Conn) (s : Stmt) :
    (mysql_query c s).2.faults = c.faults.tail := by
  unfold mysql_query
  split
  · rfl
  · split
    · rename_i c2 h
      exact exec_faults _ _ _ h
    · rfl

/-! ## Rewriting one block -/

theorem RPAD_length (D : List Byte) (n : Nat) : (RPAD D n).length = n := by
  simp only [RPAD, List.length_append, List.length_take, List.length_replicate]
  omega

theorem splice_length (D P : List Byte) (off : Nat) :
    (splice D off P).length = max D.length (off + P.length) := by
  simp only [splice, List.length_append, RPAD_length, List.length_drop]
  omega

theorem splice_drop_take (D P : List Byte) (off : Nat) :
    ((splice D off P).drop off).take P.length = P := by
  have h : (RPAD D off ++ P ++ D.drop (off + P.length)).drop off = P ++ D.drop (off + P.length) := by
    rw [List.append_assoc, List.drop_append_eq_append_drop, RPAD_length]
    simp [List.drop_eq_nil_of_le, RPAD_length]
  rw [splice, h]
  simp

theorem put_block_block_at (rows : List BlockRow) (i s off : Nat) (P : List Byte) :
    ∃ r, block_at (put_block rows i s off P) i s = some r ∧ r.inode = i ∧ r.seq = s ∧
      r.datalength = r.data.length ∧
      r.data = splice (match block_at rows i s with
        | some r0 => r0.data
        | none => []) off P := by
  unfold put_block block_at
  by_cases h0 : rows.filter (fun r => r.inode = i ∧ r.seq = s) = []
  · rw [if_pos h0]
    have hnone : rows.find? (fun r => r.inode = i ∧ r.seq = s) = none := by
      rw [List.find?_eq_none]
      intro r hr
      exact List.filter_eq_nil_iff.mp h0 r hr
    rw [List.find?_append, hnone]
    simp
  · rw [if_neg h0]
    obtain ⟨r0, hr0⟩ : ∃ r0, rows.find? (fun r => r.inode = i ∧ r.seq = s) = some r0 := by
      cases hfd : rows.find? (fun r => r.inode = i ∧ r.seq = s) with
      | some r0 => exact ⟨r0, rfl⟩
      | none =>
        exfalso
        apply h0
        rw [List.filter_eq_nil_iff]
        exact List.find?_eq_none.mp hfd
    have hk := List.find?_some hr0
    simp only [decide_eq_true_eq] at hk
    rw [List.find?_map]
    have hcomp : ((fun r : BlockRow => decide (r.inode = i ∧ r.seq = s)) ∘ fun r : BlockRow =>
        if r.inode = i ∧ r.seq = s then
          { r with data := splice r.data off P, datalength := (splice r.data off P).length }
        else r) = fun r : BlockRow => decide (r.inode = i ∧ r.seq = s) := by
      funext r
      simp only [Function.comp]
      split
      · rfl
      · rfl
    rw [hcomp, hr0]
    simp [hk]

theorem put_block_block_at_ne (rows : List BlockRow) (i s off : Nat) (P : List Byte)
    (i' s' : Nat) (hne : ¬ (i' = i ∧ s' = s)) :
    block_at (put_block rows i s off P) i' s' = block_at rows i' s' := by
  unfold put_block block_at
  split
  · rw [List.find?_append]
    have : List.find? (fun r : BlockRow => decide (r.inode = i' ∧ r.seq = s'))
        [{ inode := i, seq := s, data := splice [] off P,
           datalength := (splice [] off P).length }] = none := by
      simp only [List.find?_cons, List.find?_nil]
      have : ¬ (i = i' ∧ s = s') := fun h => hne ⟨h.1.symm, h.2.symm⟩
      simp [this]
    rw [this]
    simp
  · rw [List.find?_map]
    have hcomp : ((fun r : BlockRow => decide (r.inode = i' ∧ r.seq = s')) ∘ fun r : BlockRow =>
        if r.inode = i ∧ r.seq = s then
          { r with data := splice r.data off P, datalength := (splice r.data off P).length }
        else r) = fun r : BlockRow => decide (r.inode = i' ∧ r.seq = s') := by
      funext r
      by_cases hk' : r.inode = i ∧ r.seq = s <;> simp [hk']
    rw [hcomp]
    cases hfd : rows.find? (fun r => decide (r.inode = i' ∧ r.seq = s')) with
    | none => rfl
    | some r =>
      have hk := List.find?_some hfd
      simp only [decide_eq_true_eq] at hk
      have : ¬ (r.inode = i ∧ r.seq = s) := fun h => hne ⟨hk.1.symm.trans h.1, hk.2.symm.trans h.2⟩
      simp [this]

theorem put_block_mem (rows : List BlockRow) (i s off : Nat) (P : List Byte) (r : BlockRow)
    (hne : ¬ (r.inode = i ∧ r.seq = s)) :
    r ∈ put_block rows i s off P ↔ r ∈ rows := by
  unfold put_block
  split
  · simp only [List.mem_append, List.mem_singleton]
    constructor
    · rintro (h | h)
      · exact h
      · subst h; exact absurd ⟨rfl, rfl⟩ hne
    · exact Or.inl
  · simp only [List.mem_map]
    constructor
    · rintro ⟨a, ha, hr⟩
      by_cases hk : a.inode = i ∧ a.seq = s
      · rw [if_pos hk] at hr
        subst hr
        exact absurd hk hne
      · rw [if_neg hk] at hr
        subst hr; exact ha
    · intro hr
      exact ⟨r, hr, by rw [if_neg hne]⟩

theorem put_block_key (rows : List BlockRow) (i s off : Nat) (P : List Byte) (r : BlockRow)
    (hr : r ∈ put_block rows i s off P) (hk : r.inode = i ∧ r.seq = s) :
    ∃ D, r.data = splice D off P ∧ r.datalength = r.data.length ∧
      (D = [] ∨ ∃ r0 ∈ rows, r0.inode = i ∧ r0.seq = s ∧ r0.data = D) := by
  unfold put_block at hr
  split at hr
  · rename_i h0
    simp only [List.mem_append, List.mem_singleton] at hr
    rcases hr with h | h
    · have := List.filter_eq_nil_iff.mp h0 r h
      simp [hk] at this
    · subst h
      exact ⟨[], rfl, rfl, Or.inl rfl⟩
  · simp only [List.mem_map] at hr
    obtain ⟨a, ha, hra⟩ := hr
    by_cases hka : a.inode = i ∧ a.seq = s
    · rw [if_pos hka] at hra
      subst hra
      exact ⟨a.data, rfl, rfl, Or.inr ⟨a, ha, hka.1, hka.2, rfl⟩⟩
    · rw [if_neg hka] at hra
      subst hra
      exact absurd hk hka

theorem put_block_pk (rows : List BlockRow) (i s off : Nat) (P : List Byte)
    (hpk : PrimaryKey rows) : PrimaryKey (put_block rows i s off P) := by
  unfold put_block PrimaryKey
  split
  · rename_i h0
    rw [List.pairwise_append]
    refine ⟨hpk, List.pairwise_singleton _ _, ?_⟩
    intro a ha b hb
    simp only [List.mem_singleton] at hb
    subst hb
    have := List.filter_eq_nil_iff.mp h0 a ha
    simpa using this
  · rw [List.pairwise_map]
    apply List.Pairwise.imp _ hpk
    have hg : ∀ r : BlockRow,
        (if r.inode = i ∧ r.seq = s then
          { r with data := splice r.data off P, datalength := (splice r.data off P).length }
        else r).inode = r.inode ∧
        (if r.inode = i ∧ r.seq = s then
          { r with data := splice r.data off P, datalength := (splice r.data off P).length }
        else r).seq = r.seq := by
      intro r
      split <;> exact ⟨rfl, rfl⟩
    intro a b hab
    rw [(hg a).1, (hg a).2, (hg b).1, (hg b).2]
    exact hab

theorem put_block_inv_key (B : Nat) (rows : List BlockRow) (i s off : Nat) (P : List Byte)
    (hb : off + P.length ≤ B)
    (hinv : ∀ r ∈ rows, r.inode = i → r.seq = s → BlockInv B r) (r : BlockRow)
    (hr : r ∈ put_block rows i s off P) (hk : r.inode = i ∧ r.seq = s) : BlockInv B r := by
  obtain ⟨D, hD, hdl, hsrc⟩ := put_block_key rows i s off P r hr hk
  refine ⟨hdl, ?_⟩
  rw [hD, splice_length]
  rcases hsrc with h | ⟨r0, hr0, h1, h2, h3⟩
  · subst h; simp only [List.length_nil]; omega
  · have := (hinv r0 hr0 h1 h2).2
    rw [h3] at this
    omega

/-- Rewriting a block keeps the block invariant on whatever set of rows it held on. -/
theorem put_block_inv (B : Nat) (Q : Nat → Prop) (rows : List BlockRow) (i s off : Nat)
    (P : List Byte) (hb : off + P.length ≤ B) (hQ : Q i)
    (hinv : ∀ r ∈ rows, Q r.inode → BlockInv B r) :
    ∀ r ∈ put_block rows i s off P, Q r.inode → BlockInv B r := by
  intro r hr hq
  by_cases hk : r.inode = i ∧ r.seq = s
  · exact put_block_inv_key B rows i s off P hb (fun r0 h0 h1 _ => hinv r0 h0 (h1 ▸ hQ)) r hr hk
  · exact hinv r ((put_block_mem rows i s off P r hk).mp hr) hq

theorem put_bytes_pk (rows : List BlockRow) (i s off : Nat) (P : List Byte)
    (hpk : PrimaryKey rows) : PrimaryKey (put_bytes rows i s off P) := by
  unfold put_bytes
  split
  · exact hpk
  · exact put_block_pk rows i s off P hpk

theorem put_bytes_inv (B : Nat) (Q : Nat → Prop) (rows : List BlockRow) (i s off : Nat)
    (P : List Byte) (hb : off + P.length ≤ B) (hQ : Q i)
    (hinv : ∀ r ∈ rows, Q r.inode → BlockInv B r) :
    ∀ r ∈ put_bytes rows i s off P, Q r.inode → BlockInv B r := by
  unfold put_bytes
  split
  · exact hinv
  · exact put_block_inv B Q rows i s off P hb hQ hinv

theorem put_bytes_block_at_ne (rows : List BlockRow) (i s off : Nat) (P : List Byte)
    (i' s' : Nat) (hne : ¬ (i' = i ∧ s' = s)) :
    block_at (put_bytes rows i s off P) i' s' = block_at rows i' s' := by
  unfold put_bytes
  split
  · rfl
  · exact put_block_block_at_ne rows i s off P i' s' hne

theorem put_bytes_mem (rows : List BlockRow) (i s off : Nat) (P : List Byte) (r : BlockRow)
    (hne : ¬ (r.inode = i ∧ r.seq = s)) :
    r ∈ put_bytes rows i s off P ↔ r ∈ rows := by
  unfold put_bytes
  split
  · rfl
  · exact put_block_mem rows i s off P r hne

/-! ## `write_one_block` and `query_write` without faults -/

theorem query_size_block_snd (c : Conn) (i s : Nat) :
    (query_size_block c i s).2 = c.sent (.select_datalength i s) := by
  unfold query_size_block mysql_query
  simp only [exec]
  split <;> simp only [] <;> split <;> (try rfl) <;> split <;> rfl

theorem write_one_block_zero (B : Nat) (c : Conn) (i s : Nat) (data : List Byte) (off : Nat) :
    write_one_block B c i s data 0 off = (0, c.sent (.select_datalength i s)) := by
  unfold write_one_block
  simp [query_size_block_snd]

theorem write_one_block_put_bytes (B : Nat) (c : Conn) (i s : Nat) (data : List Byte)
    (size off : Nat) (hB : B ≤ INT_MAX) (hf : c.faults = []) (hb : off + size ≤ B)
    (hlen : size ≤ data.length) (hpk : PrimaryKey c.db.data_blocks)
    (hinv : ∀ r ∈ c.db.data_blocks, r.inode = i → BlockInv B r) :
    (write_one_block B c i s data size off).1 = size ∧
    (write_one_block B c i s data size off).2.faults = [] ∧
    (write_one_block B c i s data size off).2.db.inodes = c.db.inodes ∧
    (write_one_block B c i s data size off).2.db.tree = c.db.tree ∧
    (write_one_block B c i s data size off).2.db.data_blocks =
      put_bytes c.db.data_blocks i s off (data.take size) := by
  by_cases hsz : size = 0
  · subst hsz
    rw [write_one_block_zero]
    simp [put_bytes, hf]
  · have := write_one_block_eq B c i s data size off hB hf hsz hb hlen hpk
      (fun r hr h1 _ => hinv r hr h1)
    have hP : (data.take size).length = size := by simp [hlen]
    simpa [put_bytes, hP, hsz] using this

theorem query_write_loop_eq (B i : Nat) (data : List Byte) (hB : B ≤ INT_MAX) :
    ∀ (n seq ptr : Nat) (rs : Int) (c : Conn), c.faults = [] → ptr + n * B ≤ data.length →
      PrimaryKey c.db.data_blocks → (∀ r ∈ c.db.data_blocks, r.inode = i → BlockInv B r) →
      ∃ c', query_write_loop B i data n seq ptr rs c = .ok (ptr + n * B, rs + n * B, c') ∧
        c'.faults = [] ∧ c'.db.inodes = c.db.inodes ∧ c'.db.tree = c.db.tree ∧
        c'.db.data_blocks = write_loop_rows B i data n seq ptr c.db.data_blocks := by
  intro n
  induction n with
  | zero =>
    intro seq ptr rs c hf _ _ _
    exact ⟨c, by simp [query_write_loop], hf, rfl, rfl, rfl⟩
  | succ n ih =>
    intro seq ptr rs c hf hlen hpk hinv
    have hlen' : B ≤ (data.drop ptr).length := by
      rw [List.length_drop]
      have : ptr + (n + 1) * B = ptr + n * B + B := by ring
      omega
    obtain ⟨h1, h2, h3, h4, h5⟩ := write_one_block_put_bytes B c i seq (data.drop ptr) B 0 hB hf
      (by omega) hlen' hpk hinv
    have hPlen : ((data.drop ptr).take B).length = B := by
      rw [List.length_take]; omega
    generalize hw : write_one_block B c i seq (data.drop ptr) B 0 = w at h1 h2 h3 h4 h5
    obtain ⟨ret, c1⟩ := w
    simp only at h1 h2 h3 h4 h5
    have hpk1 : PrimaryKey c1.db.data_blocks := by
      rw [h5]; exact put_bytes_pk _ _ _ _ _ hpk
    have hinv1 : ∀ r ∈ c1.db.data_blocks, r.inode = i → BlockInv B r := by
      rw [h5]
      exact put_bytes_inv B (fun j => j = i) _ i seq 0 _ (by omega) rfl hinv
    obtain ⟨c', e1, e2, e3, e4, e5⟩ := ih (seq + 1) (ptr + B) (rs + ret) c1 h2
      (by have : ptr + (n + 1) * B = ptr + B + n * B := by ring
          omega) hpk1 hinv1
    refine ⟨c', ?_, e2, e3.trans h3, e4.trans h4, ?_⟩
    · simp only [query_write_loop, hw]
      have : ¬ (ret < 0) := by rw [h1]; omega
      rw [if_neg this, e1, h1]
      congr 2
      · ring
      · congr 1
        push_cast
        ring
    · rw [e5, h5]
      rfl

theorem fill_data_blocks_info_lengths (B size offset : Nat) (hB : 0 < B) :
    (fill_data_blocks_info B size offset).offset_first < B ∧
    (fill_data_blocks_info B size offset).offset_first +
      (fill_data_blocks_info B size offset).length_first ≤ B ∧
    (fill_data_blocks_info B size offset).length_last < B ∧
    (fill_data_blocks_info B size offset).length_first ≤ size ∧
    ((fill_data_blocks_info B size offset).seq_first = (fill_data_blocks_info B size offset).seq_last →
      (fill_data_blocks_info B size offset).length_first = size) ∧
    ((fill_data_blocks_info B size offset).seq_first ≠ (fill_data_blocks_info B size offset).seq_last →
      (fill_data_blocks_info B size offset).length_first +
        ((fill_data_blocks_info B size offset).seq_last -
          ((fill_data_blocks_info B size offset).seq_first + 1)) * B +
        (fill_data_blocks_info B size offset).length_last = size) := by
  simp only [fill_data_blocks_info]
  have ho : offset % B < B := Nat.mod_lt _ hB
  have hm : (offset % B + size) % B < B := Nat.mod_lt _ hB
  have hdm := Nat.div_add_mod (offset % B + size) B
  generalize (offset % B + size) / B = k at *
  generalize (offset % B + size) % B = m at *
  generalize offset % B = o at *
  rcases Nat.eq_zero_or_pos k with hk | hk
  · subst hk
    simp only [Nat.mul_zero, Nat.zero_add] at hdm
    simp only [gt_iff_lt, Nat.lt_irrefl, if_false, Nat.add_zero, ne_eq, not_true_eq_false,
      false_implies, and_true, true_implies]
    omega
  · obtain ⟨j, rfl⟩ : ∃ j, k = j + 1 := ⟨k - 1, by omega⟩
    have hmul : B * (j + 1) = j * B + B := by ring
    have hsub : offset / B + (j + 1) - (offset / B + 1) = j := by omega
    simp only [gt_iff_lt, hk, if_true, hsub]
    refine ⟨ho, by omega, hm, by omega, ?_, ?_⟩
    · intro h; omega
    · intro _; omega

theorem SUM_datalength_getD (t : Tables) (i : Nat) :
    (SUM_datalength t i).getD 0 = sum_datalength t.data_blocks i := by
  unfold SUM_datalength sum_datalength
  split
  · rename_i h; simp [h]
  · simp

theorem query_write_finish_eq (c : Conn) (i : Nat) (rs : Int) (hf : c.faults = []) :
    (query_write_finish c i rs).1 = rs ∧ (query_write_finish c i rs).2.faults = [] ∧
    (query_write_finish c i rs).2.db.tree = c.db.tree ∧
    (query_write_finish c i rs).2.db.data_blocks = c.db.data_blocks ∧
    (query_write_finish c i rs).2.db.inodes = c.db.inodes.map (fun r =>
      if r.inode = i then { r with size := sum_datalength c.db.data_blocks i } else r) := by
  unfold query_write_finish
  rw [mysql_query_COMMIT hf]
  simp only []
  rw [mysql_query_select_sum_into (by simp [hf])]
  simp only []
  rw [mysql_query_update_size_from (by simp [hf])]
  simp [hf, SUM_datalength_getD]

theorem write_loop_rows_pk (B i : Nat) (data : List Byte) :
    ∀ (n seq ptr : Nat) (rows : List BlockRow), PrimaryKey rows →
      PrimaryKey (write_loop_rows B i data n seq ptr rows) := by
  intro n
  induction n with
  | zero => intro _ _ rows h; exact h
  | succ n ih =>
    intro seq ptr rows h
    exact ih _ _ _ (put_bytes_pk _ _ _ _ _ h)

theorem write_loop_rows_inv (B i : Nat) (data : List Byte) (Q : Nat → Prop) (hQ : Q i) :
    ∀ (n seq ptr : Nat) (rows : List BlockRow), (∀ r ∈ rows, Q r.inode → BlockInv B r) →
      ∀ r ∈ write_loop_rows B i data n seq ptr rows, Q r.inode → BlockInv B r := by
  intro n
  induction n with
  | zero => intro _ _ rows h; exact h
  | succ n ih =>
    intro seq ptr rows h
    apply ih
    apply put_bytes_inv B Q _ _ _ _ _ _ hQ h
    rw [List.length_take]
    omega

theorem query_write_eq (B : Nat) (c : Conn) (i : Nat) (S : List Byte) (O : Nat)
    (hB : BlockSize B) (hf : c.faults = []) (hpk : PrimaryKey c.db.data_blocks)
    (hinv : ∀ r ∈ c.db.data_blocks, r.inode = i → BlockInv B r) :
    (query_write B c i S S.length O).1 = S.length ∧
    (query_write B c i S S.length O).2.faults = [] ∧
    (query_write B c i S S.length O).2.db.tree = c.db.tree ∧
    (query_write B c i S S.length O).2.db.data_blocks = query_write_rows B c.db.data_blocks i S O ∧
    (query_write B c i S S.length O).2.db.inodes = c.db.inodes.map (fun r =>
      if r.inode = i then
        { r with size := sum_datalength (query_write_rows B c.db.data_blocks i S O) i }
      else r) := by
  obtain ⟨hB0, hBmax⟩ := hB
  obtain ⟨a1, a2, a3, a4, a5, a6⟩ := fill_data_blocks_info_lengths B S.length O hB0
  unfold query_write query_write_rows
  simp only []
  generalize fill_data_blocks_info B S.length O = info at *
  rw [mysql_query_BEGIN hf]
  simp only []
  obtain ⟨h1, h2, h3, h4, h5⟩ := write_one_block_put_bytes B
    { c.sent .BEGIN with txn := some c.db } i info.seq_first S info.length_first info.offset_first
    hBmax (by simp [hf]) a2 a4 hpk hinv
  generalize write_one_block B { c.sent .BEGIN with txn := some c.db } i info.seq_first S
    info.length_first info.offset_first = w at h1 h2 h3 h4 h5
  obtain ⟨ret, c1⟩ := w
  simp only [Conn.sent_db] at h1 h2 h3 h4 h5
  subst h1
  have hneg : ¬ ((info.length_first : Int) < 0) := by omega
  simp only [hneg, if_false]
  have hpk1 : PrimaryKey c1.db.data_blocks := by
    rw [h5]; exact put_bytes_pk _ _ _ _ _ hpk
  have hinv1 : ∀ r ∈ c1.db.data_blocks, r.inode = i → BlockInv B r := by
    rw [h5]
    exact put_bytes_inv B (fun j => j = i) _ i _ _ _
      (by rw [List.length_take]; omega) rfl hinv
  by_cases hseq : info.seq_first = info.seq_last
  · have hcond : ¬ (info.seq_first ≠ info.seq_last) := fun h => h hseq
    simp only [hcond, if_false]
    obtain ⟨f1, f2, f3, f4, f5⟩ := query_write_finish_eq c1 i info.length_first h2
    refine ⟨by rw [f1, a5 hseq], f2, f3.trans h4, f4.trans h5, ?_⟩
    rw [f5, h3, h5]
  · simp only [hseq, ne_eq, not_false_eq_true, if_true]
    have a6' := a6 hseq
    obtain ⟨c2, e1, e2, e3, e4, e5⟩ := query_write_loop_eq B i S hBmax
      (info.seq_last - (info.seq_first + 1)) (info.seq_first + 1) info.length_first
      info.length_first c1 h2 (by omega) hpk1 hinv1
    rw [e1]
    simp only []
    have hpk2 : PrimaryKey c2.db.data_blocks := by
      rw [e5]; exact write_loop_rows_pk _ _ _ _ _ _ _ hpk1
    have hinv2 : ∀ r ∈ c2.db.data_blocks, r.inode = i → BlockInv B r := by
      rw [e5]; exact write_loop_rows_inv B i S (fun j => j = i) rfl _ _ _ _ hinv1
    obtain ⟨g1, g2, g3, g4, g5⟩ := write_one_block_put_bytes B c2 i info.seq_last
      (S.drop (info.length_first + (info.seq_last - (info.seq_first + 1)) * B))
      info.length_last 0 hBmax e2 (by omega) (by rw [List.length_drop]; omega) hpk2 hinv2
    generalize write_one_block B c2 i info.seq_last
      (S.drop (info.length_first + (info.seq_last - (info.seq_first + 1)) * B))
      info.length_last 0 = w2 at g1 g2 g3 g4 g5
    obtain ⟨ret2, c3⟩ := w2
    simp only at g1 g2 g3 g4 g5
    subst g1
    have hneg2 : ¬ ((info.length_last : Int) < 0) := by omega
    simp only [hneg2, if_false]
    obtain ⟨f1, f2, f3, f4, f5⟩ := query_write_finish_eq c3 i
      (info.length_first + (info.seq_last - (info.seq_first + 1) : Nat) * B + info.length_last) g2
    refine ⟨?_, f2, ?_, ?_, ?_⟩
    · rw [f1]; exact_mod_cast a6'
    · rw [f3, g4, e4, h4]
    · rw [f4, g5, e5, h5]
    · rw [f5, g3, e3, h3, g5, e5, h5]

/-! ## Reading: the cursor and the lookup -/

theorem read_blocks_congr (B : Nat) (info : data_blocks_info) (f g : Nat → Option BlockRow) :
    ∀ (n seq : Nat) (out : List Byte) (len : Nat),
      (∀ s, seq ≤ s → s < seq + n → f s = g s) →
      read_blocks B info f n seq out len = read_blocks B info g n seq out len := by
  intro n
  induction n with
  | zero => intro _ _ _ _; rfl
  | succ n ih =>
    intro seq out len h
    have h0 : f seq = g seq := h seq (Nat.le_refl _) (by omega)
    simp only [read_blocks, h0]
    split
    · rfl
    · exact ih _ _ _ (fun s h1 h2 => h s (by omega) (by omega))

theorem cursor_step (cur : List BlockRow) (seq : Nat)
    (hs : cur.Pairwise (fun a b => a.seq < b.seq)) (hge : ∀ r ∈ cur, seq ≤ r.seq) :
    cursor_hit cur seq = cur.find? (fun r => r.seq = seq) ∧
    (if (cursor_hit cur seq).isSome then cur.tail else cur).Pairwise (fun a b => a.seq < b.seq) ∧
    (∀ r ∈ (if (cursor_hit cur seq).isSome then cur.tail else cur), seq + 1 ≤ r.seq) ∧
    ∀ s, seq + 1 ≤ s →
      (if (cursor_hit cur seq).isSome then cur.tail else cur).find? (fun r => r.seq = s) =
        cur.find? (fun r => r.seq = s) := by
  cases cur with
  | nil => simp [cursor_hit]
  | cons r rest =>
    have hrest := (List.pairwise_cons.mp hs).2
    have hlt := (List.pairwise_cons.mp hs).1
    have h2 := hge r (by simp)
    by_cases hr : r.seq = seq
    · simp only [cursor_hit, hr, if_true, Option.isSome_some, List.tail_cons, List.find?_cons,
        decide_True, true_and]
      refine ⟨hrest, fun a ha => by have := hlt a ha; omega, ?_⟩
      intro s hs'
      have : ¬ (seq = s) := by omega
      simp [this]
    · have hnone : rest.find? (fun r => r.seq = seq) = none := by
        rw [List.find?_eq_none]
        intro a ha
        have h1 := hlt a ha
        simp only [decide_eq_true_eq]
        omega
      simp only [cursor_hit, hr, if_false, Option.isSome_none, List.find?_cons, hnone,
        decide_False, Bool.false_eq_true, true_and]
      refine ⟨hs, ?_, fun _ _ => trivial⟩
      intro a ha
      rcases List.mem_cons.mp ha with h | h
      · subst h; omega
      · have := hlt a h; omega

theorem query_read_loop_eq (B : Nat) (info : data_blocks_info) :
    ∀ (n seq : Nat) (cur : List BlockRow) (out : List Byte) (len : Nat),
      cur.Pairwise (fun a b => a.seq < b.seq) → (∀ r ∈ cur, seq ≤ r.seq) →
      query_read_loop B info n seq cur out len =
        read_blocks B info (fun s => cur.find? (fun r => r.seq = s)) n seq out len := by
  intro n
  induction n with
  | zero => intro _ _ _ _ _ _; rfl
  | succ n ih =>
    intro seq cur out len hs hge
    obtain ⟨h1, h2, h3, h4⟩ := cursor_step cur seq hs hge
    simp only [query_read_loop, read_blocks]
    rw [← h1]
    cases query_read_block B info seq (cursor_hit cur seq) out len with
    | none => rfl
    | some p =>
      obtain ⟨o1, l1⟩ := p
      simp only []
      rw [ih (seq + 1) _ o1 l1 h2 h3]
      exact read_blocks_congr B info _ _ n (seq + 1) o1 l1 (fun s hs1 _ => h4 s hs1)

theorem pk_unique {rows : List BlockRow} (hpk : PrimaryKey rows) {a b : BlockRow}
    (ha : a ∈ rows) (hb : b ∈ rows) (h1 : a.inode = b.inode) (h2 : a.seq = b.seq) : a = b := by
  by_contra hne
  have hsym : Symmetric (fun a b : BlockRow => ¬ (a.inode = b.inode ∧ a.seq = b.seq)) :=
    fun x y h hxy => h ⟨hxy.1.symm, hxy.2.symm⟩
  exact List.Pairwise.forall hsym hpk ha hb hne ⟨h1, h2⟩

theorem block_at_eq_some {rows : List BlockRow} (hpk : PrimaryKey rows) (i s : Nat)
    (r : BlockRow) : block_at rows i s = some r ↔ r ∈ rows ∧ r.inode = i ∧ r.seq = s := by
  unfold block_at
  constructor
  · intro h
    have h1 := List.find?_some h
    simp only [decide_eq_true_eq] at h1
    exact ⟨List.mem_of_find?_eq_some h, h1⟩
  · rintro ⟨hr, hi, hs⟩
    cases hfd : rows.find? (fun r => decide (r.inode = i ∧ r.seq = s)) with
    | none =>
      have := List.find?_eq_none.mp hfd r hr
      simp [hi, hs] at this
    | some r' =>
      have h1 := List.find?_some hfd
      simp only [decide_eq_true_eq] at h1
      have := pk_unique hpk (List.mem_of_find?_eq_some hfd) hr (h1.1.trans hi.symm)
        (h1.2.trans hs.symm)
      rw [this]

theorem block_at_eq_none (rows : List BlockRow) (i s : Nat) :
    block_at rows i s = none ↔ ∀ r ∈ rows, ¬ (r.inode = i ∧ r.seq = s) := by
  unfold block_at
  rw [List.find?_eq_none]
  simp

theorem select_blocks_rows_mem (t : Tables) (i first last : Nat) (r : BlockRow) :
    r ∈ select_blocks_rows t i first last ↔
      r ∈ t.data_blocks ∧ r.inode = i ∧ first ≤ r.seq ∧ r.seq ≤ last := by
  unfold select_blocks_rows rows_of_block
  split
  · rename_i h
    subst h
    simp only [List.mem_filter, decide_eq_true_eq]
    constructor
    · rintro ⟨h1, h2, h3⟩; exact ⟨h1, h2, by omega, by omega⟩
    · rintro ⟨h1, h2, h3, h4⟩; exact ⟨h1, h2, by omega⟩
  · rw [(List.perm_insertionSort _ _).mem_iff]
    simp only [List.mem_filter, decide_eq_true_eq]

theorem select_blocks_rows_sorted (t : Tables) (i first last : Nat)
    (hpk : PrimaryKey t.data_blocks) :
    (select_blocks_rows t i first last).Pairwise (fun a b => a.seq < b.seq) := by
  unfold select_blocks_rows rows_of_block
  split
  · rcases filter_key_of_pk t.data_blocks i first hpk with h | ⟨r, h⟩ <;> rw [h] <;> simp
  · have hsub : (t.data_blocks.filter
        (fun r => decide (r.inode = i ∧ first ≤ r.seq ∧ r.seq ≤ last))).Sublist t.data_blocks :=
      List.filter_sublist _
    have h1 := List.Pairwise.and_mem.mp (List.Pairwise.sublist hsub hpk)
    have h2 : (t.data_blocks.filter
        (fun r => decide (r.inode = i ∧ first ≤ r.seq ∧ r.seq ≤ last))).Pairwise
        (fun a b => a.seq ≠ b.seq) := by
      apply h1.imp
      rintro a b ⟨ha, hb, h⟩ heq
      have ha' := (List.mem_filter.mp ha).2
      have hb' := (List.mem_filter.mp hb).2
      simp only [decide_eq_true_eq] at ha' hb'
      exact h ⟨ha'.1.trans hb'.1.symm, heq⟩
    have h3 := (List.Perm.pairwise_iff (fun {x y : BlockRow} (h : x.seq ≠ y.seq) => h.symm)
      (List.perm_insertionSort (fun a b : BlockRow => a.seq ≤ b.seq) _)).mpr h2
    have h4 := List.sorted_insertionSort (fun a b : BlockRow => a.seq ≤ b.seq)
      (t.data_blocks.filter (fun r => decide (r.inode = i ∧ first ≤ r.seq ∧ r.seq ≤ last)))
    exact (List.Pairwise.and h4 h3).imp (fun h => by omega)

theorem select_blocks_rows_find (t : Tables) (i first last s : Nat)
    (hpk : PrimaryKey t.data_blocks) (h1 : first ≤ s) (h2 : s ≤ last) :
    (select_blocks_rows t i first last).find? (fun r => r.seq = s) = block_at t.data_blocks i s := by
  cases hb : block_at t.data_blocks i s with
  | none =>
    rw [List.find?_eq_none]
    intro r hr
    have hr' := (select_blocks_rows_mem t i first last r).mp hr
    have := (block_at_eq_none _ _ _).mp hb r hr'.1
    simp only [decide_eq_true_eq]
    exact fun h => this ⟨hr'.2.1, h⟩
  | some r =>
    obtain ⟨hr, hi, hs⟩ := (block_at_eq_some hpk i s r).mp hb
    have hmem : r ∈ select_blocks_rows t i first last :=
      (select_blocks_rows_mem t i first last r).mpr ⟨hr, hi, by omega, by omega⟩
    cases hfd : (select_blocks_rows t i first last).find? (fun r => decide (r.seq = s)) with
    | none =>
      have := List.find?_eq_none.mp hfd r hmem
      simp [hs] at this
    | some r' =>
      have hk := List.find?_some hfd
      simp only [decide_eq_true_eq] at hk
      have hr' := (select_blocks_rows_mem t i first last r').mp (List.mem_of_find?_eq_some hfd)
      rw [pk_unique hpk hr'.1 hr (hr'.2.1.trans hi.symm) (hk.trans hs.symm)]

theorem query_read_eq (B : Nat) (c : Conn) (i size offset : Nat) (hf : c.faults = [])
    (hpk : PrimaryKey c.db.data_blocks) :
    (query_read B c i size offset).1 =
      ((read_blocks B (fill_data_blocks_info B size offset) (block_at c.db.data_blocks i)
        ((fill_data_blocks_info B size offset).seq_last + 1 -
          (fill_data_blocks_info B size offset).seq_first)
        (fill_data_blocks_info B size offset).seq_first [] 0).2 : Int) ∧
    (query_read B c i size offset).2.1 =
      (read_blocks B (fill_data_blocks_info B size offset) (block_at c.db.data_blocks i)
        ((fill_data_blocks_info B size offset).seq_last + 1 -
          (fill_data_blocks_info B size offset).seq_first)
        (fill_data_blocks_info B size offset).seq_first [] 0).1 := by
  unfold query_read
  simp only []
  generalize fill_data_blocks_info B size offset = info
  have hq : mysql_query c (if info.seq_first = info.seq_last then
      Stmt.select_block i info.seq_first
      else Stmt.select_blocks i info.seq_first info.seq_last) =
      (0, c.sent (if info.seq_first = info.seq_last then
      Stmt.select_block i info.seq_first
      else Stmt.select_blocks i info.seq_first info.seq_last)) := by
    split
    · exact mysql_query_select_block hf _ _
    · exact mysql_query_select_blocks hf _ _ _
  rw [hq]
  simp only [ne_eq, not_true_eq_false, if_false, Conn.sent_db]
  rw [query_read_loop_eq B info _ _ _ _ _ (select_blocks_rows_sorted c.db i _ _ hpk)
    (fun r hr => ((select_blocks_rows_mem c.db i _ _ r).mp hr).2.2.1)]
  rw [read_blocks_congr B info _ (block_at c.db.data_blocks i) _ _ _ _
    (fun s h1 h2 => select_blocks_rows_find c.db i _ _ s hpk h1 (by omega))]
  exact ⟨rfl, rfl⟩

/-! ## Reading a range whose blocks are long enough -/

theorem read_blocks_tail (B : Nat) (info : data_blocks_info) (f : Nat → Option BlockRow)
    (S : List Byte)
    (hmid : ∀ s, info.seq_first < s → s < info.seq_last → B ≤ hit_len B (f s) ∧
      (hit_data B (f s)).take B =
        (S.drop (info.length_first + (s - (info.seq_first + 1)) * B)).take B)
    (hlast : info.seq_first < info.seq_last → info.length_last ≤ hit_len B (f info.seq_last) ∧
      (hit_data B (f info.seq_last)).take info.length_last =
        S.drop (info.length_first + (info.seq_last - (info.seq_first + 1)) * B)) :
    ∀ (m seq ptr : Nat), info.seq_first < seq → seq + m = info.seq_last →
      ptr = info.length_first + (seq - (info.seq_first + 1)) * B →
      read_blocks B info f (m + 1) seq (S.take ptr) ptr = (S, ptr + m * B + info.length_last) := by
  intro m
  induction m with
  | zero =>
    intro seq ptr h1 h2 h3
    have hseq : seq = info.seq_last := by omega
    subst hseq
    obtain ⟨l1, l2⟩ := hlast h1
    have hne : ¬ (info.seq_last = info.seq_first) := by omega
    simp only [read_blocks, query_read_block, hne, false_and, if_false, if_true,
      Nat.min_eq_left l1, l2, ← h3, List.take_append_drop, Nat.zero_mul, Nat.add_zero]
  | succ m ih =>
    intro seq ptr h1 h2 h3
    obtain ⟨l1, l2⟩ := hmid seq h1 (by omega)
    have hne : ¬ (seq = info.seq_first) := by omega
    have hne2 : ¬ (seq = info.seq_last) := by omega
    have htake : S.take ptr ++ (S.drop ptr).take B = S.take (ptr + B) := by
      rw [List.take_add]
    have hptr : ptr + B = info.length_first + (seq + 1 - (info.seq_first + 1)) * B := by
      have : seq + 1 - (info.seq_first + 1) = (seq - (info.seq_first + 1)) + 1 := by omega
      rw [this, h3]; ring
    have := ih (seq + 1) (ptr + B) (by omega) (by omega) hptr
    rw [read_blocks]
    simp only [query_read_block, hne, hne2, false_and, if_false, Nat.min_eq_left l1, l2, ← h3,
      htake]
    rw [this]
    congr 1
    ring

theorem fill_data_blocks_info_first_pos (B size offset : Nat) (hB : 0 < B)
    (h : (fill_data_blocks_info B size offset).seq_first <
      (fill_data_blocks_info B size offset).seq_last) :
    (fill_data_blocks_info B size offset).length_first ≠ 0 := by
  simp only [fill_data_blocks_info] at h ⊢
  have hk : (offset % B + size) / B > 0 := by omega
  have ho : offset % B < B := Nat.mod_lt _ hB
  rw [if_pos hk]
  omega

theorem read_blocks_exact (B size offset : Nat) (hB : 0 < B) (f : Nat → Option BlockRow)
    (S : List Byte) (hS : S.length = size)
    (hfirst : (fill_data_blocks_info B size offset).length_first = 0 ∨
      ((fill_data_blocks_info B size offset).offset_first +
          (fill_data_blocks_info B size offset).length_first ≤
          hit_len B (f (fill_data_blocks_info B size offset).seq_first) ∧
        ((hit_data B (f (fill_data_blocks_info B size offset).seq_first)).drop
            (fill_data_blocks_info B size offset).offset_first).take
            (fill_data_blocks_info B size offset).length_first =
          S.take (fill_data_blocks_info B size offset).length_first))
    (hmid : ∀ s, (fill_data_blocks_info B size offset).seq_first < s →
      s < (fill_data_blocks_info B size offset).seq_last → B ≤ hit_len B (f s) ∧
      (hit_data B (f s)).take B =
        (S.drop ((fill_data_blocks_info B size offset).length_first +
          (s - ((fill_data_blocks_info B size offset).seq_first + 1)) * B)).take B)
    (hlast : (fill_data_blocks_info B size offset).seq_first <
        (fill_data_blocks_info B size offset).seq_last →
      (fill_data_blocks_info B size offset).length_last ≤
        hit_len B (f (fill_data_blocks_info B size offset).seq_last) ∧
      (hit_data B (f (fill_data_blocks_info B size offset).seq_last)).take
          (fill_data_blocks_info B size offset).length_last =
        S.drop ((fill_data_blocks_info B size offset).length_first +
          ((fill_data_blocks_info B size offset).seq_last -
            ((fill_data_blocks_info B size offset).seq_first + 1)) * B)) :
    read_blocks B (fill_data_blocks_info B size offset) f
      ((fill_data_blocks_info B size offset).seq_last + 1 -
        (fill_data_blocks_info B size offset).seq_first)
      (fill_data_blocks_info B size offset).seq_first [] 0 = (S, size) := by
  obtain ⟨a1, a2, a3, a4, a5, a6⟩ := fill_data_blocks_info_lengths B size offset hB
  have a0 : (fill_data_blocks_info B size offset).seq_first ≤
      (fill_data_blocks_info B size offset).seq_last := by
    simp [fill_data_blocks_info]
  have tail := read_blocks_tail B (fill_data_blocks_info B size offset) f S hmid hlast
  have a7 := fill_data_blocks_info_first_pos B size offset hB
  generalize fill_data_blocks_info B size offset = info at *
  rcases Nat.eq_or_lt_of_le a0 with heq | hlt
  · have hn : info.seq_last + 1 - info.seq_first = 1 := by omega
    have hlf := a5 heq
    rw [hn, read_blocks]
    rcases hfirst with h0 | ⟨h1, h2⟩
    · have hS0 : S = [] := List.length_eq_zero.mp (by omega)
      subst hS0
      simp only [query_read_block, h0, true_and, if_true, Nat.min_zero, List.take_zero,
        List.append_nil, Nat.add_zero]
      split
      · simp only [List.length_nil] at hS
        simp [hS]
      · rename_i o1 l1 heq1
        split at heq1
        · simp at heq1
        · simp only [Option.some.injEq, Prod.mk.injEq] at heq1
          obtain ⟨e1, e2⟩ := heq1
          subst e1 e2
          simp only [List.length_nil] at hS
          simp [read_blocks, hS]
    · have hnot : ¬ (hit_len B (f info.seq_first) < info.offset_first) := by omega
      have hmin : min (hit_len B (f info.seq_first) - info.offset_first) info.length_first =
          info.length_first := by omega
      simp only [query_read_block, hnot, and_false, if_false, if_true, hmin, h2, List.nil_append,
        Nat.zero_add, read_blocks]
      rw [hlf, ← hS, List.take_length]
  · have hn : info.seq_last + 1 - info.seq_first = (info.seq_last - (info.seq_first + 1)) + 1 + 1 := by
      omega
    have hlf : info.length_first ≠ 0 := a7 hlt
    rcases hfirst with h0 | ⟨h1, h2⟩
    · exact absurd h0 hlf
    · have hnot : ¬ (hit_len B (f info.seq_first) < info.offset_first) := by omega
      have hmin : min (hit_len B (f info.seq_first) - info.offset_first) info.length_first =
          info.length_first := by omega
      rw [hn, read_blocks]
      simp only [query_read_block, hnot, and_false, if_false, if_true, hmin, h2, List.nil_append,
        Nat.zero_add]
      rw [tail (info.seq_last - (info.seq_first + 1)) (info.seq_first + 1) info.length_first
        (by omega) (by omega) (by simp)]
      congr 1
      exact a6 (by omega)

/-! ## Holes -/

theorem read_blocks_hole (B size offset : Nat) (hB : 0 < B) :
    read_blocks B (fill_data_blocks_info B size offset) (fun _ => none)
      ((fill_data_blocks_info B size offset).seq_last + 1 -
        (fill_data_blocks_info B size offset).seq_first)
      (fill_data_blocks_info B size offset).seq_first [] 0 =
      (List.replicate size 0, size) := by
  obtain ⟨a1, a2, a3, a4, a5, a6⟩ := fill_data_blocks_info_lengths B size offset hB
  apply read_blocks_exact B size offset hB (fun _ => none) (List.replicate size 0) (by simp)
  · right
    generalize fill_data_blocks_info B size offset = info at *
    refine ⟨a2, ?_⟩
    simp only [hit_data, zeroes, List.drop_replicate, List.take_replicate]
    congr 1
    omega
  · intro s h1 h2
    have a6' := a6 (by omega)
    generalize fill_data_blocks_info B size offset = info at *
    refine ⟨Nat.le_refl _, ?_⟩
    simp only [hit_data, zeroes, List.drop_replicate, List.take_replicate]
    congr 1
    have : (s - (info.seq_first + 1) + 1) * B ≤ (info.seq_last - (info.seq_first + 1)) * B :=
      Nat.mul_le_mul_right B (by omega)
    have h3 : (s - (info.seq_first + 1) + 1) * B = (s - (info.seq_first + 1)) * B + B := by ring
    omega
  · intro h1
    have a6' := a6 (by omega)
    generalize fill_data_blocks_info B size offset = info at *
    refine ⟨by simp only [hit_len]; omega, ?_⟩
    simp only [hit_data, zeroes, List.drop_replicate, List.take_replicate]
    congr 1
    omega

theorem query_read_hole_eq (B : Nat) (c : Conn) (inode size offset : Nat) (hB : 0 < B)
    (hf : c.faults = [])
    (hhole : ∀ r ∈ c.db.data_blocks, r.inode = inode →
      ¬ ((fill_data_blocks_info B size offset).seq_first ≤ r.seq ∧
         r.seq ≤ (fill_data_blocks_info B size offset).seq_last)) :
    (query_read B c inode size offset).1 = size ∧
    (query_read B c inode size offset).2.1 = List.replicate size 0 := by
  have hrd := read_blocks_hole B size offset hB
  unfold query_read
  simp only []
  generalize fill_data_blocks_info B size offset = info at *
  have hq : mysql_query c (if info.seq_first = info.seq_last then
      Stmt.select_block inode info.seq_first
      else Stmt.select_blocks inode info.seq_first info.seq_last) =
      (0, c.sent (if info.seq_first = info.seq_last then
      Stmt.select_block inode info.seq_first
      else Stmt.select_blocks inode info.seq_first info.seq_last)) := by
    split
    · exact mysql_query_select_block hf _ _
    · exact mysql_query_select_blocks hf _ _ _
  have hnil : select_blocks_rows c.db inode info.seq_first info.seq_last = [] := by
    rw [List.eq_nil_iff_forall_not_mem]
    intro r hr
    obtain ⟨h1, h2, h3, h4⟩ := (select_blocks_rows_mem c.db inode _ _ r).mp hr
    exact hhole r h1 h2 ⟨h3, h4⟩
  rw [hq]
  simp only [ne_eq, not_true_eq_false, if_false, Conn.sent_db, hnil]
  rw [query_read_loop_eq B info _ _ _ _ _ List.Pairwise.nil (by simp)]
  simp only [List.find?_nil, hrd]
  simp

/-! ## The blocks a write leaves behind -/

theorem write_loop_rows_block_at_out (B i : Nat) (data : List Byte) :
    ∀ (n seq ptr : Nat) (rows : List BlockRow) (i' s' : Nat),
      ¬ (i' = i ∧ seq ≤ s' ∧ s' < seq + n) →
      block_at (write_loop_rows B i data n seq ptr rows) i' s' = block_at rows i' s' := by
  intro n
  induction n with
  | zero => intro _ _ _ _ _ _; rfl
  | succ n ih =>
    intro seq ptr rows i' s' h
    rw [write_loop_rows, ih _ _ _ _ _ (by omega)]
    exact put_bytes_block_at_ne _ _ _ _ _ _ _ (by omega)

theorem put_bytes_block_at (rows : List BlockRow) (i s off : Nat) (P : List Byte)
    (hP : P.length ≠ 0) :
    ∃ r D, block_at (put_bytes rows i s off P) i s = some r ∧
      r.datalength = r.data.length ∧ r.data = splice D off P := by
  obtain ⟨r, h1, _, _, h4, h5⟩ := put_block_block_at rows i s off P
  exact ⟨r, _, by simpa [put_bytes, hP] using h1, h4, h5⟩

theorem write_loop_rows_block_at_in (B i : Nat) (data : List Byte) (hB : 0 < B) :
    ∀ (n seq ptr : Nat) (rows : List BlockRow) (s : Nat), seq ≤ s → s < seq + n →
      ptr + n * B ≤ data.length →
      ∃ r D, block_at (write_loop_rows B i data n seq ptr rows) i s = some r ∧
        r.datalength = r.data.length ∧
        r.data = splice D 0 ((data.drop (ptr + (s - seq) * B)).take B) := by
  intro n
  induction n with
  | zero => intro _ _ _ _ h1 h2 _; omega
  | succ n ih =>
    intro seq ptr rows s h1 h2 h3
    have hmul : (n + 1) * B = n * B + B := by ring
    rw [write_loop_rows]
    rcases Nat.eq_or_lt_of_le h1 with heq | hlt
    · subst heq
      rw [write_loop_rows_block_at_out B i data n _ _ _ i seq (by omega)]
      have hP : ((data.drop ptr).take B).length ≠ 0 := by
        rw [List.length_take, List.length_drop]; omega
      simpa using put_bytes_block_at rows i seq 0 _ hP
    · obtain ⟨r, D, e1, e2, e3⟩ := ih (seq + 1) (ptr + B)
        (put_bytes rows i seq 0 ((data.drop ptr).take B)) s (by omega) (by omega) (by omega)
      refine ⟨r, D, e1, e2, ?_⟩
      rw [e3]
      have : s - seq = (s - (seq + 1)) + 1 := by omega
      rw [this]
      congr 3
      ring

theorem splice_zero_take (D P : List Byte) : (splice D 0 P).take P.length = P := by
  have := splice_drop_take D P 0
  simpa using this

/-- After a write, a read of the same range finds every block long enough and
holding the bytes written. -/
theorem read_blocks_query_write_rows (B : Nat) (rows : List BlockRow) (i : Nat) (S : List Byte)
    (O : Nat) (hB : 0 < B) :
    read_blocks B (fill_data_blocks_info B S.length O)
      (block_at (query_write_rows B rows i S O) i)
      ((fill_data_blocks_info B S.length O).seq_last + 1 -
        (fill_data_blocks_info B S.length O).seq_first)
      (fill_data_blocks_info B S.length O).seq_first [] 0 = (S, S.length) := by
  obtain ⟨a1, a2, a3, a4, a5, a6⟩ := fill_data_blocks_info_lengths B S.length O hB
  have a0 : (fill_data_blocks_info B S.length O).seq_first ≤
      (fill_data_blocks_info B S.length O).seq_last := by
    simp [fill_data_blocks_info]
  apply read_blocks_exact B S.length O hB _ S rfl
  · -- first block
    unfold query_write_rows
    simp only []
    generalize fill_data_blocks_info B S.length O = info at *
    by_cases hlf : info.length_first = 0
    · exact Or.inl hlf
    · right
      have hP : (S.take info.length_first).length = info.length_first := by
        rw [List.length_take]; omega
      obtain ⟨r, D, e1, e2, e3⟩ := put_bytes_block_at rows i info.seq_first info.offset_first
        (S.take info.length_first) (by omega)
      have hfin : block_at (if info.seq_first ≠ info.seq_last then
          put_bytes (write_loop_rows B i S (info.seq_last - (info.seq_first + 1))
            (info.seq_first + 1) info.length_first
            (put_bytes rows i info.seq_first info.offset_first (S.take info.length_first)))
            i info.seq_last 0
            ((S.drop (info.length_first + (info.seq_last - (info.seq_first + 1)) * B)).take
              info.length_last)
          else put_bytes rows i info.seq_first info.offset_first (S.take info.length_first))
          i info.seq_first = some r := by
        split
        · rename_i hne
          rw [put_bytes_block_at_ne _ _ _ _ _ _ _ (by omega),
            write_loop_rows_block_at_out B i S _ _ _ _ _ _ (by omega), e1]
        · exact e1
      rw [hfin]
      simp only [hit_len, hit_data, e2, e3, splice_length, hP]
      refine ⟨by omega, ?_⟩
      have := splice_drop_take D (S.take info.length_first) info.offset_first
      rw [hP] at this
      exact this
  · -- intermediate blocks
    intro s h1 h2
    unfold query_write_rows
    simp only []
    have a6' := a6 (by omega)
    generalize fill_data_blocks_info B S.length O = info at *
    have hne : info.seq_first ≠ info.seq_last := by omega
    rw [if_pos hne]
    have hbound : (s - (info.seq_first + 1) + 1) * B ≤ (info.seq_last - (info.seq_first + 1)) * B :=
      Nat.mul_le_mul_right B (by omega)
    have hexp : (s - (info.seq_first + 1) + 1) * B = (s - (info.seq_first + 1)) * B + B := by ring
    obtain ⟨r, D, e1, e2, e3⟩ := write_loop_rows_block_at_in B i S hB
      (info.seq_last - (info.seq_first + 1)) (info.seq_first + 1) info.length_first
      (put_bytes rows i info.seq_first info.offset_first (S.take info.length_first)) s
      (by omega) (by omega) (by omega)
    have hP : ((S.drop (info.length_first + (s - (info.seq_first + 1)) * B)).take B).length = B := by
      rw [List.length_take, List.length_drop]; omega
    rw [put_bytes_block_at_ne _ _ _ _ _ _ _ (by omega), e1]
    simp only [hit_len, hit_data, e2, e3, splice_length, hP]
    refine ⟨by omega, ?_⟩
    have := splice_zero_take D ((S.drop (info.length_first + (s - (info.seq_first + 1)) * B)).take B)
    rw [hP] at this
    exact this
  · -- last block
    intro h1
    unfold query_write_rows
    simp only []
    have a6' := a6 (by omega)
    generalize fill_data_blocks_info B S.length O = info at *
    have hne : info.seq_first ≠ info.seq_last := by omega
    rw [if_pos hne]
    have hfull : (S.drop (info.length_first + (info.seq_last - (info.seq_first + 1)) * B)).take
        info.length_last =
        S.drop (info.length_first + (info.seq_last - (info.seq_first + 1)) * B) := by
      apply List.take_of_length_le
      rw [List.length_drop]; omega
    have hP : (S.drop (info.length_first + (info.seq_last - (info.seq_first + 1)) * B)).length =
        info.length_last := by
      rw [List.length_drop]; omega
    by_cases hll : info.length_last = 0
    · refine ⟨by omega, ?_⟩
      rw [hll, List.take_zero]
      symm
      apply List.length_eq_zero.mp
      omega
    · rw [hfull]
      obtain ⟨r, D, e1, e2, e3⟩ := put_bytes_block_at
        (write_loop_rows B i S (info.seq_last - (info.seq_first + 1)) (info.seq_first + 1)
          info.length_first
          (put_bytes rows i info.seq_first info.offset_first (S.take info.length_first)))
        i info.seq_last 0
        (S.drop (info.length_first + (info.seq_last - (info.seq_first + 1)) * B)) (by omega)
      rw [e1]
      simp only [hit_len, hit_data, e2, e3, splice_length, hP]
      refine ⟨by omega, ?_⟩
      have := splice_zero_take D
        (S.drop (info.length_first + (info.seq_last - (info.seq_first + 1)) * B))
      rw [hP] at this
      exact this

theorem query_write_rows_pk (B : Nat) (rows : List BlockRow) (i : Nat) (S : List Byte) (O : Nat)
    (hpk : PrimaryKey rows) : PrimaryKey (query_write_rows B rows i S O) := by
  unfold query_write_rows
  simp only []
  split
  · exact put_bytes_pk _ _ _ _ _ (write_loop_rows_pk _ _ _ _ _ _ _ (put_bytes_pk _ _ _ _ _ hpk))
  · exact put_bytes_pk _ _ _ _ _ hpk

/-! ## What `query_write` returns -/

theorem mysql_query_pair (c : Conn) (s : Stmt) (hf : c.faults = []) :
    ∃ ret c1, mysql_query c s = (ret, c1) ∧ c1.faults = [] :=
  ⟨(mysql_query c s).1, (mysql_query c s).2, rfl, (mysql_query_faults c s).trans (by rw [hf]; rfl)⟩

theorem write_one_block_ret (B : Nat) (c : Conn) (i s : Nat) (data : List Byte) (size off : Nat)
    (hf : c.faults = []) (hb : off + size ≤ B) :
    ((write_one_block B c i s data size off).1 = size ∨
      (write_one_block B c i s data size off).1 = - EIO) ∧
    (write_one_block B c i s data size off).2.faults = [] := by
  have hb' : ¬ (off + size > B) := by omega
  have hq : query_size_block c i s =
      ((query_size_block c i s).1, c.sent (.select_datalength i s)) := by
    rw [← query_size_block_snd]
  unfold write_one_block
  rw [hq]
  simp only [hb', if_false]
  by_cases hsz : size = 0
  · subst hsz
    simp [hf]
  · simp only [hsz, if_false]
    have hf0 : (c.sent (.select_datalength i s)).faults = [] := by simp [hf]
    generalize c.sent (.select_datalength i s) = c0 at *
    by_cases hcb : size_t (query_size_block c i s).1 = size_t (- ENXIO)
    · simp only [hcb, if_true]
      obtain ⟨r1, c1, e1, f1⟩ := mysql_query_pair c0 (.insert_block i s) hf0
      rw [e1]
      simp only []
      by_cases hr1 : r1 = 0
      · subst hr1
        simp only [ne_eq, not_true_eq_false, if_false]
        obtain ⟨r2, c2, e2, f2⟩ := mysql_query_pair c1
          (.update_data (write_one_block_sql 0 size off) (data.take size) i s) f1
        rw [e2]
        simp only []
        by_cases hr2 : r2 = 0
        · subst hr2
          simp only [ne_eq, not_true_eq_false, if_false]
          obtain ⟨r3, c3, e3, f3⟩ := mysql_query_pair c2 (.update_datalength i s) f2
          rw [e3]
          simp only []
          by_cases hr3 : r3 = 0
          · subst hr3; simp [f3]
          · simp [hr3, f3]
        · simp [hr2, f2]
      · simp [hr1, f1]
    · simp only [hcb, if_false, ne_eq, not_true_eq_false]
      obtain ⟨r2, c2, e2, f2⟩ := mysql_query_pair c0
        (.update_data (write_one_block_sql (size_t (query_size_block c i s).1) size off)
          (data.take size) i s) hf0
      rw [e2]
      simp only []
      by_cases hr2 : r2 = 0
      · subst hr2
        simp only [ne_eq, not_true_eq_false, if_false]
        obtain ⟨r3, c3, e3, f3⟩ := mysql_query_pair c2 (.update_datalength i s) f2
        rw [e3]
        simp only []
        by_cases hr3 : r3 = 0
        · subst hr3; simp [f3]
        · simp [hr3, f3]
      · simp [hr2, f2]

theorem query_write_loop_ret (B i : Nat) (data : List Byte) :
    ∀ (n seq ptr : Nat) (rs : Int) (c : Conn), c.faults = [] →
      (∃ e, query_write_loop B i data n seq ptr rs c = .error e ∧ e.1 < 0) ∨
      (∃ c', query_write_loop B i data n seq ptr rs c = .ok (ptr + n * B, rs + n * B, c') ∧
        c'.faults = []) := by
  intro n
  induction n with
  | zero =>
    intro seq ptr rs c hf
    exact Or.inr ⟨c, by simp [query_write_loop], hf⟩
  | succ n ih =>
    intro seq ptr rs c hf
    obtain ⟨h1, h2⟩ := write_one_block_ret B c i seq (data.drop ptr) B 0 hf (by omega)
    rw [query_write_loop]
    generalize write_one_block B c i seq (data.drop ptr) B 0 = w at h1 h2
    obtain ⟨ret, c1⟩ := w
    simp only at h1 h2 ⊢
    rcases h1 with h1 | h1
    · subst h1
      have : ¬ ((B : Int) < 0) := by omega
      rw [if_neg this]
      rcases ih (seq + 1) (ptr + B) (rs + B) c1 h2 with ⟨e, he, hneg⟩ | ⟨c', he, hf'⟩
      · exact Or.inl ⟨e, he, hneg⟩
      · refine Or.inr ⟨c', ?_, hf'⟩
        rw [he]
        congr 2
        · ring
        · congr 1
          push_cast
          ring
    · subst h1
      have : (- EIO : Int) < 0 := by decide
      rw [if_pos this]
      exact Or.inl ⟨_, rfl, this⟩

/-- Without faults `query_write` returns a negative value or goes through its
final size update with `size` as the count. -/
theorem query_write_cases (B : Nat) (c : Conn) (i : Nat) (data : List Byte) (size offset : Nat)
    (hB : 0 < B) (hf : c.faults = []) :
    (query_write B c i data size offset).1 < 0 ∨
    ∃ c1, c1.faults = [] ∧ query_write B c i data size offset = query_write_finish c1 i size := by
  obtain ⟨a1, a2, a3, a4, a5, a6⟩ := fill_data_blocks_info_lengths B size offset hB
  have hneg : (- EIO : Int) < 0 := by decide
  unfold query_write
  simp only []
  generalize fill_data_blocks_info B size offset = info at *
  obtain ⟨r0, c0, e0, f0⟩ := mysql_query_pair c .BEGIN hf
  rw [e0]
  simp only []
  obtain ⟨h1, h2⟩ := write_one_block_ret B c0 i info.seq_first data info.length_first
    info.offset_first f0 a2
  generalize write_one_block B c0 i info.seq_first data info.length_first info.offset_first = w
    at h1 h2
  obtain ⟨ret, c1⟩ := w
  simp only at h1 h2 ⊢
  rcases h1 with h1 | h1
  · subst h1
    have : ¬ ((info.length_first : Int) < 0) := by omega
    rw [if_neg this]
    by_cases hseq : info.seq_first = info.seq_last
    · have hcond : ¬ (info.seq_first ≠ info.seq_last) := fun h => h hseq
      rw [if_neg hcond, a5 hseq]
      exact Or.inr ⟨c1, h2, rfl⟩
    · rw [if_pos hseq]
      rcases query_write_loop_ret B i data (info.seq_last - (info.seq_first + 1))
        (info.seq_first + 1) info.length_first info.length_first c1 h2 with
        ⟨e, he, hlt⟩ | ⟨c2, he, hf2⟩
      · rw [he]
        exact Or.inl hlt
      · rw [he]
        simp only []
        obtain ⟨g1, g2⟩ := write_one_block_ret B c2 i info.seq_last
          (data.drop (info.length_first + (info.seq_last - (info.seq_first + 1)) * B))
          info.length_last 0 hf2 (by omega)
        generalize write_one_block B c2 i info.seq_last
          (data.drop (info.length_first + (info.seq_last - (info.seq_first + 1)) * B))
          info.length_last 0 = w2 at g1 g2
        obtain ⟨ret2, c3⟩ := w2
        simp only at g1 g2 ⊢
        rcases g1 with g1 | g1
        · subst g1
          have : ¬ ((info.length_last : Int) < 0) := by omega
          rw [if_neg this]
          refine Or.inr ⟨c3, g2, ?_⟩
          congr 1
          have := a6 hseq
          rw [← this]
          push_cast
          ring
        · subst g1
          rw [if_pos hneg]
          exact Or.inl hneg
  · subst h1
    rw [if_pos hneg]
    exact Or.inl hneg

/-! ## Truncate without faults -/

theorem mysql_query_lookup_snd (c : Conn) (path : List Byte) (nlinks : Bool) :
    (mysql_query c (query_inode_full_stmt path nlinks)).2 =
      c.sent (query_inode_full_stmt path nlinks) := by
  unfold query_inode_full_stmt
  split <;> (unfold mysql_query; simp only [exec]; split <;> rfl)

theorem query_inode_full_conn (c : Conn) (path : List Byte) (nlinks : Bool) :
    (query_inode_full c path nlinks).2.2 = c.sent (query_inode_full_stmt path nlinks) := by
  unfold query_inode_full
  have h := mysql_query_lookup_snd c path nlinks
  generalize mysql_query c (query_inode_full_stmt path nlinks) = q at h ⊢
  obtain ⟨r, c1⟩ := q
  simp only [] at h ⊢
  subst h
  split
  · rfl
  · split <;> rfl

theorem query_inode_snd (c : Conn) (path : List Byte) :
    (query_inode c path).2 = c.sent (query_inode_full_stmt path false) := by
  have h := query_inode_full_conn c path false
  unfold query_inode
  generalize query_inode_full c path false = q at h ⊢
  obtain ⟨r, o, c1⟩ := q
  simp only [] at h ⊢
  subst h
  cases o with
  | none => rfl
  | some v => simp only []; split <;> rfl

theorem query_truncate_eq (B : Nat) (c : Conn) (path : List Byte) (N i : Nat)
    (hf : c.faults = []) (hres : (query_inode c path).1 = (i : Int)) :
    (query_truncate B c path N).1 = 0 ∧
    (query_truncate B c path N).2.faults = [] ∧
    (query_truncate B c path N).2.db.tree = c.db.tree ∧
    (query_truncate B c path N).2.db.data_blocks =
      (c.db.data_blocks.filter (fun r => ¬ (r.inode = i ∧ r.seq > N / B))).map (fun r =>
        if r.inode = i ∧ r.seq = N / B then
          { r with data := RPAD r.data (N % B), datalength := (RPAD r.data (N % B)).length }
        else r) ∧
    (query_truncate B c path N).2.db.inodes =
      c.db.inodes.map (fun r => if r.inode = i then { r with size := N } else r) := by
  have hq : query_inode c path = ((i : Int), c.sent (query_inode_full_stmt path false)) := by
    rw [← hres, ← query_inode_snd]
  have hi : ¬ ((i : Int) < 0) := by omega
  unfold query_truncate
  simp only [hq, hi, if_false, Int.toNat_ofNat]
  rw [mysql_query_BEGIN (by simp [hf])]
  simp only []
  rw [mysql_query_delete_blocks_after (by simp [hf])]
  simp only [ne_eq, not_true_eq_false, if_false]
  rw [mysql_query_update_data (by simp [hf])]
  simp only [ne_eq, not_true_eq_false, if_false]
  rw [mysql_query_update_datalength (by simp [hf])]
  simp only [ne_eq, not_true_eq_false, if_false]
  rw [mysql_query_update_size (by simp [hf])]
  simp only [ne_eq, not_true_eq_false, if_false]
  rw [mysql_query_COMMIT (by simp [hf])]
  simp only [fill_data_blocks_info, Nat.zero_mod, Nat.zero_add, Nat.zero_div, Conn.sent_db,
    Conn.sent_faults, Conn.with_blocks_blocks, Conn.with_blocks_inodes, Conn.with_blocks_tree,
    Conn.with_blocks_faults, Conn.with_inodes_blocks, Conn.with_inodes_inodes,
    Conn.with_inodes_tree, Conn.with_inodes_faults, hf, List.tail_nil, List.map_map, true_and]
  refine ⟨?_, trivial⟩
  apply List.map_congr_left
  intro r _
  simp only [Function.comp, CONCAT, DataExpr.eval, List.map_cons, List.map_nil,
    List.flatten_cons, List.flatten_nil, List.append_nil]
  split <;> simp_all

/-! ## The size of a file written from scratch -/

theorem put_bytes_sum_fresh (rows : List BlockRow) (i s off : Nat) (P : List Byte)
    (hfresh : ∀ r ∈ rows, r.inode = i → r.seq < s) :
    sum_datalength (put_bytes rows i s off P) i =
      sum_datalength rows i + (if P.length = 0 then 0 else off + P.length) ∧
    ∀ r ∈ put_bytes rows i s off P, r.inode = i → r.seq < s + 1 := by
  unfold put_bytes
  by_cases hP : P.length = 0
  · simp only [hP, if_true, Nat.add_zero, true_and]
    intro r hr hi
    have := hfresh r hr hi
    omega
  · have h0 : rows.filter (fun r => r.inode = i ∧ r.seq = s) = [] := by
      rw [List.filter_eq_nil_iff]
      intro r hr
      simp only [decide_eq_true_eq]
      intro h
      have := hfresh r hr h.1
      omega
    simp only [hP, if_false, put_block, h0, if_true]
    constructor
    · simp [sum_datalength, List.filter_append, List.filter_cons, splice_length]
    · intro r hr hi
      rcases List.mem_append.mp hr with h | h
      · have := hfresh r h hi; omega
      · simp only [List.mem_singleton] at h
        subst h
        simp

theorem write_loop_rows_sum_fresh (B i : Nat) (data : List Byte) (hB : 0 < B) :
    ∀ (n seq ptr : Nat) (rows : List BlockRow), (∀ r ∈ rows, r.inode = i → r.seq < seq) →
      ptr + n * B ≤ data.length →
      sum_datalength (write_loop_rows B i data n seq ptr rows) i = sum_datalength rows i + n * B ∧
      ∀ r ∈ write_loop_rows B i data n seq ptr rows, r.inode = i → r.seq < seq + n := by
  intro n
  induction n with
  | zero => intro seq ptr rows h _; exact ⟨by simp [write_loop_rows], h⟩
  | succ n ih =>
    intro seq ptr rows hfresh hlen
    have hmul : (n + 1) * B = n * B + B := by ring
    obtain ⟨p1, p2⟩ := put_bytes_sum_fresh rows i seq 0 ((data.drop ptr).take B) hfresh
    have hP : ((data.drop ptr).take B).length = B := by
      rw [List.length_take, List.length_drop]; omega
    obtain ⟨q1, q2⟩ := ih (seq + 1) (ptr + B) _ p2 (by omega)
    rw [write_loop_rows]
    refine ⟨?_, fun r hr hi => by have := q2 r hr hi; omega⟩
    rw [q1, p1, hP]
    have : ¬ (B = 0) := by omega
    simp only [this, if_false]
    omega

theorem query_write_rows_sum_fresh (B : Nat) (rows : List BlockRow) (i : Nat) (S : List Byte)
    (O : Nat) (hB : 0 < B) (hS : S ≠ []) (hnew : ∀ r ∈ rows, r.inode ≠ i) :
    sum_datalength (query_write_rows B rows i S O) i = O % B + S.length := by
  obtain ⟨a1, a2, a3, a4, a5, a6⟩ := fill_data_blocks_info_lengths B S.length O hB
  have a7 := fill_data_blocks_info_first_pos B S.length O hB
  have a0 : (fill_data_blocks_info B S.length O).seq_first ≤
      (fill_data_blocks_info B S.length O).seq_last := by
    simp [fill_data_blocks_info]
  have ho : (fill_data_blocks_info B S.length O).offset_first = O % B := rfl
  have hlen : S.length ≠ 0 := fun h => hS (List.length_eq_zero.mp h)
  have hsum0 : sum_datalength rows i = 0 := by
    have : rows.filter (fun r => r.inode = i) = [] := by
      rw [List.filter_eq_nil_iff]
      intro r hr
      simpa using hnew r hr
    simp [sum_datalength, this]
  unfold query_write_rows
  simp only []
  generalize fill_data_blocks_info B S.length O = info at *
  have hlf : info.length_first ≠ 0 := by
    rcases Nat.eq_or_lt_of_le a0 with h | h
    · rw [a5 h]; exact hlen
    · exact a7 h
  have hP1 : (S.take info.length_first).length = info.length_first := by
    rw [List.length_take]; omega
  obtain ⟨p1, p2⟩ := put_bytes_sum_fresh rows i info.seq_first info.offset_first
    (S.take info.length_first) (fun r hr hi => absurd hi (hnew r hr))
  rw [hP1, hsum0] at p1
  simp only [hlf, if_false, Nat.zero_add] at p1
  by_cases hseq : info.seq_first = info.seq_last
  · have hcond : ¬ (info.seq_first ≠ info.seq_last) := fun h => h hseq
    rw [if_neg hcond, p1, a5 hseq, ho]
  · rw [if_pos hseq]
    have a6' := a6 hseq
    obtain ⟨q1, q2⟩ := write_loop_rows_sum_fresh B i S hB
      (info.seq_last - (info.seq_first + 1)) (info.seq_first + 1) info.length_first _ p2 (by omega)
    have hsl : info.seq_first + 1 + (info.seq_last - (info.seq_first + 1)) = info.seq_last := by
      omega
    rw [hsl] at q2
    obtain ⟨r1, _⟩ := put_bytes_sum_fresh _ i info.seq_last 0
      ((S.drop (info.length_first + (info.seq_last - (info.seq_first + 1)) * B)).take
        info.length_last) q2
    have hP3 : ((S.drop (info.length_first + (info.seq_last - (info.seq_first + 1)) * B)).take
        info.length_last).length = info.length_last := by
      rw [List.length_take, List.length_drop]; omega
    rw [r1, q1, p1, hP3, ← ho]
    split <;> omega

/-! ## Invariants of the tables after a write or a truncate -/

theorem query_write_rows_inv (B : Nat) (Q : Nat → Prop) (rows : List BlockRow) (i : Nat)
    (S : List Byte) (O : Nat) (hB : 0 < B) (hQ : Q i)
    (hinv : ∀ r ∈ rows, Q r.inode → BlockInv B r) :
    ∀ r ∈ query_write_rows B rows i S O, Q r.inode → BlockInv B r := by
  obtain ⟨a1, a2, a3, a4, a5, a6⟩ := fill_data_blocks_info_lengths B S.length O hB
  unfold query_write_rows
  simp only []
  generalize fill_data_blocks_info B S.length O = info at *
  have h1 : ∀ r ∈ put_bytes rows i info.seq_first info.offset_first (S.take info.length_first),
      Q r.inode → BlockInv B r :=
    put_bytes_inv B Q rows i _ _ _ (by rw [List.length_take]; omega) hQ hinv
  split
  · apply put_bytes_inv B Q _ i _ _ _ (by rw [List.length_take]; omega) hQ
    exact write_loop_rows_inv B i S Q hQ _ _ _ _ h1
  · exact h1

theorem truncate_rows_mem (B N i : Nat) (rows : List BlockRow) (r : BlockRow) :
    r ∈ (rows.filter (fun r => ¬ (r.inode = i ∧ r.seq > N / B))).map (fun r =>
        if r.inode = i ∧ r.seq = N / B then
          { r with data := RPAD r.data (N % B), datalength := (RPAD r.data (N % B)).length }
        else r) ↔
      (r ∈ rows ∧ ¬ (r.inode = i ∧ r.seq ≥ N / B)) ∨
      (r.inode = i ∧ r.seq = N / B ∧ r.datalength = N % B ∧
        ∃ a ∈ rows, a.inode = i ∧ a.seq = N / B ∧ r.data = RPAD a.data (N % B)) := by
  simp only [List.mem_map, List.mem_filter, decide_eq_true_eq]
  constructor
  · rintro ⟨a, ⟨ha, hkeep⟩, hr⟩
    by_cases hk : a.inode = i ∧ a.seq = N / B
    · rw [if_pos hk] at hr
      subst hr
      exact Or.inr ⟨hk.1, hk.2, RPAD_length _ _, a, ha, hk.1, hk.2, rfl⟩
    · rw [if_neg hk] at hr
      subst hr
      refine Or.inl ⟨ha, ?_⟩
      rintro ⟨h1, h2⟩
      rcases Nat.eq_or_lt_of_le h2 with h | h
      · exact hk ⟨h1, h.symm⟩
      · exact hkeep ⟨h1, h⟩
  · rintro (⟨hr, hk⟩ | ⟨h1, h2, h3, a, ha, ha1, ha2, hd⟩)
    · refine ⟨r, ⟨hr, fun h => hk ⟨h.1, by omega⟩⟩, ?_⟩
      rw [if_neg (fun h => hk ⟨h.1, by omega⟩)]
    · refine ⟨a, ⟨ha, fun h => by omega⟩, ?_⟩
      rw [if_pos ⟨ha1, ha2⟩]
      cases r
      simp only [BlockRow.mk.injEq] at *
      exact ⟨ha1.trans h1.symm, ha2.trans h2.symm, hd.symm, (RPAD_length _ _).trans h3.symm⟩

theorem truncate_rows_pk (B N i : Nat) (rows : List BlockRow) (hpk : PrimaryKey rows) :
    PrimaryKey ((rows.filter (fun r => ¬ (r.inode = i ∧ r.seq > N / B))).map (fun r =>
        if r.inode = i ∧ r.seq = N / B then
          { r with data := RPAD r.data (N % B), datalength := (RPAD r.data (N % B)).length }
        else r)) := by
  unfold PrimaryKey
  rw [List.pairwise_map]
  apply List.Pairwise.imp _ (List.Pairwise.filter _ hpk)
  have hg : ∀ r : BlockRow,
      (if r.inode = i ∧ r.seq = N / B then
        { r with data := RPAD r.data (N % B), datalength := (RPAD r.data (N % B)).length }
      else r).inode = r.inode ∧
      (if r.inode = i ∧ r.seq = N / B then
        { r with data := RPAD r.data (N % B), datalength := (RPAD r.data (N % B)).length }
      else r).seq = r.seq := by
    intro r
    split <;> exact ⟨rfl, rfl⟩
  intro a b hab
  rw [(hg a).1, (hg a).2, (hg b).1, (hg b).2]
  exact hab

/-! ## The text of the lookup statement -/

theorem bytes_slash_a : bytes "/a" = [47, 97] := by decide

theorem flatten_replicate_succ (n : Nat) :
    (List.replicate (n + 1) ([47, 97] : List Byte)).flatten
      = 47 :: 97 :: (List.replicate n [47, 97]).flatten := by
  simp [List.replicate_succ]

theorem strtok_go_replicate (n : Nat) (cur : List Byte) (hc : cur ≠ []) :
    strtok_go ((List.replicate n [47, 97]).flatten) cur = cur :: List.replicate n [97] := by
  induction n generalizing cur with
  | zero => simp [strtok_go, hc]
  | succ n ih =>
    have h97 : ¬ ((97 : Byte) = 47) := by decide
    have h := ih [97] (by simp)
    rw [flatten_replicate_succ]
    simp only [List.replicate_succ, List.nil_append, strtok_go, hc, if_false, if_true, h97, h]

theorem strtok_r_replicate (n : Nat) :
    strtok_r ((List.replicate (n + 1) (bytes "/a")).flatten) = List.replicate (n + 1) [97] := by
  unfold strtok_r
  have h97 : ¬ ((97 : Byte) = 47) := by decide
  have h := strtok_go_replicate n [97] (by simp)
  rw [bytes_slash_a, flatten_replicate_succ]
  simp only [List.replicate_succ, List.nil_append, strtok_go, if_true, h97, if_false, h]

/-- The loop in closed form: one `JOIN` and one name condition per token,
numbered from `depth + 1`. -/
theorem query_inode_full_loop_eq (names : List (List Byte)) (depth : Nat)
    (sql_from sql_where : List Byte) :
    query_inode_full_loop names depth sql_from sql_where =
      (depth + names.length,
       sql_from ++ ((List.range names.length).map (fun k => join_clause (depth + 1 + k))).flatten,
       sql_where ++ ((names.enumFrom (depth + 1)).map
         (fun kn => name_condition kn.1 (mysql_real_escape_string kn.2))).flatten) := by
  induction names generalizing depth sql_from sql_where with
  | nil => simp [query_inode_full_loop]
  | cons nm rest ih =>
    rw [query_inode_full_loop, ih]
    simp only [List.length_cons, List.range_succ_eq_map, List.map_cons, List.map_map,
      List.flatten_cons, List.append_assoc, List.enumFrom_cons, Nat.add_zero]
    refine Prod.ext (by simp; omega) (Prod.ext ?_ rfl)
    simp only [List.append_cancel_left_eq]
    congr 1
    apply List.map_congr_left
    intro k _
    simp only [Function.comp]
    congr 1
    omega

set_option maxRecDepth 100000 in
theorem query_inode_full_format_length_159 :
    (query_inode_full_format ((List.replicate 159 (bytes "/a")).flatten) true).length = 10242 := by
  unfold query_inode_full_format
  rw [strtok_r_replicate 158, query_inode_full_loop_eq]
  simp only [if_true, List.length_append, List.length_flatten, List.map_map]
  decide

set_option maxRecDepth 100000 in
theorem query_inode_full_format_length_158 :
    (query_inode_full_format ((List.replicate 158 (bytes "/a")).flatten) true).length = 10176 := by
  unfold query_inode_full_format
  rw [strtok_r_replicate 157, query_inode_full_loop_eq]
  simp only [if_true, List.length_append, List.length_flatten, List.map_map]
  decide

theorem query_inode_full_format_last_159 :
    ∃ ys, query_inode_full_format ((List.replicate 159 (bytes "/a")).flatten) true
      = ys ++ bytes "'a'" := by
  unfold query_inode_full_format
  rw [strtok_r_replicate 158, query_inode_full_loop_eq]
  have hr : List.replicate (158 + 1) ([97] : List Byte) = List.replicate 158 [97] ++ [[97]] := by
    rw [List.replicate_succ']
  have hb : bytes "'a'" = [39, 97, 39] := by decide
  have hq : bytes "'" = [39] := by decide
  have hn : name_condition 159 [97] = (bytes " AND t" ++ decimal 159 ++ bytes ".name = ") ++ bytes "'a'" := by
    decide
  have he : mysql_real_escape_string [97] = [97] := by decide
  simp only [if_true, hr, List.enumFrom_append, List.map_append, List.flatten_append,
    List.enumFrom_cons, List.enumFrom_nil, List.map_cons, List.map_nil, List.flatten_cons,
    List.flatten_nil, List.append_nil, List.length_replicate, he]
  rw [show 0 + 1 + 158 = 159 from rfl, hn]
  simp only [← List.append_assoc]
  exact ⟨_, rfl⟩

theorem take_append_of_length {α : Type} (xs ys zs : List α) (n : Nat) (h : xs = ys ++ zs)
    (hn : ys.length = n) : xs.take n ++ zs = xs := by
  subst h
  subst hn
  simp

/-! ## Names inside statements -/

theorem sql_string_go_escape (b : Byte) (rest : List Byte) :
    sql_string_go false (escape_byte b ++ rest) =
      (sql_string_go false rest).map (fun v => b :: v) := by
  unfold escape_byte
  by_cases h0 : b = 0
  · subst h0; simp [sql_string_go, unescape_byte]
  by_cases h1 : b = 10
  · subst h1; simp [sql_string_go, unescape_byte]
  by_cases h2 : b = 13
  · subst h2; simp [sql_string_go, unescape_byte]
  by_cases h3 : b = 92
  · subst h3; simp [sql_string_go, unescape_byte]
  by_cases h4 : b = 39
  · subst h4; simp [sql_string_go, unescape_byte]
  by_cases h5 : b = 34
  · subst h5; simp [sql_string_go, unescape_byte]
  by_cases h6 : b = 26
  · subst h6; simp [sql_string_go, unescape_byte]
  simp [sql_string_go, h0, h1, h2, h3, h4, h5, h6]

/-- The server reads an escaped name back as the name. -/
theorem sql_string_value_escape (name : List Byte) :
    sql_string_value (mysql_real_escape_string name) = some name := by
  unfold sql_string_value mysql_real_escape_string
  induction name with
  | nil => rfl
  | cons b rest ih =>
    rw [List.map_cons, List.flatten_cons, sql_string_go_escape, ih]
    rfl

/-! ## Statements on the tree and on inode rows -/

@[simp] theorem Conn.with_tree_tree (c : Conn) (rows : List TreeRow) :
    (c.with_tree rows).db.tree = rows := rfl
@[simp] theorem Conn.with_tree_inodes (c : Conn) (rows : List TreeRow) :
    (c.with_tree rows).db.inodes = c.db.inodes := rfl
@[simp] theorem Conn.with_tree_blocks (c : Conn) (rows : List TreeRow) :
    (c.with_tree rows).db.data_blocks = c.db.data_blocks := rfl
@[simp] theorem Conn.with_tree_faults (c : Conn) (rows : List TreeRow) :
    (c.with_tree rows).faults = c.faults := rfl

/-- A statement either fails and changes nothing, or has its effect. -/
theorem mysql_query_cases (c : Conn) (s : Stmt) :
    mysql_query c s = (1, c.sent s) ∨
      ∃ c2, exec (c.sent s) s = some c2 ∧ mysql_query c s = (0, c2) := by
  unfold mysql_query
  split
  · exact Or.inl rfl
  · split
    · rename_i c2 h
      exact Or.inr ⟨c2, h, rfl⟩
    · exact Or.inl rfl

theorem mysql_query_select_count_children {c : Conn} (hf : c.faults = []) (name : List Byte)
    (parent : Int) :
    mysql_query c (.select_count_children (mysql_real_escape_string name) parent) =
      (0, c.sent (.select_count_children (mysql_real_escape_string name) parent)) := by
  apply mysql_query_of_exec hf
  simp only [exec, sql_string_value_escape]

theorem mysql_query_delete_tree {c : Conn} (hf : c.faults = []) (name : List Byte)
    (parent : Int) :
    mysql_query c (.delete_tree (mysql_real_escape_string name) parent) =
      (0, (c.sent (.delete_tree (mysql_real_escape_string name) parent)).with_tree
        (c.db.tree.filter (fun t => ¬ (t.name = name ∧ t.parent_eq parent)))) := by
  apply mysql_query_of_exec hf
  simp only [exec, sql_string_value_escape, Conn.sent_db]

theorem mysql_query_update_deleted {c : Conn} (hf : c.faults = []) (i : Int) :
    mysql_query c (.update_deleted i) =
      (0, (c.sent (.update_deleted i)).with_inodes (c.db.inodes.map (fun r =>
        if (r.inode : Int) = i ∧ c.db.tree.filter (fun t => t.inode = r.inode) = [] then
          { r with deleted := true }
        else r))) :=
  mysql_query_of_exec hf rfl

theorem mysql_query_update_inuse {c : Conn} (hf : c.faults = []) (n i : Int) :
    mysql_query c (.update_inuse n i) =
      (0, (c.sent (.update_inuse n i)).with_inodes (c.db.inodes.map (fun r =>
        if (r.inode : Int) = i then { r with inuse := r.inuse + n } else r))) :=
  mysql_query_of_exec hf rfl

theorem mysql_query_delete_purged {c : Conn} (hf : c.faults = []) (i : Int) :
    (mysql_query c (.delete_purged i)).1 = 0 ∧
    (mysql_query c (.delete_purged i)).2.faults = [] ∧
    (mysql_query c (.delete_purged i)).2.db.tree = c.db.tree ∧
    (mysql_query c (.delete_purged i)).2.db.inodes =
      c.db.inodes.filter (fun r => ¬ ((r.inode : Int) = i ∧ r.inuse = 0 ∧ r.deleted = true)) := by
  have h : mysql_query c (.delete_purged i) = (0, _) := mysql_query_of_exec hf rfl
  rw [h]
  simp [hf]

/-! ## The lookup -/

theorem join_path_mem (tree : List TreeRow) (names : List (List Byte)) (cur : List TreeRow)
    (hcur : ∀ x ∈ cur, x ∈ tree) : ∀ x ∈ join_path tree names cur, x ∈ tree := by
  induction names generalizing cur with
  | nil => simpa [join_path] using hcur
  | cons n rest ih =>
    rw [join_path]
    apply ih
    intro x hx
    rw [List.mem_flatMap] at hx
    obtain ⟨_, _, hx⟩ := hx
    exact (List.mem_filter.mp hx).1

theorem select_path_rows_mem (t : Tables) (names : List (List Byte)) :
    ∀ x ∈ select_path_rows t names, x ∈ t.tree := by
  unfold select_path_rows
  apply join_path_mem
  intro x hx
  exact (List.mem_filter.mp hx).1

/-- What a lookup that found an entry returns: the one row of the result, and
the session after the statement. -/
theorem query_inode_full_some (c : Conn) (path : List Byte) (nlinks : Bool) (e : inode_full)
    (h : (query_inode_full c path nlinks).2.1 = some e) :
    ∃ row, row ∈ c.db.tree ∧ select_path_rows c.db (strtok_r path) = [row] ∧
      e.name = row.name ∧ e.inode = (row.inode : Int) ∧
      e.parent = (match row.parent with
        | some p => (p : Int)
        | none => -1) ∧
      e.nlinks = (if nlinks then
          ((c.db.tree.filter (fun t => t.inode = row.inode)).length : Int) else 1) ∧
      query_inode_full c path nlinks = (0, some e, c.sent (query_inode_full_stmt path nlinks)) := by
  have hc := mysql_query_lookup_snd c path nlinks
  unfold query_inode_full at h ⊢
  generalize mysql_query c (query_inode_full_stmt path nlinks) = q at hc h ⊢
  obtain ⟨r, c1⟩ := q
  simp only [] at hc h ⊢
  subst hc
  by_cases hr : r ≠ 0
  · simp [hr] at h
  · simp only [hr, if_false, Conn.sent_db] at h ⊢
    split at h
    · rename_i row hrows
      simp only [Option.some.injEq] at h
      refine ⟨row, ?_, hrows, ?_⟩
      · exact select_path_rows_mem _ _ row (by rw [hrows]; simp)
      · subst h
        simp only [hrows, and_self, true_and]
    · simp at h

/-! ## Removing an entry -/

theorem count_children_ne_zero (t : Tables) (row child : TreeRow) (name : List Byte)
    (parent : Int) (hrow : row ∈ t.tree) (hn : row.name = name)
    (hp : row.parent_eq parent = true) (hchild : child ∈ t.tree)
    (hcp : child.parent = some row.inode) : count_children t name parent ≠ 0 := by
  unfold count_children
  intro h
  have hnil := List.length_eq_zero.mp h
  have hmem : child ∈ (t.tree.filter (fun t1 => t1.name = name ∧ t1.parent_eq parent)).flatMap
      (fun t1 => t.tree.filter (fun t0 => t0.parent = some t1.inode)) := by
    rw [List.mem_flatMap]
    refine ⟨row, ?_, ?_⟩
    · exact List.mem_filter.mpr ⟨hrow, by simp [hn, hp]⟩
    · exact List.mem_filter.mpr ⟨hchild, by simp [hcp]⟩
  rw [hnil] at hmem
  simp at hmem

theorem query_rmdirentry_not_empty {c : Conn} (hf : c.faults = []) (name : List Byte)
    (parent : Int) (h : count_children c.db name parent ≠ 0) :
    query_rmdirentry c name parent =
      (- ENOTEMPTY, c.sent (.select_count_children (mysql_real_escape_string name) parent)) := by
  unfold query_rmdirentry
  simp only [mysql_query_select_count_children hf, ne_eq, not_true_eq_false, if_false, select_count_children_row,
    sql_string_value_escape, Conn.sent_db, h, not_false_eq_true, if_true]

theorem pool_get_room {p : Pool} (h : p.borrowed < p.ceiling) :
    pool_get p = some (p.conn, { p with borrowed := p.borrowed + 1 }) := by
  simp [pool_get, h]


theorem query_rmdirentry_empty {c : Conn} (hf : c.faults = []) (name : List Byte)
    (parent : Int) (h : count_children c.db name parent = 0) :
    (query_rmdirentry c name parent).1 = 0 ∧
    (query_rmdirentry c name parent).2.faults = [] ∧
    (query_rmdirentry c name parent).2.db.inodes = c.db.inodes ∧
    (query_rmdirentry c name parent).2.db.tree =
      c.db.tree.filter (fun t => ¬ (t.name = name ∧ t.parent_eq parent)) := by
  unfold query_rmdirentry
  simp only [mysql_query_select_count_children hf, ne_eq, not_true_eq_false, if_false,
    select_count_children_row, sql_string_value_escape, Conn.sent_db, h]
  rw [mysql_query_delete_tree (by simp [hf])]
  simp [hf]

theorem query_set_deleted_eq {c : Conn} (hf : c.faults = []) (i : Int) :
    (query_set_deleted c i).1 = 0 ∧
    (query_set_deleted c i).2.faults = [] ∧
    (query_set_deleted c i).2.db.tree = c.db.tree ∧
    (query_set_deleted c i).2.db.inodes = c.db.inodes.map (fun r =>
      if (r.inode : Int) = i ∧ c.db.tree.filter (fun t => t.inode = r.inode) = [] then
        { r with deleted := true }
      else r) := by
  unfold query_set_deleted
  rw [mysql_query_update_deleted hf]
  simp [hf]

theorem query_purge_deleted_eq {c : Conn} (hf : c.faults = []) (i : Int) :
    (query_purge_deleted c i).1 = 0 ∧
    (query_purge_deleted c i).2.faults = [] ∧
    (query_purge_deleted c i).2.db.tree = c.db.tree ∧
    (query_purge_deleted c i).2.db.inodes =
      c.db.inodes.filter (fun r => ¬ ((r.inode : Int) = i ∧ r.inuse = 0 ∧ r.deleted = true)) := by
  obtain ⟨h1, h2, h3, h4⟩ := mysql_query_delete_purged hf i
  unfold query_purge_deleted
  generalize mysql_query c (.delete_purged i) = q at h1 h2 h3 h4
  obtain ⟨r, c2⟩ := q
  simp only [] at h1 h2 h3 h4 ⊢
  subst h1
  simp [h2, h3, h4]

theorem query_inuse_inc_eq {c : Conn} (hf : c.faults = []) (i n : Int) :
    (query_inuse_inc c i n).1 = 0 ∧
    (query_inuse_inc c i n).2.faults = [] ∧
    (query_inuse_inc c i n).2.db.tree = c.db.tree ∧
    (query_inuse_inc c i n).2.db.inodes = c.db.inodes.map (fun r =>
      if (r.inode : Int) = i then { r with inuse := r.inuse + n } else r) := by
  unfold query_inuse_inc
  rw [mysql_query_update_inuse hf]
  simp [hf]

/-- Source function `mysqlfs_release` on a session at hand and without faults: the use count goes
down by one, then the purge. -/
theorem mysqlfs_release_eq (p : Pool) (fh : Int) (hroom : p.borrowed < p.ceiling)
    (hf : p.conn.faults = []) :
    (mysqlfs_release p fh).1 = 0 ∧
    (mysqlfs_release p fh).2.conn.db.inodes =
      (p.conn.db.inodes.map (fun r =>
        if (r.inode : Int) = fh then { r with inuse := r.inuse + -1 } else r)).filter
        (fun r => ¬ ((r.inode : Int) = fh ∧ r.inuse = 0 ∧ r.deleted = true)) := by
  obtain ⟨a1, a2, -, a4⟩ := query_inuse_inc_eq hf fh (-1)
  unfold mysqlfs_release
  rw [pool_get_room hroom]
  simp only []
  generalize query_inuse_inc p.conn fh (-1) = q at a1 a2 a4
  obtain ⟨r, c1⟩ := q
  simp only [] at a1 a2 a4 ⊢
  subst a1
  obtain ⟨b1, -, -, b4⟩ := query_purge_deleted_eq a2 fh
  generalize query_purge_deleted c1 fh = q at b1 b4
  obtain ⟨r2, c2⟩ := q
  simp only [] at b1 b4 ⊢
  subst b1
  simp [pool_put, b4, a4]

/-- Source function `mysqlfs_unlink` on a session at hand and without faults, for the last entry
of an inode with nothing below it: the entry goes, the inode rows of the
inode are flagged and then purged. -/
theorem mysqlfs_unlink_last_entry (p : Pool) (path : List Byte) (e : inode_full)
    (hroom : p.borrowed < p.ceiling) (hf : p.conn.faults = [])
    (hres : (query_inode_full p.conn path true).2.1 = some e)
    (hpar : 0 ≤ e.parent) (hlast : e.nlinks = 1)
    (hempty : count_children p.conn.db e.name e.parent = 0) :
    (mysqlfs_unlink p path).1 = 0 ∧
    (mysqlfs_unlink p path).2.borrowed = p.borrowed ∧
    (mysqlfs_unlink p path).2.ceiling = p.ceiling ∧
    (mysqlfs_unlink p path).2.conn.faults = [] ∧
    (mysqlfs_unlink p path).2.conn.db.tree =
      p.conn.db.tree.filter (fun t => ¬ (t.name = e.name ∧ t.parent_eq e.parent)) ∧
    (mysqlfs_unlink p path).2.conn.db.inodes =
      (p.conn.db.inodes.map (fun r =>
        if (r.inode : Int) = e.inode then { r with deleted := true } else r)).filter
        (fun r => ¬ ((r.inode : Int) = e.inode ∧ r.inuse = 0 ∧ r.deleted = true)) := by
  obtain ⟨row, hrow, -, hname, hinode, hparent, hnl, hq⟩ := query_inode_full_some _ _ _ _ hres
  have hrp : row.parent_eq e.parent = true := by
    unfold TreeRow.parent_eq
    cases hp : row.parent with
    | none => rw [hp] at hparent; simp only [] at hparent; omega
    | some q => rw [hp] at hparent; simp only [] at hparent; simp [hparent]
  -- the entry is the only tree row of its inode
  have hone : ∀ t ∈ p.conn.db.tree, t.inode = row.inode → t = row := by
    intro t ht hti
    rw [hlast] at hnl
    simp only [if_true] at hnl
    have hlen : (p.conn.db.tree.filter (fun t => t.inode = row.inode)).length = 1 := by
      exact_mod_cast hnl.symm
    obtain ⟨x, hx⟩ := List.length_eq_one.mp hlen
    have h1 : t ∈ p.conn.db.tree.filter (fun t => t.inode = row.inode) :=
      List.mem_filter.mpr ⟨ht, by simp [hti]⟩
    have h2 : row ∈ p.conn.db.tree.filter (fun t => t.inode = row.inode) :=
      List.mem_filter.mpr ⟨hrow, by simp⟩
    rw [hx] at h1 h2
    simp only [List.mem_singleton] at h1 h2
    rw [h1, h2]
  have hgone : ∀ r : InodeRow, (r.inode : Int) = e.inode →
      (p.conn.db.tree.filter (fun t => ¬ (t.name = e.name ∧ t.parent_eq e.parent))).filter
        (fun t => t.inode = r.inode) = [] := by
    intro r hr
    rw [List.filter_eq_nil_iff]
    intro t ht
    have ht' := List.mem_filter.mp ht
    simp only [decide_eq_true_eq]
    intro hti
    have hri : r.inode = row.inode := by
      rw [hinode] at hr
      exact_mod_cast hr
    have := hone t ht'.1 (by rw [hti, hri])
    subst this
    have h3 := ht'.2
    simp [hname, hrp] at h3
  have c1f : (p.conn.sent (query_inode_full_stmt path true)).faults = [] := by simp [hf]
  obtain ⟨a1, a2, a3, a4⟩ := query_rmdirentry_empty c1f e.name e.parent (by simpa using hempty)
  unfold mysqlfs_unlink
  rw [pool_get_room hroom]
  simp only [hq, lt_self_iff_false, if_false]
  generalize query_rmdirentry (p.conn.sent (query_inode_full_stmt path true)) e.name e.parent = q
    at a1 a2 a3 a4
  obtain ⟨r1, c2⟩ := q
  simp only [Conn.sent_db] at a1 a2 a3 a4 ⊢
  subst a1
  simp only [lt_self_iff_false, if_false, hlast, gt_iff_lt]
  obtain ⟨b1, b2, b3, b4⟩ := query_set_deleted_eq a2 e.inode
  generalize query_set_deleted c2 e.inode = q at b1 b2 b3 b4
  obtain ⟨r2, c3⟩ := q
  simp only [] at b1 b2 b3 b4 ⊢
  subst b1
  obtain ⟨d1, d2, d3, d4⟩ := query_purge_deleted_eq b2 e.inode
  generalize query_purge_deleted c3 e.inode = q at d1 d2 d3 d4
  obtain ⟨r3, c4⟩ := q
  simp only [] at d1 d2 d3 d4 ⊢
  subst d1
  simp only [lt_self_iff_false, if_false, pool_put, Nat.add_sub_cancel, true_and, d2, d3, b3, a4,
    d4, b4, a3]
  congr 1
  apply List.map_congr_left
  intro r _
  by_cases hr : (r.inode : Int) = e.inode
  · rw [if_pos ⟨hr, hgone r hr⟩, if_pos hr]
  · rw [if_neg (fun h => hr h.1), if_neg hr]

/-! ## What the callbacks do to the inode rows, faults or not -/

theorem query_inuse_inc_inodes (c : Conn) (i n : Int) :
    (query_inuse_inc c i n).2.db.inodes = c.db.inodes ∨
    (query_inuse_inc c i n).2.db.inodes = c.db.inodes.map (fun r =>
      if (r.inode : Int) = i then { r with inuse := r.inuse + n } else r) := by
  unfold query_inuse_inc
  rcases mysql_query_cases c (.update_inuse n i) with h | ⟨c2, hex, h⟩
  · rw [h]; exact Or.inl rfl
  · rw [h]
    simp only [exec, Option.some.injEq] at hex
    subst hex
    exact Or.inr rfl

theorem query_purge_deleted_inodes (c : Conn) (i : Int) :
    (query_purge_deleted c i).2.db.inodes = c.db.inodes ∨
    (query_purge_deleted c i).2.db.inodes = c.db.inodes.filter
      (fun r => ¬ ((r.inode : Int) = i ∧ r.inuse = 0 ∧ r.deleted = true)) := by
  unfold query_purge_deleted
  rcases mysql_query_cases c (.delete_purged i) with h | ⟨c2, hex, h⟩
  · rw [h]; exact Or.inl rfl
  · rw [h]
    simp only [exec, Option.some.injEq] at hex
    subst hex
    exact Or.inr rfl

theorem query_set_deleted_inodes (c : Conn) (i : Int) :
    ∃ P : InodeRow → Bool, (query_set_deleted c i).2.db.inodes = c.db.inodes.map (fun r =>
      if P r = true then { r with deleted := true } else r) := by
  unfold query_set_deleted
  rcases mysql_query_cases c (.update_deleted i) with h | ⟨c2, hex, h⟩
  · rw [h]
    exact ⟨fun _ => false, by simp⟩
  · rw [h]
    simp only [exec, Option.some.injEq] at hex
    subst hex
    refine ⟨fun r => decide ((r.inode : Int) = i ∧
      c.db.tree.filter (fun t => t.inode = r.inode) = []), ?_⟩
    simp

theorem query_rmdirentry_inodes (c : Conn) (name : List Byte) (parent : Int) :
    (query_rmdirentry c name parent).2.db.inodes = c.db.inodes := by
  unfold query_rmdirentry
  simp only []
  rcases mysql_query_cases c (.select_count_children (mysql_real_escape_string name) parent)
    with h | ⟨c2, hex, h⟩
  · rw [h]; rfl
  · rw [h]
    simp only [exec, sql_string_value_escape, Option.some.injEq] at hex
    subst hex
    simp only [ne_eq, not_true_eq_false, if_false]
    split
    · rfl
    · rcases mysql_query_cases (c.sent (.select_count_children (mysql_real_escape_string name)
        parent)) (.delete_tree (mysql_real_escape_string name) parent) with h2 | ⟨c3, hex2, h2⟩
      · rw [h2]; rfl
      · rw [h2]
        simp only [exec, sql_string_value_escape, Option.some.injEq] at hex2
        subst hex2
        rfl

theorem pool_get_none {p : Pool} (h : ¬ p.borrowed < p.ceiling) : pool_get p = none := by
  simp [pool_get, h]

/-- The inode rows that `mysqlfs_release` takes away are rows of the handle's
inode with `inuse = 0` and `deleted = 1` in the table `X` that the purge
works on; `X` is the table before, with the use count lowered if that
statement went through.  No fault schedule is assumed. -/
theorem mysqlfs_release_purges (p : Pool) (fh : Int) :
    ∃ X, (X = p.conn.db.inodes ∨ X = p.conn.db.inodes.map (fun r =>
        if (r.inode : Int) = fh then { r with inuse := r.inuse + -1 } else r)) ∧
      ((mysqlfs_release p fh).2.conn.db.inodes = X ∨
       (mysqlfs_release p fh).2.conn.db.inodes = X.filter
        (fun r => ¬ ((r.inode : Int) = fh ∧ r.inuse = 0 ∧ r.deleted = true))) := by
  unfold mysqlfs_release
  by_cases hroom : p.borrowed < p.ceiling
  · rw [pool_get_room hroom]
    simp only []
    have h1 := query_inuse_inc_inodes p.conn fh (-1)
    generalize query_inuse_inc p.conn fh (-1) = q at h1
    obtain ⟨r1, c1⟩ := q
    simp only [] at h1 ⊢
    refine ⟨c1.db.inodes, h1, ?_⟩
    split
    · exact Or.inl rfl
    · have h2 := query_purge_deleted_inodes c1 fh
      generalize query_purge_deleted c1 fh = q at h2
      obtain ⟨r2, c2⟩ := q
      simp only [] at h2 ⊢
      split <;> exact h2
  · rw [pool_get_none hroom]
    exact ⟨_, Or.inl rfl, Or.inl rfl⟩

/-- The inode rows that `mysqlfs_unlink` takes away are rows of one inode `i`
with `inuse = 0` and `deleted = 1` in the table `X` that the purge works on;
`X` is the table before with `deleted` set in some rows.  No fault schedule
is assumed. -/
theorem mysqlfs_unlink_purges (p : Pool) (path : List Byte) :
    ∃ (X : List InodeRow) (i : Int) (P : InodeRow → Bool),
      X = p.conn.db.inodes.map (fun r => if P r = true then { r with deleted := true } else r) ∧
      ((mysqlfs_unlink p path).2.conn.db.inodes = X ∨
       (mysqlfs_unlink p path).2.conn.db.inodes = X.filter
        (fun r => ¬ ((r.inode : Int) = i ∧ r.inuse = 0 ∧ r.deleted = true))) := by
  have hid : p.conn.db.inodes = p.conn.db.inodes.map (fun r =>
      if (fun _ => false : InodeRow → Bool) r = true then { r with deleted := true } else r) := by
    simp
  unfold mysqlfs_unlink
  by_cases hroom : p.borrowed < p.ceiling
  · rw [pool_get_room hroom]
    simp only []
    have h0 := query_inode_full_conn p.conn path true
    generalize query_inode_full p.conn path true = q at h0
    obtain ⟨r0, o, c0⟩ := q
    simp only [] at h0
    subst h0
    cases o with
    | none => exact ⟨_, 0, _, hid, Or.inl rfl⟩
    | some e =>
      simp only []
      split
      · exact ⟨_, 0, _, hid, Or.inl rfl⟩
      · have h1 := query_rmdirentry_inodes (p.conn.sent (query_inode_full_stmt path true))
          e.name e.parent
        generalize query_rmdirentry (p.conn.sent (query_inode_full_stmt path true))
          e.name e.parent = q at h1
        obtain ⟨r1, c1⟩ := q
        simp only [Conn.sent_db] at h1 ⊢
        split
        · exact ⟨_, 0, _, hid, Or.inl h1⟩
        · split
          · exact ⟨_, 0, _, hid, Or.inl h1⟩
          · obtain ⟨P, h2⟩ := query_set_deleted_inodes c1 e.inode
            generalize query_set_deleted c1 e.inode = q at h2
            obtain ⟨r2, c2⟩ := q
            simp only [] at h2 ⊢
            rw [h1] at h2
            split
            · exact ⟨_, 0, P, rfl, Or.inl h2⟩
            · have h3 := query_purge_deleted_inodes c2 e.inode
              generalize query_purge_deleted c2 e.inode = q at h3
              obtain ⟨r3, c3⟩ := q
              simp only [] at h3 ⊢
              rw [h2] at h3
              refine ⟨_, e.inode, P, rfl, ?_⟩
              split <;> exact h3
  · rw [pool_get_none hroom]
    exact ⟨_, 0, _, hid, Or.inl rfl⟩

/-! ## Bounds of a read -/

theorem query_read_block_bound (B : Nat) (info : data_blocks_info) (seq : Nat)
    (hit : Option BlockRow) (out : List Byte) (length : Nat) (out1 : List Byte) (length1 : Nat)
    (h : query_read_block B info seq hit out length = some (out1, length1)) :
    length ≤ length1 ∧ length1 ≤ length + copy_bound B info seq ∧
      out1.length + length ≤ out.length + length1 := by
  unfold query_read_block at h
  simp only [] at h
  split at h
  · exact absurd h (by simp)
  · simp only [Option.some.injEq, Prod.mk.injEq] at h
    obtain ⟨h1, h2⟩ := h
    subst h1; subst h2
    simp only [copy_bound, List.length_append, List.length_take]
    refine ⟨by omega, ?_, by omega⟩
    split_ifs <;> omega

theorem copy_bound_from_succ (B : Nat) (info : data_blocks_info) (seq : Nat)
    (hf : info.seq_first ≤ seq) (hl : seq < info.seq_last) :
    copy_bound_from B info seq = copy_bound B info seq + copy_bound_from B info (seq + 1) := by
  have hne : seq + 1 ≠ info.seq_first := by omega
  obtain ⟨k, hk⟩ : ∃ k, info.seq_last = seq + 1 + k := ⟨info.seq_last - (seq + 1), by omega⟩
  unfold copy_bound_from
  rw [if_pos hl]
  congr 1
  rcases Nat.eq_zero_or_pos k with h0 | h0
  · subst h0
    have h1 : seq + 1 = info.seq_last := by omega
    have h2 : ¬ (seq + 1 < info.seq_last) := by omega
    rw [if_neg h2, copy_bound, if_neg hne, if_pos h1, ← h1, Nat.sub_self, Nat.zero_mul]
    omega
  · have h1 : ¬ (seq + 1 = info.seq_last) := by omega
    have h2 : seq + 1 < info.seq_last := by omega
    rw [if_pos h2, copy_bound, if_neg hne, if_neg h1]
    have e1 : info.seq_last - (seq + 1) = (info.seq_last - (seq + 1 + 1)) + 1 := by omega
    rw [e1, Nat.add_mul, Nat.one_mul]
    omega

theorem query_read_loop_bound (B : Nat) (info : data_blocks_info) :
    ∀ (n seq : Nat) (rows : List BlockRow) (out : List Byte) (length : Nat),
      info.seq_first ≤ seq → seq + n = info.seq_last + 1 →
      length ≤ (query_read_loop B info n seq rows out length).2 ∧
      (query_read_loop B info n seq rows out length).2 ≤
        length + (if n = 0 then 0 else copy_bound_from B info seq) ∧
      (query_read_loop B info n seq rows out length).1.length + length ≤
        out.length + (query_read_loop B info n seq rows out length).2 := by
  intro n
  induction n with
  | zero =>
    intro seq rows out length _ _
    simp [query_read_loop]
  | succ n ih =>
    intro seq rows out length hf hn
    rw [query_read_loop]
    cases hq : query_read_block B info seq (cursor_hit rows seq) out length with
    | none =>
      simp only [Nat.add_one_ne_zero, if_false]
      omega
    | some q =>
      obtain ⟨out1, length1⟩ := q
      obtain ⟨b1, b2, b3⟩ := query_read_block_bound B info seq _ out length out1 length1 hq
      simp only [Nat.add_one_ne_zero, if_false]
      obtain ⟨i1, i2, i3⟩ := ih (seq + 1)
        (if (cursor_hit rows seq).isSome then rows.tail else rows) out1 length1 (by omega)
        (by omega)
      by_cases hn0 : n = 0
      · subst hn0
        have hl : ¬ (seq < info.seq_last) := by omega
        simp only [if_true, Nat.add_zero] at i2
        simp only [copy_bound_from, hl, if_false, Nat.add_zero]
        omega
      · have hl : seq < info.seq_last := by omega
        simp only [hn0, if_false] at i2
        rw [copy_bound_from_succ B info seq hf hl]
        omega

theorem copy_bound_from_first (B size offset : Nat) (hB : 0 < B) :
    copy_bound_from B (fill_data_blocks_info B size offset)
      (fill_data_blocks_info B size offset).seq_first = size := by
  obtain ⟨_, _, _, _, h5, h6⟩ := fill_data_blocks_info_lengths B size offset hB
  have hle : (fill_data_blocks_info B size offset).seq_first ≤
      (fill_data_blocks_info B size offset).seq_last := by
    simp only [fill_data_blocks_info]; exact Nat.le_add_right _ _
  generalize fill_data_blocks_info B size offset = info at *
  unfold copy_bound_from copy_bound
  by_cases he : info.seq_first = info.seq_last
  · have := h5 he
    have hl : ¬ (info.seq_first < info.seq_last) := by omega
    simp only [if_true, hl, if_false]
    omega
  · have := h6 he
    have hl : info.seq_first < info.seq_last := by omega
    simp only [if_true, hl]
    omega

theorem query_read_bound (B : Nat) (c : Conn) (inode size offset : Nat) (hB : 0 < B) :
    (query_read B c inode size offset).2.1.length ≤ size ∧
    ((query_read B c inode size offset).1 = - EIO ∧ (query_read B c inode size offset).2.1 = [] ∨
      0 ≤ (query_read B c inode size offset).1 ∧
      (query_read B c inode size offset).1 ≤ size ∧
      ((query_read B c inode size offset).2.1.length : Int) ≤
        (query_read B c inode size offset).1) := by
  have hle : (fill_data_blocks_info B size offset).seq_first ≤
      (fill_data_blocks_info B size offset).seq_last := by
    simp only [fill_data_blocks_info]; exact Nat.le_add_right _ _
  unfold query_read
  simp only []
  generalize mysql_query c _ = q
  obtain ⟨ret, c1⟩ := q
  simp only []
  by_cases hr : ret ≠ 0
  · simp [hr]
  · simp only [hr, if_false]
    obtain ⟨i1, i2, i3⟩ := query_read_loop_bound B (fill_data_blocks_info B size offset)
      ((fill_data_blocks_info B size offset).seq_last + 1 -
        (fill_data_blocks_info B size offset).seq_first)
      (fill_data_blocks_info B size offset).seq_first
      (select_blocks_rows c1.db inode (fill_data_blocks_info B size offset).seq_first
        (fill_data_blocks_info B size offset).seq_last) [] 0 (le_refl _) (by omega)
    have hn : ¬ ((fill_data_blocks_info B size offset).seq_last + 1 -
        (fill_data_blocks_info B size offset).seq_first = 0) := by omega
    simp only [hn, if_false, copy_bound_from_first B size offset hB, Nat.zero_add] at i2
    simp only [List.length_nil, Nat.add_zero, Nat.zero_add] at i3
    refine ⟨by omega, Or.inr ⟨by omega, by exact_mod_cast i2, by exact_mod_cast i3⟩⟩

theorem query_read_ok (c : Conn) (s : Stmt) (hf : c.faults = []) (h : exec (c.sent s) s ≠ none) :
    (mysql_query c s).1 = 0 := by
  unfold mysql_query
  simp only [hf, List.head?_nil, reduceCtorEq, if_false]
  cases hq : exec (c.sent s) s with
  | none => exact absurd hq h
  | some c2 => rfl

/-! ## The components of a path and of its directory -/

theorem strtok_go_slash (a b : List Byte) :
    ∀ cur, strtok_go (a ++ 47 :: b) cur = strtok_go a cur ++ strtok_go b [] := by
  induction a with
  | nil =>
    intro cur
    simp only [List.nil_append, strtok_go, if_true]
    by_cases hc : cur = []
    · simp [hc]
    · simp [hc]
  | cons x a ih =>
    intro cur
    simp only [List.cons_append, strtok_go]
    by_cases hx : x = 47
    · simp only [hx, if_true]
      by_cases hc : cur = []
      · simp only [hc, if_true]; exact ih []
      · simp only [hc, if_false, List.cons_append]; exact congrArg (List.cons cur) (ih [])
    · simp only [hx, if_false]
      exact ih _

theorem strtok_go_name (name : List Byte) (h : 47 ∉ name) :
    ∀ cur, cur ++ name ≠ [] → strtok_go name cur = [cur ++ name] := by
  induction name with
  | nil =>
    intro cur hc
    simp only [List.append_nil] at hc ⊢
    simp [strtok_go, hc]
  | cons x rest ih =>
    intro cur _
    have hx : x ≠ 47 := fun e => h (by simp [e])
    have hr : 47 ∉ rest := fun e => h (List.mem_cons_of_mem _ e)
    simp only [strtok_go, hx, if_false]
    rw [ih hr (cur ++ [x]) (by simp)]
    simp

theorem strtok_go_slashes (t : List Byte) (h : ∀ x ∈ t, x = 47) : strtok_go t [] = [] := by
  induction t with
  | nil => rfl
  | cons x rest ih =>
    have hx : x = 47 := h x (by simp)
    simp only [strtok_go, hx, if_true]
    exact ih (fun y hy => h y (List.mem_cons_of_mem _ hy))

theorem strtok_go_append_slashes (a t : List Byte) (h : ∀ x ∈ t, x = 47) (cur : List Byte) :
    strtok_go (a ++ t) cur = strtok_go a cur := by
  cases t with
  | nil => simp
  | cons x rest =>
    have hx : x = 47 := h x (by simp)
    subst hx
    rw [strtok_go_slash, strtok_go_slashes rest (fun y hy => h y (List.mem_cons_of_mem _ hy))]
    simp

theorem strtok_r_strip_slashes (dir : List Byte) :
    strtok_r (strip_slashes dir) = strtok_r dir := by
  have hsplit : dir = strip_slashes dir ++ (dir.reverse.takeWhile (fun b => b = 47)).reverse := by
    unfold strip_slashes
    rw [← List.reverse_append, List.takeWhile_append_dropWhile, List.reverse_reverse]
  have hall : ∀ x ∈ (dir.reverse.takeWhile (fun b => b = 47)).reverse, x = 47 := by
    intro x hx
    rw [List.mem_reverse] at hx
    simpa using List.mem_takeWhile_imp hx
  unfold strtok_r
  conv_rhs => rw [hsplit]
  rw [strtok_go_append_slashes _ _ hall]

theorem strtok_r_path (dir name : List Byte) (hname : name ≠ []) (hslash : 47 ∉ name) :
    strtok_r (dir ++ 47 :: name) = strtok_r dir ++ [name] := by
  unfold strtok_r
  rw [strtok_go_slash, strtok_go_name name hslash [] (by simpa using hname)]
  simp

theorem reverse_path (dir name : List Byte) :
    (dir ++ 47 :: name).reverse = name.reverse ++ 47 :: dir.reverse := by
  simp

theorem takeWhile_name (name rest : List Byte) (hslash : 47 ∉ name) :
    (name.reverse ++ 47 :: rest).takeWhile (fun b => b ≠ 47) = name.reverse := by
  rw [List.takeWhile_append_of_pos]
  · simp
  · intro x hx
    rw [List.mem_reverse] at hx
    simpa using fun e : x = 47 => hslash (e ▸ hx)

theorem dropWhile_name (name rest : List Byte) (hslash : 47 ∉ name) :
    (name.reverse ++ 47 :: rest).dropWhile (fun b => b ≠ 47) = 47 :: rest := by
  rw [List.dropWhile_append_of_pos]
  · simp
  · intro x hx
    rw [List.mem_reverse] at hx
    simpa using fun e : x = 47 => hslash (e ▸ hx)

theorem strip_slashes_path (dir name : List Byte) (hname : name ≠ []) (hslash : 47 ∉ name) :
    strip_slashes (dir ++ 47 :: name) = dir ++ 47 :: name := by
  unfold strip_slashes
  rw [reverse_path]
  obtain ⟨x, rest, hx⟩ : ∃ x rest, name.reverse = x :: rest := by
    cases h : name.reverse with
    | nil => exact absurd (List.reverse_eq_nil_iff.mp h) hname
    | cons x rest => exact ⟨x, rest, rfl⟩
  have hx47 : x ≠ 47 := by
    intro e
    apply hslash
    rw [← List.mem_reverse, hx, e]
    simp
  rw [hx, List.cons_append, List.dropWhile_cons_of_neg (by simpa using hx47), ← List.cons_append,
    ← hx, ← reverse_path, List.reverse_reverse]

theorem strrchr_slash_path (dir name : List Byte) (hslash : 47 ∉ name) :
    strrchr_slash (dir ++ 47 :: name) = some name := by
  unfold strrchr_slash
  rw [if_pos (by simp), reverse_path, takeWhile_name name _ hslash, List.reverse_reverse]

theorem strtok_r_dirname (dir name : List Byte) (hname : name ≠ []) (hslash : 47 ∉ name) :
    strtok_r (dirname (dir ++ 47 :: name)) = strtok_r dir := by
  unfold dirname
  rw [if_neg (by simp), strip_slashes_path dir name hname hslash, reverse_path,
    dropWhile_name name _ hslash, if_neg (by simp),
    List.dropWhile_cons_of_pos (by simp)]
  have hs : (dir.reverse.dropWhile (fun b => b = 47)).reverse = strip_slashes dir := rfl
  by_cases h0 : dir.reverse.dropWhile (fun b => b = 47) = []
  · rw [if_pos h0, ← strtok_r_strip_slashes dir, ← hs, h0]
    rfl
  · rw [if_neg h0, hs, strtok_r_strip_slashes]

theorem path_ne_root (dir name : List Byte) (hname : name ≠ []) : dir ++ 47 :: name ≠ [47] := by
  intro h
  have hl := congrArg List.length h
  simp only [List.length_append, List.length_cons, List.length_nil] at hl
  have : name.length ≠ 0 := fun e => hname (List.length_eq_zero.mp e)
  omega

/-- The text of the lookup statement depends on the components only. -/
theorem query_inode_full_format_congr (p q : List Byte) (nlinks : Bool)
    (h : strtok_r p = strtok_r q) :
    query_inode_full_format p nlinks = query_inode_full_format q nlinks := by
  unfold query_inode_full_format
  rw [h]

/-! ## A new entry in the tree -/

theorem TreeRow.parent_eq_natCast (t : TreeRow) (q : Nat) :
    t.parent_eq (q : Int) = true ↔ t.parent = some q := by
  unfold TreeRow.parent_eq
  cases t.parent with
  | none => simp
  | some v => simp

theorem tree_filter_le_one (tree : List TreeRow)
    (hkey : tree.Pairwise (fun a b => ¬ (a.parent = b.parent ∧ a.name = b.name)))
    (q : Nat) (nm : List Byte) :
    (tree.filter (fun t => t.parent = some q ∧ t.name = nm)).length ≤ 1 := by
  have hp := List.Pairwise.sublist (List.filter_sublist tree
    (p := fun t => decide (t.parent = some q ∧ t.name = nm))) hkey
  match hl : tree.filter (fun t => decide (t.parent = some q ∧ t.name = nm)) with
  | [] => rw [hl]; simp
  | [_] => rw [hl]; simp
  | a :: b :: rest =>
    exfalso
    rw [hl] at hp
    have ha : a ∈ tree.filter (fun t => decide (t.parent = some q ∧ t.name = nm)) := by
      rw [hl]; simp
    have hb : b ∈ tree.filter (fun t => decide (t.parent = some q ∧ t.name = nm)) := by
      rw [hl]; simp
    have ha2 := (List.mem_filter.mp ha).2
    have hb2 := (List.mem_filter.mp hb).2
    simp only [decide_eq_true_eq] at ha2 hb2
    have hab := (List.pairwise_cons.mp hp).1 b (by simp)
    exact hab ⟨ha2.1.trans hb2.1.symm, ha2.2.trans hb2.2.symm⟩

theorem join_path_nil (tree : List TreeRow) (names : List (List Byte)) :
    join_path tree names [] = [] := by
  induction names with
  | nil => rfl
  | cons nm rest ih => rw [join_path]; simpa using ih

theorem join_path_append (tree : List TreeRow) (a b : List (List Byte)) :
    ∀ cur, join_path tree (a ++ b) cur = join_path tree b (join_path tree a cur) := by
  induction a with
  | nil => intro cur; rfl
  | cons nm rest ih => intro cur; simp only [List.cons_append, join_path]; exact ih _

theorem join_path_insert (tree : List TreeRow) (t prow : TreeRow) (name : List Byte)
    (hkey : tree.Pairwise (fun a b => ¬ (a.parent = b.parent ∧ a.name = b.name)))
    (hnew : tree.filter (fun x => x.parent = some prow.inode ∧ x.name = name) = [])
    (ht : t.parent = some prow.inode ∧ t.name = name) :
    ∀ (names : List (List Byte)) (cur : List TreeRow), cur.length ≤ 1 →
      join_path tree names cur = [prow] → join_path (tree ++ [t]) names cur = [prow] := by
  intro names
  induction names with
  | nil => intro cur _ h; simpa [join_path] using h
  | cons nm rest ih =>
    intro cur hcur h
    match cur, hcur with
    | [], _ =>
      rw [join_path_nil] at h
      exact absurd h (by simp)
    | [p], _ =>
      rw [join_path] at h ⊢
      simp only [List.flatMap_cons, List.flatMap_nil, List.append_nil] at h ⊢
      by_cases hm : t.parent = some p.inode ∧ t.name = nm
      · exfalso
        have hpi : p.inode = prow.inode := by
          have := hm.1.symm.trans ht.1
          simpa using this
        have hnm : nm = name := hm.2.symm.trans ht.2
        rw [hpi, hnm, hnew, join_path_nil] at h
        exact absurd h (by simp)
      · have hft : ([t] : List TreeRow).filter
            (fun x => decide (x.parent = some p.inode ∧ x.name = nm)) = [] := by
          simp [hm]
        rw [List.filter_append, hft, List.append_nil]
        exact ih _ (tree_filter_le_one tree hkey p.inode nm) h

theorem select_path_rows_insert (db : Tables) (t prow : TreeRow) (names : List (List Byte))
    (name : List Byte) (hkey : TreeKey db.tree)
    (hpar : select_path_rows db names = [prow])
    (hnew : db.tree.filter (fun x => x.name = name ∧ x.parent_eq prow.inode) = [])
    (ht : t.parent = some prow.inode ∧ t.name = name) :
    select_path_rows { db with tree := db.tree ++ [t] } (names ++ [name]) = [t] := by
  have hnew2 : db.tree.filter (fun x => x.parent = some prow.inode ∧ x.name = name) = [] := by
    rw [List.filter_eq_nil_iff] at hnew ⊢
    intro x hx
    have := hnew x hx
    simp only [Bool.decide_and, Bool.decide_eq_true, Bool.and_eq_true, decide_eq_true_eq,
      TreeRow.parent_eq_natCast] at this ⊢
    exact fun h => this ⟨h.2, h.1⟩
  have hroot : (db.tree ++ [t]).filter (fun r => r.parent = none) =
      db.tree.filter (fun r => r.parent = none) := by
    rw [List.filter_append]
    simp [ht.1]
  unfold select_path_rows at hpar ⊢
  simp only []
  rw [hroot, join_path_append,
    join_path_insert db.tree t prow name hkey.2 hnew2 ht names _ hkey.1 hpar]
  simp only [join_path, List.flatMap_cons, List.flatMap_nil, List.append_nil, List.filter_append,
    hnew2, List.nil_append]
  simp [ht]

/-! ## Lookups that find their entry -/

theorem query_inode_found (c : Conn) (path : List Byte) (row : TreeRow) (hf : c.faults = [])
    (hfit : (query_inode_full_format path false).length < SQL_MAX)
    (hrow : select_path_rows c.db (strtok_r path) = [row]) :
    query_inode c path = ((row.inode : Int), c.sent (.select_path (strtok_r path) false)) := by
  unfold query_inode query_inode_full query_inode_full_stmt
  rw [if_pos hfit, mysql_query_select_path hf]
  simp [hrow]

theorem c_int_of_le (n : Nat) (h : n ≤ INT_MAX) : c_int (n : Int) = n := by
  unfold c_int
  unfold INT_MAX at h
  omega

/-! ## A new inode -/

theorem next_inode_sent (c : Conn) (s : Stmt) : next_inode (c.sent s) = next_inode c := rfl

theorem mysql_query_insert_tree_auto {c : Conn} (hf : c.faults = []) (name : List Byte) (q : Nat)
    (hnew : c.db.tree.filter (fun t => t.name = name ∧ t.parent_eq (q : Int)) = []) :
    mysql_query c (.insert_tree_auto (mysql_real_escape_string name) q) =
      (0, { (c.sent (.insert_tree_auto (mysql_real_escape_string name) q)).with_tree
              (c.db.tree ++ [{ inode := next_inode c, parent := some q, name := name }])
            with auto_increment := next_inode c + 1, insert_id := next_inode c }) := by
  apply mysql_query_of_exec hf
  simp only [exec, sql_string_value_escape, Conn.sent_db, next_inode_sent]
  have h0 : ¬ ((q : Int) < 0) := by omega
  rw [if_neg h0, if_pos hnew]
  simp

theorem mysql_query_insert_inode {c : Conn} (hf : c.faults = []) (i mode uid gid : Nat)
    (hino : ∀ r ∈ c.db.inodes, r.inode ≠ i) :
    mysql_query c (.insert_inode i mode uid gid) =
      (0, (c.sent (.insert_inode i mode uid gid)).with_inodes
        (c.db.inodes ++ [new_inode_row i mode uid gid c.clock])) := by
  apply mysql_query_of_exec hf
  simp only [exec, Conn.sent_db]
  have h0 : ¬ ((i : Int) < 0 ∨ (mode : Int) < 0 ∨ (uid : Int) < 0 ∨ (gid : Int) < 0) := by omega
  have h1 : c.db.inodes.filter (fun r => ((r.inode : Int) = (i : Int))) = [] := by
    rw [List.filter_eq_nil_iff]
    intro r hr
    have := hino r hr
    simp only [decide_eq_true_eq]
    omega
  rw [if_neg h0, if_pos h1]
  simp only [Int.toNat_ofNat]
  rfl

theorem query_mknod_new (c : Conn) (dir name : List Byte) (mode uid gid : Nat) (q : Nat)
    (hf : c.faults = []) (hname : name ≠ []) (hslash : 47 ∉ name)
    (hnew : c.db.tree.filter (fun t => t.name = name ∧ t.parent_eq (q : Int)) = [])
    (hino : ∀ r ∈ c.db.inodes, r.inode ≠ next_inode c)
    (hmode : mode ≤ INT_MAX) (huid : uid ≤ INT_MAX) (hgid : gid ≤ INT_MAX) :
    (query_mknod c (dir ++ 47 :: name) mode q uid gid).1 = next_inode c ∧
    (query_mknod c (dir ++ 47 :: name) mode q uid gid).2.faults = [] ∧
    (query_mknod c (dir ++ 47 :: name) mode q uid gid).2.db.tree =
      c.db.tree ++ [{ inode := next_inode c, parent := some q, name := name }] ∧
    (query_mknod c (dir ++ 47 :: name) mode q uid gid).2.db.inodes =
      c.db.inodes ++ [new_inode_row (next_inode c) mode uid gid c.clock] ∧
    (query_mknod c (dir ++ 47 :: name) mode q uid gid).2.db.data_blocks = c.db.data_blocks := by
  unfold query_mknod
  rw [if_neg (path_ne_root dir name hname), strrchr_slash_path dir name hslash]
  simp only []
  rw [if_neg hname, mysql_query_insert_tree_auto hf name q hnew]
  simp only [ne_eq, not_true_eq_false, if_false]
  unfold query_mknod_inode
  simp only [c_int_of_le mode hmode, c_int_of_le uid huid, c_int_of_le gid hgid]
  rw [mysql_query_insert_inode (by simp [hf]) (next_inode c) mode uid gid
    (by simpa using hino)]
  simp only [ne_eq, not_true_eq_false, if_false]
  refine ⟨trivial, ?_, ?_, ?_, ?_⟩
  · simp [hf]
  · simp
  · simp; rfl
  · simp

/-! ## The blocks of a file written from scratch, and a read past its end -/

theorem fill_data_blocks_info_zero (B n : Nat) :
    fill_data_blocks_info B n 0 =
      { seq_first := 0, seq_last := n / B, length_first := if n / B > 0 then B else n,
        length_last := n % B, offset_first := 0 } := by
  simp [fill_data_blocks_info]

theorem splice_nil_zero (P : List Byte) : splice [] 0 P = P := by
  simp [splice, RPAD]

theorem put_bytes_fresh (rows : List BlockRow) (i s : Nat) (P : List Byte)
    (hnone : block_at rows i s = none) (hP : P ≠ []) :
    ∃ r, block_at (put_bytes rows i s 0 P) i s = some r ∧ r.data = P ∧
      r.datalength = r.data.length := by
  obtain ⟨r, h1, _, _, h4, h5⟩ := put_block_block_at rows i s 0 P
  have hl : P.length ≠ 0 := fun e => hP (List.length_eq_zero.mp e)
  refine ⟨r, by simpa [put_bytes, hl] using h1, ?_, h4⟩
  rw [h5, hnone]
  exact splice_nil_zero P

theorem put_bytes_nil (rows : List BlockRow) (i s off : Nat) : put_bytes rows i s off [] = rows := by
  simp [put_bytes]

theorem write_loop_rows_fresh (B i : Nat) (data : List Byte) (hB : 0 < B) :
    ∀ (n seq ptr : Nat) (rows : List BlockRow),
      (∀ s, seq ≤ s → block_at rows i s = none) → ptr + n * B ≤ data.length →
      ∀ s, seq ≤ s → s < seq + n →
        ∃ r, block_at (write_loop_rows B i data n seq ptr rows) i s = some r ∧
          r.data = (data.drop (ptr + (s - seq) * B)).take B ∧ r.datalength = r.data.length := by
  intro n
  induction n with
  | zero => intro seq ptr rows _ _ s h1 h2; omega
  | succ n ih =>
    intro seq ptr rows hnone hlen s h1 h2
    have hmul : (n + 1) * B = n * B + B := by rw [Nat.add_mul, Nat.one_mul]
    rw [write_loop_rows]
    by_cases hs : s = seq
    · subst hs
      rw [write_loop_rows_block_at_out B i data n (s + 1) (ptr + B) _ i s (by omega)]
      have hne : (data.drop ptr).take B ≠ [] := by
        intro e
        have := congrArg List.length e
        simp only [List.length_take, List.length_drop, List.length_nil] at this
        omega
      obtain ⟨r, hr1, hr2, hr3⟩ := put_bytes_fresh rows i s _ (hnone s (le_refl _)) hne
      exact ⟨r, hr1, by simpa using hr2, hr3⟩
    · have hidx : ptr + B + (s - (seq + 1)) * B = ptr + (s - seq) * B := by
        have e : s - seq = (s - (seq + 1)) + 1 := by omega
        rw [e, Nat.add_mul, Nat.one_mul]
        omega
      rw [← hidx]
      apply ih (seq + 1) (ptr + B) _ _ (by omega) s (by omega) (by omega)
      intro s' hs'
      rw [put_bytes_block_at_ne _ _ _ _ _ _ _ (by omega)]
      exact hnone s' (by omega)

theorem file_holds_query_write_rows (B : Nat) (rows : List BlockRow) (i : Nat) (T : List Byte)
    (hB : 0 < B) (hfresh : ∀ r ∈ rows, r.inode ≠ i) :
    file_holds B (query_write_rows B rows i T 0) i T := by
  have hnone : ∀ s, block_at rows i s = none := by
    intro s
    rw [block_at_eq_none]
    exact fun r hr h => hfresh r hr h.1
  have hdm := Nat.div_add_mod' T.length B
  have hml := Nat.mod_lt T.length hB
  unfold query_write_rows
  rw [fill_data_blocks_info_zero]
  simp only []
  by_cases hK : T.length / B = 0
  · -- the text fits one block
    have hlt : T.length < B := by
      rw [hK, Nat.zero_mul, Nat.zero_add] at hdm
      omega
    simp only [hK, gt_iff_lt, Nat.lt_irrefl, if_false, ne_eq, not_true_eq_false, List.take_length]
    intro s
    constructor
    · intro hs
      have hs0 : s = 0 := by
        rcases Nat.eq_zero_or_pos s with h | h
        · exact h
        · have : 1 * B ≤ s * B := Nat.mul_le_mul_right B h
          omega
      subst hs0
      have hne : T ≠ [] := by
        intro e; subst e; simp at hs
      obtain ⟨r, hr1, hr2, hr3⟩ := put_bytes_fresh rows i 0 T (hnone 0) hne
      refine ⟨r, hr1, ?_, hr3⟩
      rw [hr2, Nat.zero_mul, List.drop_zero, List.take_of_length_le (by omega)]
    · intro hs
      by_cases hT : T = []
      · subst hT
        rw [put_bytes_nil]
        exact hnone s
      · have hs0 : s ≠ 0 := by
          intro e; subst e
          have : T.length ≠ 0 := fun e => hT (List.length_eq_zero.mp e)
          omega
        rw [put_bytes_block_at_ne _ _ _ _ _ _ _ (by omega)]
        exact hnone s
  · -- the text takes more than one block
    have hKpos : T.length / B > 0 := Nat.pos_of_ne_zero hK
    have hK1 : 1 * B ≤ T.length / B * B := Nat.mul_le_mul_right B hKpos
    have hne0 : ¬ (0 = T.length / B) := by omega
    simp only [hKpos, if_true, ne_eq, hne0, not_false_eq_true]
    have hidx : B + (T.length / B - (0 + 1)) * B = T.length / B * B := by
      have e : T.length / B = (T.length / B - (0 + 1)) + 1 := by omega
      conv_rhs => rw [e, Nat.add_mul, Nat.one_mul]
      omega
    rw [hidx]
    have hfirst : (T.take B) ≠ [] := by
      intro e
      have := congrArg List.length e
      simp only [List.length_take, List.length_nil] at this
      omega
    have hnone1 : ∀ s, 0 + 1 ≤ s →
        block_at (put_bytes rows i 0 0 (T.take B)) i s = none := by
      intro s hs
      rw [put_bytes_block_at_ne _ _ _ _ _ _ _ (by omega)]
      exact hnone s
    have hlast_len : (T.drop (T.length / B * B)).length = T.length % B := by
      rw [List.length_drop]; omega
    intro s
    constructor
    · intro hs
      have hsK : s ≤ T.length / B := by
        by_contra hc
        have : (T.length / B + 1) * B ≤ s * B := Nat.mul_le_mul_right B (by omega)
        rw [Nat.add_mul, Nat.one_mul] at this
        omega
      by_cases hsl : s = T.length / B
      · -- the last block
        have hpos : T.length % B ≠ 0 := by
          rw [hsl] at hs; omega
        have hne : (T.drop (T.length / B * B)).take (T.length % B) ≠ [] := by
          intro e
          have := congrArg List.length e
          simp only [List.length_take, hlast_len, List.length_nil] at this
          omega
        have hfree : block_at (write_loop_rows B i T (T.length / B - (0 + 1)) (0 + 1) B
            (put_bytes rows i 0 0 (T.take B))) i (T.length / B) = none := by
          rw [write_loop_rows_block_at_out B i T _ _ _ _ i _ (by omega)]
          exact hnone1 _ (by omega)
        obtain ⟨r, hr1, hr2, hr3⟩ := put_bytes_fresh _ i (T.length / B) _ hfree hne
        rw [hsl]
        refine ⟨r, hr1, ?_, hr3⟩
        rw [hr2, List.take_of_length_le (by rw [hlast_len]),
          List.take_of_length_le (by rw [hlast_len]; omega)]
      · rw [put_bytes_block_at_ne _ _ _ _ _ _ _ (by omega)]
        by_cases hs0 : s = 0
        · subst hs0
          rw [write_loop_rows_block_at_out B i T _ _ _ _ i _ (by omega)]
          obtain ⟨r, hr1, hr2, hr3⟩ := put_bytes_fresh rows i 0 _ (hnone 0) hfirst
          refine ⟨r, hr1, ?_, hr3⟩
          rw [hr2, Nat.zero_mul, List.drop_zero]
        · obtain ⟨r, hr1, hr2, hr3⟩ := write_loop_rows_fresh B i T hB
            (T.length / B - (0 + 1)) (0 + 1) B (put_bytes rows i 0 0 (T.take B)) hnone1
            (by rw [hidx]; omega) s (by omega) (by omega)
          refine ⟨r, hr1, ?_, hr3⟩
          rw [hr2]
          have e : B + (s - (0 + 1)) * B = s * B := by
            have e1 : s = (s - (0 + 1)) + 1 := by omega
            conv_rhs => rw [e1, Nat.add_mul, Nat.one_mul]
            omega
          rw [e]
    · intro hs
      have hsK : T.length / B ≤ s := by
        by_contra hc
        have : (s + 1) * B ≤ T.length / B * B := Nat.mul_le_mul_right B (by omega)
        rw [Nat.add_mul, Nat.one_mul] at this
        omega
      have hfree : block_at (write_loop_rows B i T (T.length / B - (0 + 1)) (0 + 1) B
          (put_bytes rows i 0 0 (T.take B))) i s = none := by
        rw [write_loop_rows_block_at_out B i T _ _ _ _ i _ (by omega)]
        exact hnone1 _ (by omega)
      by_cases hsl : s = T.length / B
      · have hz : T.length % B = 0 := by
          rw [hsl] at hs; omega
        rw [hz, List.take_zero, put_bytes_nil]
        exact hfree
      · rw [put_bytes_block_at_ne _ _ _ _ _ _ _ (by omega)]
        exact hfree

theorem query_read_block_at_zero (B : Nat) (info : data_blocks_info) (seq : Nat)
    (hit : Option BlockRow) (out : List Byte) (length : Nat) (hof : info.offset_first = 0) :
    query_read_block B info seq hit out length =
      some (out ++ (hit_data B hit).take (min (copy_bound B info seq) (hit_len B hit)),
        length + min (copy_bound B info seq) (hit_len B hit)) := by
  unfold query_read_block copy_bound
  simp only [hof, Nat.not_lt_zero, and_false, if_false, Nat.sub_zero, List.drop_zero, ite_self]
  split_ifs <;> simp [Nat.min_comm]

theorem read_blocks_past_end (B n : Nat) (T : List Byte) (f : Nat → Option BlockRow)
    (info : data_blocks_info) (hB : 0 < B) (hn : T.length < n)
    (hf : ∀ s, (s * B < T.length → ∃ r, f s = some r ∧
            r.data = (T.drop (s * B)).take B ∧ r.datalength = r.data.length) ∧
          (T.length ≤ s * B → f s = none))
    (hsf : info.seq_first = 0) (hof : info.offset_first = 0) (hsl : info.seq_last = n / B)
    (hlf : info.length_first = if n / B > 0 then B else n) (hll : info.length_last = n % B) :
    ∀ (m s : Nat) (out : List Byte) (len : Nat), s + m = n / B + 1 →
      out = T.take len ++ List.replicate (len - T.length) 0 →
      (s * B ≤ T.length → len = s * B) → (T.length < s * B → T.length ≤ len) →
      ∃ len1, read_blocks B info f m s out len =
        (T ++ List.replicate (len1 - T.length) 0, len1) ∧ T.length ≤ len1 := by
  have hdm := Nat.div_add_mod' n B
  have hml := Nat.mod_lt n hB
  intro m
  induction m with
  | zero =>
    intro s out len hs hout h1 h2
    have hsB : s * B = n / B * B + B := by
      have : s = n / B + 1 := by omega
      rw [this, Nat.add_mul, Nat.one_mul]
    have hle : T.length ≤ len := h2 (by omega)
    refine ⟨len, ?_, hle⟩
    rw [read_blocks, hout, List.take_of_length_le hle]
  | succ m ih =>
    intro s out len hs hout h1 h2
    have hsK : s ≤ n / B := by omega
    have hsKB : s * B ≤ n / B * B := Nat.mul_le_mul_right B hsK
    have hsucc : (s + 1) * B = s * B + B := by rw [Nat.add_mul, Nat.one_mul]
    have hcap : copy_bound B info s =
        if s = 0 then (if n / B > 0 then B else n) else if s = n / B then n % B else B := by
      simp only [copy_bound, hsf, hsl, hlf, hll]
    rw [read_blocks, query_read_block_at_zero B info s (f s) out len hof]
    simp only []
    by_cases hA : s * B < T.length
    · -- a block of the text
      obtain ⟨r, hr1, hr2, hr3⟩ := (hf s).1 hA
      have hlen : len = s * B := h1 (by omega)
      have hdl : r.datalength = min B (T.length - s * B) := by
        rw [hr3, hr2, List.length_take, List.length_drop]
      simp only [hr1, hit_data, hit_len, hr2, List.take_take]
      have hc : min (copy_bound B info s) r.datalength ≤ T.length - s * B := by
        rw [hdl]; omega
      have hcB : min (copy_bound B info s) r.datalength ≤ B := by
        rw [hdl]; omega
      have hout1 : out ++ List.take (min (min (copy_bound B info s) r.datalength) B)
          (List.drop (s * B) T) =
          T.take (len + min (copy_bound B info s) r.datalength) ++
            List.replicate (len + min (copy_bound B info s) r.datalength - T.length) 0 := by
        have e0 : len + min (copy_bound B info s) r.datalength - T.length = 0 := by omega
        have e1 : len - T.length = 0 := by omega
        rw [hout, e0, e1, Nat.min_eq_left hcB, hlen]
        simp only [List.replicate_zero, List.append_nil]
        rw [List.take_add]
      apply ih (s + 1) _ _ (by omega) hout1
      · intro hfull
        have : r.datalength = B := by rw [hdl]; omega
        have hcb : copy_bound B info s = B := by
          rw [hcap]
          by_cases hs0 : s = 0
          · have : n / B > 0 := by
              rcases Nat.eq_zero_or_pos (n / B) with h | h
              · rw [h] at hdm; subst hs0; omega
              · exact h
            simp [hs0, this]
          · by_cases hsl2 : s = n / B
            · exfalso; rw [hsl2] at hsucc hfull; omega
            · simp [hs0, hsl2]
        rw [hcb, this, hsucc, hlen]
        simp
      · intro hpart
        have hdl2 : r.datalength = T.length - s * B := by rw [hdl]; omega
        have hcb : T.length - s * B ≤ copy_bound B info s := by
          rw [hcap]
          by_cases hs0 : s = 0
          · have hx0 : s * B = 0 := by rw [hs0, Nat.zero_mul]
            rw [if_pos hs0]
            split_ifs <;> omega
          · rw [if_neg hs0]
            by_cases hsl2 : s = n / B
            · have hsB2 : s * B = n / B * B := by rw [← hsl2]
              rw [if_pos hsl2]
              omega
            · rw [if_neg hsl2]
              omega
        rw [hdl2]
        omega
    · -- past the end of the text
      have hnone := (hf s).2 (by omega)
      have hle : T.length ≤ len := by
        by_cases he : s * B ≤ T.length
        · have := h1 he; omega
        · exact h2 (by omega)
      simp only [hnone, hit_data, hit_len, zeroes]
      have hout1 : out ++ List.take (min (copy_bound B info s) B) (List.replicate B 0) =
          T.take (len + min (copy_bound B info s) B) ++
            List.replicate (len + min (copy_bound B info s) B - T.length) 0 := by
        rw [hout, List.take_of_length_le hle,
          List.take_of_length_le (show T.length ≤ len + min (copy_bound B info s) B by omega),
          List.take_replicate, List.append_assoc, ← List.replicate_add]
        congr 2
        omega
      apply ih (s + 1) _ _ (by omega) hout1
      · intro hfull; omega
      · intro _; omega

theorem query_read_past_end (B : Nat) (c : Conn) (i n : Nat) (T : List Byte) (hB : 0 < B)
    (hf : c.faults = []) (hpk : PrimaryKey c.db.data_blocks) (hn : T.length < n)
    (hholds : file_holds B c.db.data_blocks i T) :
    0 ≤ (query_read B c i n 0).1 ∧
    (query_read B c i n 0).2.1 ++
      (List.replicate n 0).drop (query_read B c i n 0).2.1.length =
      T ++ List.replicate (n - T.length) 0 ∧
    (query_read B c i n 0).2.1.length ≤ n ∧
    (query_read B c i n 0).2.2.faults = [] ∧
    (query_read B c i n 0).2.2.db = c.db := by
  obtain ⟨hb1, hb2⟩ := query_read_bound B c i n 0 hB
  obtain ⟨e1, e2⟩ := query_read_eq B c i n 0 hf hpk
  have hz := fill_data_blocks_info_zero B n
  obtain ⟨len1, hr, hle⟩ := read_blocks_past_end B n T (block_at c.db.data_blocks i)
    (fill_data_blocks_info B n 0) hB hn hholds (by rw [hz]) (by rw [hz]) (by rw [hz])
    (by rw [hz]) (by rw [hz]) (n / B + 1) 0 [] 0 (by omega) (by simp) (by simp)
    (by intro h; simp at h)
  have hcount : (fill_data_blocks_info B n 0).seq_last + 1 -
      (fill_data_blocks_info B n 0).seq_first = n / B + 1 := by rw [hz]; rfl
  have hfirst : (fill_data_blocks_info B n 0).seq_first = 0 := by rw [hz]
  rw [hcount, hfirst, hr] at e1 e2
  simp only [] at e1 e2
  have hlen : (query_read B c i n 0).2.1.length = len1 := by
    rw [e2, List.length_append, List.length_replicate]; omega
  refine ⟨by rw [e1]; exact Int.ofNat_nonneg _, ?_, hb1, ?_, ?_⟩
  · rw [hlen] at hb1
    rw [hlen, e2, List.drop_replicate, List.append_assoc, ← List.replicate_add]
    congr 2
    omega
  · unfold query_read
    simp only []
    split
    · rw [mysql_query_select_block hf]; simp [hf]
    · rw [mysql_query_select_blocks hf]; simp [hf]
  · unfold query_read
    simp only []
    split
    · rw [mysql_query_select_block hf]; simp
    · rw [mysql_query_select_blocks hf]; simp

/-! ## A symbolic link and its text -/

theorem select_path_rows_congr (a b : Tables) (names : List (List Byte)) (h : a.tree = b.tree) :
    select_path_rows a names = select_path_rows b names := by
  unfold select_path_rows
  rw [h]

theorem pool_put_get (p : Pool) (c : Conn) :
    pool_put { p with borrowed := p.borrowed + 1 } c = { p with conn := c } := by
  simp [pool_put]

theorem mysqlfs_mknod_new (p : Pool) (dir name : List Byte) (mode uid gid : Nat) (prow : TreeRow)
    (hroom : p.borrowed < p.ceiling) (hf : p.conn.faults = [])
    (hname : name ≠ []) (hslash : 47 ∉ name)
    (hpath : (dir ++ 47 :: name).length < PATH_MAX)
    (hsql : (query_inode_full_format dir false).length < SQL_MAX)
    (hpar : select_path_rows p.conn.db (strtok_r dir) = [prow])
    (hnew : p.conn.db.tree.filter (fun t => t.name = name ∧ t.parent_eq prow.inode) = [])
    (hino : ∀ r ∈ p.conn.db.inodes, r.inode ≠ next_inode p.conn)
    (hint : next_inode p.conn ≤ INT_MAX)
    (hmode : mode ≤ INT_MAX) (huid : uid ≤ INT_MAX) (hgid : gid ≤ INT_MAX) :
    ∃ c, mysqlfs_mknod p (dir ++ 47 :: name) mode uid gid = (0, { p with conn := c }) ∧
      c.faults = [] ∧
      c.db.tree = p.conn.db.tree ++
        [{ inode := next_inode p.conn, parent := some prow.inode, name := name }] ∧
      c.db.inodes = p.conn.db.inodes ++
        [new_inode_row (next_inode p.conn) mode uid gid p.conn.clock] ∧
      c.db.data_blocks = p.conn.db.data_blocks := by
  have hd := strtok_r_dirname dir name hname hslash
  have hq := query_inode_found p.conn (dirname (dir ++ 47 :: name)) prow hf
    (by rw [query_inode_full_format_congr _ dir false hd]; exact hsql) (by rw [hd]; exact hpar)
  obtain ⟨m1, m2, m3, m4, m5⟩ := query_mknod_new
    (p.conn.sent (.select_path (strtok_r (dirname (dir ++ 47 :: name))) false)) dir name mode
    uid gid prow.inode (by simp [hf]) hname hslash (by simpa using hnew)
    (by simpa [next_inode_sent] using hino) hmode huid hgid
  unfold mysqlfs_mknod
  rw [if_neg (not_not.mpr hpath), pool_get_room hroom]
  simp only [hq]
  have h0 : ¬ ((prow.inode : Int) < 0) := by omega
  rw [if_neg h0]
  generalize query_mknod _ (dir ++ 47 :: name) mode (prow.inode : Int) uid gid = q at m1 m2 m3 m4 m5 ⊢
  obtain ⟨ret, c2⟩ := q
  simp only [next_inode_sent, Conn.sent_db] at m1 m2 m3 m4 m5
  simp only []
  subst m1
  rw [c_int_of_le _ hint]
  have h1 : ¬ ((next_inode p.conn : Int) < 0) := by omega
  rw [if_neg h1, pool_put_get]
  exact ⟨c2, rfl, m2, m3, m4, m5⟩

theorem mysqlfs_symlink_new (B : Nat) (p : Pool) (T dir name : List Byte) (uid gid : Nat)
    (prow : TreeRow) (hB : BlockSize B)
    (hroom : p.borrowed < p.ceiling) (hf : p.conn.faults = [])
    (hname : name ≠ []) (hslash : 47 ∉ name)
    (hpath : (dir ++ 47 :: name).length < PATH_MAX)
    (hsql : (query_inode_full_format dir false).length < SQL_MAX)
    (hsql2 : (query_inode_full_format (dir ++ 47 :: name) false).length < SQL_MAX)
    (hkey : TreeKey p.conn.db.tree)
    (hpar : select_path_rows p.conn.db (strtok_r dir) = [prow])
    (hnew : p.conn.db.tree.filter (fun t => t.name = name ∧ t.parent_eq prow.inode) = [])
    (hino : ∀ r ∈ p.conn.db.inodes, r.inode ≠ next_inode p.conn)
    (hblk : ∀ r ∈ p.conn.db.data_blocks, r.inode ≠ next_inode p.conn)
    (hpk : PrimaryKey p.conn.db.data_blocks)
    (hint : next_inode p.conn ≤ INT_MAX) (huid : uid ≤ INT_MAX) (hgid : gid ≤ INT_MAX) :
    ∃ c, mysqlfs_symlink B p T (dir ++ 47 :: name) uid gid = (0, { p with conn := c }) ∧
      c.faults = [] ∧
      c.db.tree = p.conn.db.tree ++
        [{ inode := next_inode p.conn, parent := some prow.inode, name := name }] ∧
      c.db.inodes = (p.conn.db.inodes ++
        [new_inode_row (next_inode p.conn) (S_IFLNK ||| 0o755) uid gid p.conn.clock]).map
          (fun r => if r.inode = next_inode p.conn then
            { r with size := (sum_datalength
                (query_write_rows B p.conn.db.data_blocks (next_inode p.conn) T 0)
                (next_inode p.conn)) }
            else r) ∧
      c.db.data_blocks = query_write_rows B p.conn.db.data_blocks (next_inode p.conn) T 0 := by
  obtain ⟨c2, hmk, k1, k2, k3, k4⟩ := mysqlfs_mknod_new p dir name (S_IFLNK ||| 0o755) uid gid
    prow hroom hf hname hslash hpath hsql hpar hnew hino hint (by decide) huid hgid
  have hrow : select_path_rows c2.db (strtok_r (dir ++ 47 :: name)) =
      [{ inode := next_inode p.conn, parent := some prow.inode, name := name }] := by
    rw [strtok_r_path dir name hname hslash,
      select_path_rows_congr c2.db { p.conn.db with tree := p.conn.db.tree ++
        [{ inode := next_inode p.conn, parent := some prow.inode, name := name }] } _ k2]
    exact select_path_rows_insert p.conn.db _ prow (strtok_r dir) name hkey hpar hnew ⟨rfl, rfl⟩
  have hq := query_inode_found c2 (dir ++ 47 :: name) _ k1 hsql2 hrow
  obtain ⟨w1, w2, w3, w4, w5⟩ := query_write_eq B
    (c2.sent (.select_path (strtok_r (dir ++ 47 :: name)) false)) (next_inode p.conn) T 0 hB
    (by simp [k1]) (by simpa [k4] using hpk)
    (by
      intro r hr hi
      simp only [Conn.sent_db, k4] at hr
      exact absurd hi (hblk r hr))
  unfold mysqlfs_symlink
  rw [hmk]
  simp only [Int.lt_irrefl, if_false]
  have hroom2 : ({ p with conn := c2 } : Pool).borrowed < ({ p with conn := c2 } : Pool).ceiling :=
    hroom
  rw [pool_get_room hroom2]
  simp only [hq]
  rw [c_int_of_le _ hint]
  have h1 : ¬ ((next_inode p.conn : Int) < 0) := by omega
  rw [if_neg h1]
  simp only [Int.toNat_ofNat]
  generalize query_write B _ (next_inode p.conn) T T.length 0 = q at w1 w2 w3 w4 w5 ⊢
  obtain ⟨ret, c4⟩ := q
  simp only [Conn.sent_db] at w1 w2 w3 w4 w5
  simp only []
  subst w1
  have hret : (if (T.length : Int) > 0 then (0 : Int) else (T.length : Int)) = 0 := by
    split
    · rfl
    · omega
  rw [hret]
  refine ⟨c4, ?_, w2, by rw [w3, k2], by rw [w5, k3, k4], by rw [w4, k4]⟩
  simp [pool_put]

theorem mysqlfs_readlink_text (B : Nat) (p : Pool) (path buf T : List Byte) (n : Nat)
    (row : TreeRow) (hB : 0 < B) (hroom : p.borrowed < p.ceiling) (hf : p.conn.faults = [])
    (hsql : (query_inode_full_format path false).length < SQL_MAX)
    (hrow : select_path_rows p.conn.db (strtok_r path) = [row])
    (hpk : PrimaryKey p.conn.db.data_blocks)
    (hholds : file_holds B p.conn.db.data_blocks row.inode T) (hn : T.length < n) :
    (mysqlfs_readlink B p path buf n).1 = 0 ∧
    (mysqlfs_readlink B p path buf n).2.1 = T ++ List.replicate (n - T.length) 0 ++ buf.drop n ∧
    (mysqlfs_readlink B p path buf n).2.2.borrowed = p.borrowed := by
  have hq := query_inode_found p.conn path row hf hsql hrow
  obtain ⟨r1, r2, r3, _, _⟩ := query_read_past_end B
    (p.conn.sent (.select_path (strtok_r path) false)) row.inode n T hB (by simp [hf])
    (by simpa using hpk) hn (by simpa using hholds)
  unfold mysqlfs_readlink
  rw [pool_get_room hroom]
  simp only [hq]
  have h1 : ¬ ((row.inode : Int) < 0) := by omega
  rw [if_neg h1]
  simp only [Int.toNat_ofNat]
  generalize query_read B _ row.inode n 0 = q at r1 r2 r3 ⊢
  obtain ⟨ret, out, c2⟩ := q
  simp only [] at r1 r2 r3 ⊢
  refine ⟨?_, ?_, by simp [pool_put]⟩
  · split
    · rfl
    · omega
  · rw [List.drop_append_of_le_length (by simpa using r3), ← List.append_assoc, r2]

/-! ## The calls of `write_one_block` that a write makes -/

theorem fill_data_blocks_info_size_t_eq (B size offset : Nat) (h : offset + size < 2 ^ 64) :
    fill_data_blocks_info_size_t B size offset = fill_data_blocks_info B size offset := by
  have h1 : offset % B + size < 2 ^ 64 := by
    have := Nat.mod_le offset B
    omega
  have h2 : offset / B + (offset % B + size) / B < 2 ^ 64 := by
    have a := Nat.div_le_self offset B
    rcases Nat.eq_zero_or_pos B with hB | hB
    · subst hB; simp
    · have e : offset / B + (offset % B + size) / B = (offset + size) / B := by
        conv_rhs => rw [← Nat.div_add_mod offset B]
        rw [Nat.add_assoc, Nat.mul_add_div hB]
      have b := Nat.div_le_self (offset + size) B
      omega
  unfold fill_data_blocks_info_size_t fill_data_blocks_info
  simp only [Nat.mod_eq_of_lt h1, Nat.mod_eq_of_lt h2]

/-! ## The claims -/

/-- C2.  For a block size `B > 0` and a request that ends below `2 ^ 64`
(`offset + size < 2 ^ 64`: the sums `offset_first + size` and `seq_first + k` of
the machine do not wrap), `fill_data_blocks_info(size, offset)` as the machine
computes it is the function on the natural numbers, and it yields `seq_first =
offset / B`, `offset_first = offset mod B`, `seq_last = seq_first + k` and
`length_last = (offset_first + size) mod B` with `k = (offset_first + size) / B`,
and `length_first` is `B - offset_first` when `k > 0` and `size` when `k = 0`. -/
theorem fill_data_blocks_info_spec (B size offset : Nat) (_hB : 0 < B)
    (hrange : offset + size < 2 ^ 64) :
    fill_data_blocks_info_size_t B size offset = fill_data_blocks_info B size offset ∧
    (fill_data_blocks_info_size_t B size offset).seq_first = offset / B ∧
    (fill_data_blocks_info_size_t B size offset).offset_first = offset % B ∧
    (fill_data_blocks_info_size_t B size offset).seq_last =
      (fill_data_blocks_info_size_t B size offset).seq_first + (offset % B + size) / B ∧
    (fill_data_blocks_info_size_t B size offset).length_last = (offset % B + size) % B ∧
    (fill_data_blocks_info_size_t B size offset).length_first =
      (if (offset % B + size) / B > 0 then B - offset % B else size) := by
  rw [fill_data_blocks_info_size_t_eq B size offset hrange]
  exact ⟨rfl, rfl, rfl, rfl, rfl, rfl⟩

/-- C2 at `B = 4096`, `offset = 4000`, `size = 10000`: blocks 0 to 3, 96 bytes
in the first and 1712 in the last. -/
theorem fill_data_blocks_info_spec_witness :
    0 < 4096 ∧ 4000 + 10000 < 2 ^ 64 ∧
    fill_data_blocks_info_size_t 4096 10000 4000 = fill_data_blocks_info 4096 10000 4000 ∧
    fill_data_blocks_info_size_t 4096 10000 4000 =
      { seq_first := 0, seq_last := 3, length_first := 96, length_last := 1712,
        offset_first := 4000 } :=
  ⟨by decide, by decide,
    (fill_data_blocks_info_spec 4096 10000 4000 (by decide) (by decide)).1, by decide⟩

/-- C1: on a table with its primary key whose rows of the inode satisfy
`datalength = length(data) <= DATA_BLOCK_SIZE`, when no statement fails, for a
string `S` of at most `INT_MAX` bytes (the counts are returned as `int`) and
an offset in the range of `off_t`, `query_write(inode, S, |S|, O)` returns `|S|`
and a following `query_read(inode, buf, |S|, O)` returns `|S|` and stores
exactly `S`. -/
theorem query_write_query_read_round_trip (B : Nat) (c : Conn) (inode : Nat) (S : List Byte)
    (O : Nat) (hB : BlockSize B) (hf : c.faults = []) (hpk : PrimaryKey c.db.data_blocks)
    (hinv : ∀ r ∈ c.db.data_blocks, r.inode = inode → BlockInv B r)
    (_hS : S.length ≤ INT_MAX) (_hO : O < 2 ^ 63) :
    (query_write B c inode S S.length O).1 = S.length ∧
    (query_read B (query_write B c inode S S.length O).2 inode S.length O).1 = S.length ∧
    (query_read B (query_write B c inode S S.length O).2 inode S.length O).2.1 = S := by
  obtain ⟨w1, w2, _, w4, _⟩ := query_write_eq B c inode S O hB hf hpk hinv
  have hpk' : PrimaryKey (query_write B c inode S S.length O).2.db.data_blocks := by
    rw [w4]; exact query_write_rows_pk B _ inode S O hpk
  obtain ⟨r1, r2⟩ := query_read_eq B (query_write B c inode S S.length O).2 inode S.length O
    w2 hpk'
  rw [w4, read_blocks_query_write_rows B _ inode S O hB.1] at r1 r2
  exact ⟨w1, r1, r2⟩

/-- C1 at a concrete input: 5 bytes written at offset 3 over a short block,
with blocks of 4 bytes. -/
theorem query_write_query_read_round_trip_witness :
    BlockSize 4 ∧ (sample_conn [⟨1, 0, [1, 2], 2⟩]).faults = [] ∧
    PrimaryKey (sample_conn [⟨1, 0, [1, 2], 2⟩]).db.data_blocks ∧
    (query_read 4 (query_write 4 (sample_conn [⟨1, 0, [1, 2], 2⟩]) 1 [7, 8, 9, 10, 11] 5 3).2
      1 5 3).2.1 = [7, 8, 9, 10, 11] :=
  ⟨⟨by decide, by decide⟩, rfl, by simp [PrimaryKey, sample_conn],
    (query_write_query_read_round_trip 4 (sample_conn [⟨1, 0, [1, 2], 2⟩]) 1 [7, 8, 9, 10, 11] 3
      ⟨by decide, by decide⟩ rfl (by simp [PrimaryKey, sample_conn])
      (by simp [sample_conn, BlockInv]) (by decide) (by decide)).2.2⟩

set_option maxRecDepth 100000 in
/-- C3 (the code departs from it), with blocks of 4096 bytes: after 10 bytes
written at offset 0 and one byte `X` at offset 8192 the file has a short block
0, no block 1 and block 2.  A read of 8193 bytes at offset 0 returns 4107, and
byte 4106 of the buffer is the `X` of block 2, while the file's byte at
position 4106 lies in the hole of block 1 and is zero. -/
theorem query_read_short_block_shifts :
    (query_write 4096 (query_write 4096 (sample_conn []) 1
        [97, 98, 99, 100, 101, 102, 103, 104, 105, 106] 10 0).2 1 [88] 1 8192).2.db.data_blocks =
      [⟨1, 0, [97, 98, 99, 100, 101, 102, 103, 104, 105, 106], 10⟩, ⟨1, 2, [88], 1⟩] ∧
    (query_read 4096 (sample_conn
        [⟨1, 0, [97, 98, 99, 100, 101, 102, 103, 104, 105, 106], 10⟩, ⟨1, 2, [88], 1⟩])
        1 8193 0).1 = 4107 ∧
    (query_read 4096 (sample_conn
        [⟨1, 0, [97, 98, 99, 100, 101, 102, 103, 104, 105, 106], 10⟩, ⟨1, 2, [88], 1⟩])
        1 8193 0).2.1.getD 4106 0 = 88 ∧
    file_byte 4096 [⟨1, 0, [97, 98, 99, 100, 101, 102, 103, 104, 105, 106], 10⟩, ⟨1, 2, [88], 1⟩]
      1 (0 + 4106) = 0 := by
  decide

/-- C4: when the inode has no row for any `seq` in `[seq_first, seq_last]` and
the `SELECT` does not fail, for a `size` of at most `INT_MAX` (the count is
returned as an `int`), a block size that is an `int` and an offset in the
range of `off_t`, `query_read` returns exactly `size` and stores `size` zero
bytes. -/
theorem query_read_hole (B : Nat) (c : Conn) (inode size offset : Nat) (hB : BlockSize B)
    (hf : c.faults = [])
    (hhole : ∀ r ∈ c.db.data_blocks, r.inode = inode →
      ¬ ((fill_data_blocks_info B size offset).seq_first ≤ r.seq ∧
         r.seq ≤ (fill_data_blocks_info B size offset).seq_last))
    (_hsize : size ≤ INT_MAX) (_hoff : offset < 2 ^ 63) :
    (query_read B c inode size offset).1 = size ∧
    (query_read B c inode size offset).2.1 = List.replicate size 0 :=
  query_read_hole_eq B c inode size offset hB.1 hf hhole

/-- C4 at a concrete input: 6 bytes at offset 5 (blocks 1 and 2) of a file
that has block 0 only. -/
theorem query_read_hole_witness :
    BlockSize 4 ∧ (sample_conn [⟨1, 0, [1, 2], 2⟩]).faults = [] ∧
    (query_read 4 (sample_conn [⟨1, 0, [1, 2], 2⟩]) 1 6 5).1 = 6 ∧
    (query_read 4 (sample_conn [⟨1, 0, [1, 2], 2⟩]) 1 6 5).2.1 = [0, 0, 0, 0, 0, 0] :=
  ⟨⟨by decide, by decide⟩, rfl,
    query_read_hole 4 (sample_conn [⟨1, 0, [1, 2], 2⟩]) 1 6 5 ⟨by decide, by decide⟩ rfl
      (by decide) (by decide) (by decide)⟩

set_option maxRecDepth 100000 in
/-- C5 fails for `query_truncate`: truncating the empty file `/a` to 5 bytes
succeeds and stores size 5, while the inode has no block row, so that the sum
of `datalength` is 0. -/
theorem size_invariant_truncate_counterexample :
    (query_truncate 4096 (sample_conn []) [47, 97] 5).1 = 0 ∧
    (query_truncate 4096 (sample_conn []) [47, 97] 5).2.db.inodes.map
      (fun r => (r.inode, r.size)) = [(0, 0), (1, 5)] ∧
    sum_datalength (query_truncate 4096 (sample_conn []) [47, 97] 5).2.db.data_blocks 1 = 0 := by
  decide

/-- C5 as amended: when no statement fails, after a `query_write` (of at most
`INT_MAX` bytes, the range of the `int` it returns) that returns no error the
inode's size is the sum of `datalength` over its rows, whatever the inode;
and after a `query_truncate` to `N` of a path that resolves to the inode,
which returns 0, the size is `N`. -/
theorem size_after_write_and_truncate (B : Nat) (c : Conn) (inode : Nat) (data : List Byte)
    (size offset : Nat) (path : List Byte) (N : Nat) (hB : 0 < B) (hf : c.faults = []) :
    (size ≤ INT_MAX → 0 ≤ (query_write B c inode data size offset).1 →
      ∀ r ∈ (query_write B c inode data size offset).2.db.inodes, r.inode = inode →
        r.size =
          sum_datalength (query_write B c inode data size offset).2.db.data_blocks inode) ∧
    ((query_inode c path).1 = (inode : Int) →
      (query_truncate B c path N).1 = 0 ∧
      ∀ r ∈ (query_truncate B c path N).2.db.inodes, r.inode = inode → r.size = N) := by
  refine ⟨?_, ?_⟩
  · intro _ hw
    rcases query_write_cases B c inode data size offset hB hf with h | ⟨c1, hf1, he⟩
    · omega
    · obtain ⟨_, _, _, f4, f5⟩ := query_write_finish_eq c1 inode size hf1
      rw [he, f4, f5]
      intro r hr hi
      obtain ⟨a, _, ha⟩ := List.mem_map.mp hr
      by_cases hk : a.inode = inode
      · rw [if_pos hk] at ha
        subst ha
        rfl
      · rw [if_neg hk] at ha
        subst ha
        exact absurd hi hk
  · intro hres
    obtain ⟨t1, _, _, _, t5⟩ := query_truncate_eq B c path N inode hf hres
    refine ⟨t1, ?_⟩
    rw [t5]
    intro r hr hi
    obtain ⟨a, _, ha⟩ := List.mem_map.mp hr
    by_cases hk : a.inode = inode
    · rw [if_pos hk] at ha
      subst ha
      rfl
    · rw [if_neg hk] at ha
      subst ha
      exact absurd hi hk

set_option maxRecDepth 100000 in
/-- C5 as amended, at a concrete input: three bytes written at offset 6 of
`/a`, and `/a` truncated to 5 bytes. -/
theorem size_after_write_and_truncate_witness :
    (sample_conn [⟨1, 0, [1, 2], 2⟩]).faults = [] ∧
    0 ≤ (query_write 4 (sample_conn [⟨1, 0, [1, 2], 2⟩]) 1 [7, 8, 9] 3 6).1 ∧
    (query_inode (sample_conn [⟨1, 0, [1, 2], 2⟩]) [47, 97]).1 = ((1 : Nat) : Int) ∧
    (∀ r ∈ (query_write 4 (sample_conn [⟨1, 0, [1, 2], 2⟩]) 1 [7, 8, 9] 3 6).2.db.inodes,
      r.inode = 1 → r.size =
        sum_datalength (query_write 4 (sample_conn [⟨1, 0, [1, 2], 2⟩]) 1 [7, 8, 9] 3 6).2.db.data_blocks
          1) ∧
    (∀ r ∈ (query_truncate 4 (sample_conn [⟨1, 0, [1, 2], 2⟩]) [47, 97] 5).2.db.inodes,
      r.inode = 1 → r.size = 5) :=
  ⟨rfl, by decide, by decide,
    (size_after_write_and_truncate 4 (sample_conn [⟨1, 0, [1, 2], 2⟩]) 1 [7, 8, 9] 3 6 [47, 97] 5
      (by decide) rfl).1 (by decide) (by decide),
    ((size_after_write_and_truncate 4 (sample_conn [⟨1, 0, [1, 2], 2⟩]) 1 [7, 8, 9] 3 6 [47, 97]
      5 (by decide) rfl).2 (by decide)).2⟩

set_option maxRecDepth 100000 in
/-- C6 (the code departs from it).  On the new file `/a` (no block row, size
0), with blocks of 4096 bytes and no statement failing, `query_write` of the one
byte `X` at offset 8192 returns 1, creates the row of block 2 only and stores
the size 1, where the claim has `8192 + 1 = 8193`: the size is taken from
`SUM(datalength)`, to which the two blocks skipped by the offset add nothing.
A read of one byte at offset 8192 still finds the `X`, so the file holds a
byte at a position past its stored size; `query_truncate` to 8193 on the same
file stores the size 8193. -/
theorem size_after_sparse_write_counterexample :
    (query_write 4096 (sample_conn []) 1 [88] 1 8192).1 = 1 ∧
    (query_write 4096 (sample_conn []) 1 [88] 1 8192).2.db.data_blocks = [⟨1, 2, [88], 1⟩] ∧
    (query_write 4096 (sample_conn []) 1 [88] 1 8192).2.db.inodes.map
      (fun r => (r.inode, r.size)) = [(0, 0), (1, 1)] ∧
    (1 : Nat) ≠ 8192 + 1 ∧
    (query_read 4096 (query_write 4096 (sample_conn []) 1 [88] 1 8192).2 1 1 8192).2.1 = [88] ∧
    (query_truncate 4096 (sample_conn []) [47, 97] 8193).2.db.inodes.map
      (fun r => (r.inode, r.size)) = [(0, 0), (1, 8193)] := by
  decide

/-- C7: if every row of `data_blocks` satisfies
`datalength = length(data) <= DATA_BLOCK_SIZE` and no statement fails, then
after `query_write` of at most `INT_MAX` bytes (the range of the `int` it
returns) on whatever inode, which returns the count, every row satisfies it;
and after `query_truncate` of a path that resolves, which returns 0, every row
satisfies it. -/
theorem block_invariant_preserved (B : Nat) (c : Conn) (inode : Nat) (S : List Byte) (O : Nat)
    (path : List Byte) (N j : Nat) (hB : BlockSize B) (hf : c.faults = [])
    (hpk : PrimaryKey c.db.data_blocks) (hinv : ∀ r ∈ c.db.data_blocks, BlockInv B r) :
    (S.length ≤ INT_MAX →
      (query_write B c inode S S.length O).1 = S.length ∧
      ∀ r ∈ (query_write B c inode S S.length O).2.db.data_blocks, BlockInv B r) ∧
    ((query_inode c path).1 = (j : Int) →
      (query_truncate B c path N).1 = 0 ∧
      ∀ r ∈ (query_truncate B c path N).2.db.data_blocks, BlockInv B r) := by
  obtain ⟨w1, _, _, w4, _⟩ := query_write_eq B c inode S O hB hf hpk (fun r hr _ => hinv r hr)
  refine ⟨fun _ => ⟨w1, ?_⟩, fun hres => ?_⟩
  · rw [w4]
    intro r hr
    exact query_write_rows_inv B (fun _ => True) _ inode S O hB.1 trivial
      (fun r hr _ => hinv r hr) r hr trivial
  · obtain ⟨t1, _, _, t4, _⟩ := query_truncate_eq B c path N j hf hres
    refine ⟨t1, ?_⟩
    rw [t4]
    intro r hr
    rcases (truncate_rows_mem B N j _ r).mp hr with ⟨h1, _⟩ | ⟨_, _, h3, a, _, _, _, hd⟩
    · exact hinv r h1
    · have hlen : r.data.length = N % B := by rw [hd, RPAD_length]
      have := Nat.mod_lt N hB.1
      exact ⟨h3.trans hlen.symm, by omega⟩

set_option maxRecDepth 100000 in
/-- C7 at a concrete input: a write across three blocks of 4 bytes and a
truncate of `/a` to 5 bytes. -/
theorem block_invariant_preserved_witness :
    BlockSize 4 ∧ (sample_conn [⟨1, 0, [1, 2], 2⟩, ⟨1, 1, [3, 4, 5, 6], 4⟩]).faults = [] ∧
    (query_inode (sample_conn [⟨1, 0, [1, 2], 2⟩, ⟨1, 1, [3, 4, 5, 6], 4⟩]) [47, 97]).1 =
      ((1 : Nat) : Int) ∧
    (∀ r ∈ (query_write 4 (sample_conn [⟨1, 0, [1, 2], 2⟩, ⟨1, 1, [3, 4, 5, 6], 4⟩]) 1
        [7, 8, 9, 10, 11, 12] 6 3).2.db.data_blocks, BlockInv 4 r) ∧
    (∀ r ∈ (query_truncate 4 (sample_conn [⟨1, 0, [1, 2], 2⟩, ⟨1, 1, [3, 4, 5, 6], 4⟩])
        [47, 97] 5).2.db.data_blocks, BlockInv 4 r) :=
  ⟨⟨by decide, by decide⟩, rfl, by decide,
    ((block_invariant_preserved 4 (sample_conn [⟨1, 0, [1, 2], 2⟩, ⟨1, 1, [3, 4, 5, 6], 4⟩]) 1
      [7, 8, 9, 10, 11, 12] 3 [47, 97] 5 1 ⟨by decide, by decide⟩ rfl
      (by simp [PrimaryKey, sample_conn]) (by simp [sample_conn, BlockInv])).1 (by decide)).2,
    ((block_invariant_preserved 4 (sample_conn [⟨1, 0, [1, 2], 2⟩, ⟨1, 1, [3, 4, 5, 6], 4⟩]) 1
      [7, 8, 9, 10, 11, 12] 3 [47, 97] 5 1 ⟨by decide, by decide⟩ rfl
      (by simp [PrimaryKey, sample_conn]) (by simp [sample_conn, BlockInv])).2 (by decide)).2⟩

/-- C8: after `query_truncate(path, N)` on inode `i` in which no statement
fails, the call returns 0; no row of `i` has `seq > N / B`; the rows of `i`
with `seq < N / B` are those there were; a row with `seq = N / B` is there
exactly when there was one, holding the first `N mod B` bytes of its old data
filled up with zero bytes to length `N mod B`, with `datalength = N mod B`;
the size of `i` is `N`; the rows of other inodes are those there were, in
`data_blocks` and in `inodes`: the table `inodes` afterwards is the table before
with `size = N` in the rows of `i` and nothing else changed, and `tree` is as
it was. -/
theorem query_truncate_postcondition (B : Nat) (c : Conn) (path : List Byte) (N i : Nat)
    (hf : c.faults = []) (hres : (query_inode c path).1 = (i : Int)) :
    (query_truncate B c path N).1 = 0 ∧
    (∀ r ∈ (query_truncate B c path N).2.db.data_blocks, r.inode = i → r.seq ≤ N / B) ∧
    (∀ r : BlockRow, r.inode = i → r.seq < N / B →
      (r ∈ (query_truncate B c path N).2.db.data_blocks ↔ r ∈ c.db.data_blocks)) ∧
    (∀ r ∈ c.db.data_blocks, r.inode = i → r.seq = N / B →
      ({ r with data := r.data.take (N % B) ++ List.replicate (N % B - r.data.length) 0,
                datalength := N % B } : BlockRow) ∈
        (query_truncate B c path N).2.db.data_blocks) ∧
    (∀ r' ∈ (query_truncate B c path N).2.db.data_blocks, r'.inode = i → r'.seq = N / B →
      ∃ r ∈ c.db.data_blocks, r.inode = i ∧ r.seq = N / B ∧ r'.datalength = N % B ∧
        r'.data = r.data.take (N % B) ++ List.replicate (N % B - r.data.length) 0) ∧
    (∀ r ∈ (query_truncate B c path N).2.db.inodes, r.inode = i → r.size = N) ∧
    (∀ r : BlockRow, r.inode ≠ i →
      (r ∈ (query_truncate B c path N).2.db.data_blocks ↔ r ∈ c.db.data_blocks)) ∧
    (query_truncate B c path N).2.db.inodes =
      c.db.inodes.map (fun r => if r.inode = i then { r with size := N } else r) ∧
    (∀ r : InodeRow, r.inode ≠ i →
      (r ∈ (query_truncate B c path N).2.db.inodes ↔ r ∈ c.db.inodes)) ∧
    (query_truncate B c path N).2.db.tree = c.db.tree := by
  obtain ⟨t1, _, t3, t4, t5⟩ := query_truncate_eq B c path N i hf hres
  rw [t3, t4, t5]
  refine ⟨t1, ?_, ?_, ?_, ?_, ?_, ?_, rfl, ?_, rfl⟩
  · intro r hr hi
    rcases (truncate_rows_mem B N i _ r).mp hr with ⟨_, h2⟩ | ⟨_, h2, _⟩
    · by_contra hlt
      exact h2 ⟨hi, by omega⟩
    · omega
  · intro r hi hlt
    rw [truncate_rows_mem]
    constructor
    · rintro (⟨h1, _⟩ | ⟨_, h2, _⟩)
      · exact h1
      · omega
    · intro hr
      exact Or.inl ⟨hr, fun h => by omega⟩
  · intro r hr hi hs
    rw [truncate_rows_mem]
    exact Or.inr ⟨hi, hs, rfl, r, hr, hi, hs, rfl⟩
  · intro r' hr' hi hs
    rcases (truncate_rows_mem B N i _ r').mp hr' with ⟨_, h2⟩ | ⟨_, _, h3, a, ha, ha1, ha2, hd⟩
    · exact absurd ⟨hi, by omega⟩ h2
    · exact ⟨a, ha, ha1, ha2, h3, hd⟩
  · intro r hr hi
    obtain ⟨a, _, ha⟩ := List.mem_map.mp hr
    by_cases hk : a.inode = i
    · rw [if_pos hk] at ha
      subst ha
      rfl
    · rw [if_neg hk] at ha
      subst ha
      exact absurd hi hk
  · intro r hi
    rw [truncate_rows_mem]
    constructor
    · rintro (⟨h1, _⟩ | ⟨h2, _⟩)
      · exact h1
      · exact absurd h2 hi
    · intro hr
      exact Or.inl ⟨hr, fun h => hi h.1⟩
  · intro r hi
    rw [List.mem_map]
    constructor
    · rintro ⟨a, ha, hr⟩
      by_cases hk : a.inode = i
      · rw [if_pos hk] at hr
        subst hr
        exact absurd hk hi
      · rw [if_neg hk] at hr
        subst hr
        exact ha
    · intro hr
      exact ⟨r, hr, by rw [if_neg hi]⟩

set_option maxRecDepth 100000 in
/-- C8 at a concrete input: `/a` with three blocks of 4 bytes and a block of
another inode, truncated to 6 bytes. -/
theorem query_truncate_postcondition_witness :
    (sample_conn [⟨1, 0, [1, 2, 3, 4], 4⟩, ⟨1, 1, [5, 6, 7, 8], 4⟩, ⟨1, 2, [9], 1⟩,
      ⟨2, 3, [1], 1⟩]).faults = [] ∧
    (query_truncate 4 (sample_conn [⟨1, 0, [1, 2, 3, 4], 4⟩, ⟨1, 1, [5, 6, 7, 8], 4⟩,
      ⟨1, 2, [9], 1⟩, ⟨2, 3, [1], 1⟩]) [47, 97] 6).1 = 0 ∧
    (query_truncate 4 (sample_conn [⟨1, 0, [1, 2, 3, 4], 4⟩, ⟨1, 1, [5, 6, 7, 8], 4⟩,
      ⟨1, 2, [9], 1⟩, ⟨2, 3, [1], 1⟩]) [47, 97] 6).2.db.data_blocks =
      [⟨1, 0, [1, 2, 3, 4], 4⟩, ⟨1, 1, [5, 6], 2⟩, ⟨2, 3, [1], 1⟩] ∧
    (query_truncate 4 (sample_conn [⟨1, 0, [1, 2, 3, 4], 4⟩, ⟨1, 1, [5, 6, 7, 8], 4⟩,
      ⟨1, 2, [9], 1⟩, ⟨2, 3, [1], 1⟩]) [47, 97] 6).2.db.inodes =
      [sample_inode 0, { sample_inode 1 with size := 6 }] :=
  ⟨rfl,
    (query_truncate_postcondition 4 (sample_conn [⟨1, 0, [1, 2, 3, 4], 4⟩,
      ⟨1, 1, [5, 6, 7, 8], 4⟩, ⟨1, 2, [9], 1⟩, ⟨2, 3, [1], 1⟩]) [47, 97] 6 1 rfl
      (by decide)).1,
    by decide, by decide⟩

set_option maxRecDepth 100000 in
/-- C9 fails: truncating the empty file `/a` to 5000 bytes succeeds, and a
read of 1 byte at offset 5000 then returns 1, a zero byte: block 1 has no
row, and such a block reads as a hole. -/
theorem query_read_past_truncate_counterexample :
    (query_truncate 4096 (sample_conn []) [47, 97] 5000).1 = 0 ∧
    (query_read 4096 (query_truncate 4096 (sample_conn []) [47, 97] 5000).2 1 1 5000).1 = 1 ∧
    (query_read 4096 (query_truncate 4096 (sample_conn []) [47, 97] 5000).2 1 1 5000).2.1 =
      [0] := by
  decide

/-- C9 as amended: after a `query_truncate` to `N` in which no statement
fails, on an inode that had a row for block `N / B`, a `query_read` at an
offset `>= N` inside block `N / B` returns 0 bytes when the request ends
inside that block or the offset is beyond `N`. -/
theorem query_read_after_truncate (B : Nat) (c : Conn) (path : List Byte) (N i size offset : Nat)
    (hf : c.faults = []) (hpk : PrimaryKey c.db.data_blocks)
    (hres : (query_inode c path).1 = (i : Int))
    (hrow : ∃ r ∈ c.db.data_blocks, r.inode = i ∧ r.seq = N / B)
    (hge : N ≤ offset) (hblk : offset / B = N / B)
    (hin : offset % B + size < B ∨ N < offset) :
    (query_truncate B c path N).1 = 0 ∧
    (query_read B (query_truncate B c path N).2 i size offset).1 = 0 ∧
    (query_read B (query_truncate B c path N).2 i size offset).2.1 = [] := by
  obtain ⟨t1, t2, _, t4, _⟩ := query_truncate_eq B c path N i hf hres
  have hpk' : PrimaryKey (query_truncate B c path N).2.db.data_blocks := by
    rw [t4]; exact truncate_rows_pk B N i _ hpk
  obtain ⟨r0, hr0, hi0, hs0⟩ := hrow
  have hmem : ({ r0 with data := RPAD r0.data (N % B), datalength := N % B } : BlockRow) ∈
      (query_truncate B c path N).2.db.data_blocks := by
    rw [t4, truncate_rows_mem]
    exact Or.inr ⟨hi0, hs0, rfl, r0, hr0, hi0, hs0, rfl⟩
  have hblock := (block_at_eq_some hpk' i (N / B) _).mpr ⟨hmem, hi0, hs0⟩
  obtain ⟨q1, q2⟩ := query_read_eq B (query_truncate B c path N).2 i size offset t2 hpk'
  have hsf : (fill_data_blocks_info B size offset).seq_first = N / B := hblk
  have hof : (fill_data_blocks_info B size offset).offset_first = offset % B := rfl
  have hmod : N % B ≤ offset % B := by
    have h1 := Nat.div_add_mod N B
    have h2 := Nat.div_add_mod offset B
    rw [hblk] at h2
    omega
  have hn : (fill_data_blocks_info B size offset).seq_last + 1 -
      (fill_data_blocks_info B size offset).seq_first =
      ((fill_data_blocks_info B size offset).seq_last -
        (fill_data_blocks_info B size offset).seq_first) + 1 := by
    have : (fill_data_blocks_info B size offset).seq_first ≤
        (fill_data_blocks_info B size offset).seq_last := by
      simp [fill_data_blocks_info]
    omega
  have hrd : read_blocks B (fill_data_blocks_info B size offset)
      (block_at (query_truncate B c path N).2.db.data_blocks i)
      ((fill_data_blocks_info B size offset).seq_last + 1 -
        (fill_data_blocks_info B size offset).seq_first)
      (fill_data_blocks_info B size offset).seq_first [] 0 = ([], 0) := by
    rw [hn, read_blocks, hsf, hblock]
    rcases Nat.eq_or_lt_of_le hmod with heq | hlt
    · have hlt2 : offset % B + size < B := by
        rcases hin with h | h
        · exact h
        · exfalso
          have h1 := Nat.div_add_mod N B
          have h2 := Nat.div_add_mod offset B
          rw [hblk] at h2
          omega
      have hk : (offset % B + size) / B = 0 := Nat.div_eq_of_lt hlt2
      have hsl : (fill_data_blocks_info B size offset).seq_last = N / B := by
        simp only [fill_data_blocks_info, hk, Nat.add_zero]
        exact hblk
      simp only [query_read_block, hit_len, hit_data, hsf, hof, hsl, heq, Nat.lt_irrefl,
        and_false, if_false, if_true, Nat.sub_self, Nat.zero_min, List.take_zero,
        List.append_nil, Nat.add_zero, read_blocks]
    · simp only [query_read_block, hit_len, hsf, hof, hlt, and_self, if_true]
  rw [hrd] at q1 q2
  exact ⟨t1, by simpa using q1, q2⟩

set_option maxRecDepth 100000 in
/-- C9 as amended, at the input of the spec's scenario with blocks of 4 bytes:
`/a` of 10 bytes truncated to 5, then read at offset 5. -/
theorem query_read_after_truncate_witness :
    (query_inode (sample_conn [⟨1, 0, [65, 65, 65, 65], 4⟩, ⟨1, 1, [65, 65, 65, 65], 4⟩,
      ⟨1, 2, [65, 65], 2⟩]) [47, 97]).1 = ((1 : Nat) : Int) ∧
    (5 : Nat) % 4 + 1 < 4 ∧
    (query_read 4 (query_truncate 4 (sample_conn [⟨1, 0, [65, 65, 65, 65], 4⟩,
      ⟨1, 1, [65, 65, 65, 65], 4⟩, ⟨1, 2, [65, 65], 2⟩]) [47, 97] 5).2 1 1 5).1 = 0 :=
  ⟨by decide, by decide,
    (query_read_after_truncate 4 (sample_conn [⟨1, 0, [65, 65, 65, 65], 4⟩,
      ⟨1, 1, [65, 65, 65, 65], 4⟩, ⟨1, 2, [65, 65], 2⟩]) [47, 97] 5 1 1 5 rfl
      (by simp [PrimaryKey, sample_conn]) (by decide)
      ⟨⟨1, 1, [65, 65, 65, 65], 4⟩, by simp [sample_conn], rfl, by decide⟩
      (by decide) (by decide) (Or.inl (by decide))).2.1⟩

theorem c_int_natCast (n : Nat) (h : n ≤ INT_MAX) : c_int (n : Int) = n := by
  have : INT_MAX = 2147483647 := rfl
  unfold c_int
  rw [Int.emod_eq_of_lt (by omega) (by omega)]
  omega

/-- C10: for `size <= INT_MAX`, when no statement fails and `query_write`
returns no error, the `int` it returns is exactly `size`, and the lengths it
passes to `write_one_block` (`length_first`, `DATA_BLOCK_SIZE` for each `seq`
strictly between `seq_first` and `seq_last`, `length_last` when
`seq_first != seq_last`) sum to `size`. -/
theorem query_write_returns_size (B : Nat) (c : Conn) (inode : Nat) (data : List Byte)
    (size offset : Nat) (hB : 0 < B) (hsize : size ≤ INT_MAX) (hf : c.faults = [])
    (hok : 0 ≤ (query_write B c inode data size offset).1) :
    c_int (query_write B c inode data size offset).1 = size ∧
    (fill_data_blocks_info B size offset).length_first +
      (if (fill_data_blocks_info B size offset).seq_first ≠
          (fill_data_blocks_info B size offset).seq_last then
        ((fill_data_blocks_info B size offset).seq_last -
          ((fill_data_blocks_info B size offset).seq_first + 1)) * B +
        (fill_data_blocks_info B size offset).length_last
      else 0) = size := by
  obtain ⟨_, _, _, _, a5, a6⟩ := fill_data_blocks_info_lengths B size offset hB
  constructor
  · rcases query_write_cases B c inode data size offset hB hf with h | ⟨c1, hf1, he⟩
    · omega
    · rw [he, (query_write_finish_eq c1 inode size hf1).1]
      exact c_int_natCast size hsize
  · split
    · rename_i h
      have := a6 h
      omega
    · rename_i h
      have := a5 (not_not.mp h)
      omega

/-- C10 at a concrete input: 10 bytes at offset 3 with blocks of 4 bytes. -/
theorem query_write_returns_size_witness :
    0 < 4 ∧ 10 ≤ INT_MAX ∧ (sample_conn []).faults = [] ∧
    0 ≤ (query_write 4 (sample_conn []) 1 [1, 2, 3, 4, 5, 6, 7, 8, 9, 10] 10 3).1 ∧
    c_int (query_write 4 (sample_conn []) 1 [1, 2, 3, 4, 5, 6, 7, 8, 9, 10] 10 3).1 =
      ((10 : Nat) : Int) :=
  ⟨by decide, by decide, rfl, by decide,
    (query_write_returns_size 4 (sample_conn []) 1 [1, 2, 3, 4, 5, 6, 7, 8, 9, 10] 10 3
      (by decide) (by decide) rfl (by decide)).1⟩

/-! ## Failures inside the transactions (C11, C12) -/

set_option maxRecDepth 100000 in
/-- C11 at a failing first block.  One byte is written at offset 0 of the empty
file of inode 1, block size 4096, and the fourth statement fails: `BEGIN`, the
`SELECT` of the block size and the `INSERT` of the block row succeed, the
`UPDATE` of `data` does not.  `query_write` returns `-EIO` after these four
statements: no `ROLLBACK` goes out, the transaction stays open and the row
that was inserted is still in the table.  A failure in the last block (the
eighth statement of a write of five bytes with block size 4) does end with
`ROLLBACK`, which is the last statement sent, and leaves no row. -/
theorem query_write_first_block_no_rollback :
    (query_write 4096 ((sample_conn []).with_faults [false, false, false, true]) 1 [88] 1 0).1
      = - EIO ∧
    (query_write 4096 ((sample_conn []).with_faults [false, false, false, true]) 1 [88] 1 0).2.log
      = [.BEGIN, .select_datalength 1 0, .insert_block 1 0, .update_data [.param] [88] 1 0] ∧
    Stmt.ROLLBACK ∉
      (query_write 4096 ((sample_conn []).with_faults [false, false, false, true]) 1 [88] 1 0).2.log ∧
    (query_write 4096 ((sample_conn []).with_faults [false, false, false, true]) 1 [88] 1 0).2.txn
      = some (sample_conn []).db ∧
    (query_write 4096 ((sample_conn []).with_faults [false, false, false, true]) 1 [88] 1
      0).2.db.data_blocks = [⟨1, 0, [], 0⟩] ∧
    (query_write 4 ((sample_conn []).with_faults
      [false, false, false, false, false, false, false, true]) 1 [1, 2, 3, 4, 5] 5 0).1 = - EIO ∧
    (query_write 4 ((sample_conn []).with_faults
      [false, false, false, false, false, false, false, true]) 1 [1, 2, 3, 4, 5] 5 0).2.log.getLast?
      = some .ROLLBACK ∧
    (query_write 4 ((sample_conn []).with_faults
      [false, false, false, false, false, false, false, true]) 1 [1, 2, 3, 4, 5] 5
      0).2.db.data_blocks = [] := by
  decide

set_option maxRecDepth 100000 in
/-- C12 at a failing `DELETE`.  The file `/a` holds the three bytes `abc`; it is
truncated to one byte and the third statement (the lookup and `BEGIN` come
first) fails.  `query_truncate` sends `ROLLBACK` and returns what `ROLLBACK`
returned, which is 0, so that `mysqlfs_truncate` returns 0 as well, while the
file still has its three bytes and its size 3.  When the `ROLLBACK` fails too,
`query_truncate` returns 1, which is not negative, and `mysqlfs_truncate`
returns 0 again. -/
theorem mysqlfs_truncate_reports_success_on_failure :
    (query_truncate 4096 ((query_write 4096 (sample_conn []) 1 [97, 98, 99] 3 0).2.with_faults
      [false, false, true]) (bytes "/a") 1).1 = 0 ∧
    (query_truncate 4096 ((query_write 4096 (sample_conn []) 1 [97, 98, 99] 3 0).2.with_faults
      [false, false, true]) (bytes "/a") 1).2.log.getLast? = some .ROLLBACK ∧
    (mysqlfs_truncate 4096 (sample_pool ((query_write 4096 (sample_conn []) 1 [97, 98, 99] 3
      0).2.with_faults [false, false, true])) (bytes "/a") 1).1 = 0 ∧
    (mysqlfs_truncate 4096 (sample_pool ((query_write 4096 (sample_conn []) 1 [97, 98, 99] 3
      0).2.with_faults [false, false, true])) (bytes "/a") 1).2.conn.db.data_blocks
      = [⟨1, 0, [97, 98, 99], 3⟩] ∧
    (mysqlfs_truncate 4096 (sample_pool ((query_write 4096 (sample_conn []) 1 [97, 98, 99] 3
      0).2.with_faults [false, false, true])) (bytes "/a") 1).2.conn.db.inodes.map
      (fun r => (r.inode, r.size)) = [(0, 0), (1, 3)] ∧
    (query_truncate 4096 ((query_write 4096 (sample_conn []) 1 [97, 98, 99] 3 0).2.with_faults
      [false, false, true, true]) (bytes "/a") 1).1 = 1 ∧
    (mysqlfs_truncate 4096 (sample_pool ((query_write 4096 (sample_conn []) 1 [97, 98, 99] 3
      0).2.with_faults [false, false, true, true])) (bytes "/a") 1).1 = 0 := by
  decide

/-! ## The lookup statement (C13) -/

/-- C13 at a path of 159 components: for `/a/a/.../a` with 159 times `/a` (318
bytes) and the link count asked for, as `query_getattr` does, the statement
that `query_inode_full` formats is 10242 bytes long.  The buffer `sql` takes
`SQL_MAX - 1 = 10239` of them: the text handed to `mysql_query` ends in
`AND t159.name = ` and lacks the three bytes `'a'`, the value of the 159th
name condition, so that it is not the lookup of the path but a statement cut
off.  The same path with 158 components gives 10176 bytes, which fit. -/
theorem query_inode_full_sql_cut :
    (query_inode_full_format ((List.replicate 159 (bytes "/a")).flatten) true).length = 10242 ∧
    (query_inode_full_sql ((List.replicate 159 (bytes "/a")).flatten) true).length = 10239 ∧
    query_inode_full_sql ((List.replicate 159 (bytes "/a")).flatten) true ++ bytes "'a'"
      = query_inode_full_format ((List.replicate 159 (bytes "/a")).flatten) true ∧
    query_inode_full_stmt ((List.replicate 159 (bytes "/a")).flatten) true
      = .cut_off (query_inode_full_sql ((List.replicate 159 (bytes "/a")).flatten) true) ∧
    (query_inode_full_format ((List.replicate 158 (bytes "/a")).flatten) true).length = 10176 := by
  have hlen := query_inode_full_format_length_159
  obtain ⟨ys, hys⟩ := query_inode_full_format_last_159
  have hb : (bytes "'a'").length = 3 := by decide
  have hyl : ys.length = 10239 := by
    have := congrArg List.length hys
    rw [hlen, List.length_append, hb] at this
    omega
  refine ⟨hlen, ?_, ?_, ?_, query_inode_full_format_length_158⟩
  · unfold query_inode_full_sql snprintf SQL_MAX
    rw [List.length_take, hlen]
    rfl
  · unfold query_inode_full_sql snprintf SQL_MAX
    exact take_append_of_length _ ys _ 10239 hys hyl
  · unfold query_inode_full_stmt SQL_MAX
    rw [hlen]
    rfl

/-! ## Unlink (C14, C15) -/

set_option maxRecDepth 100000 in
/-- The one entry that the statement of C14 below leaves out, the root, which
is the mount point and is not passed to the callback by the host: `/`
resolves to the root entry, whose inode 0 is the parent of the entry `a`, and
`mysqlfs_unlink("/")` would return 0.  The lookup gives the parent of the root
as -1, no entry has that parent, so that the count of `query_rmdirentry` is 0.
(No row is deleted: the tables are as before.) -/
theorem mysqlfs_unlink_mount_point :
    (query_inode_full (sample_conn []) (bytes "/") true).2.1
      = some { name := bytes "/", inode := 0, parent := -1, nlinks := 1 } ∧
    (⟨1, some 0, bytes "a"⟩ : TreeRow) ∈ (sample_conn []).db.tree ∧
    (mysqlfs_unlink (sample_pool (sample_conn [])) (bytes "/")).1 = 0 ∧
    (mysqlfs_unlink (sample_pool (sample_conn [])) (bytes "/")).2.conn.db = (sample_conn []).db := by
  decide

/-- C14: with a session at hand and no statement failing, for a path that
resolves to an entry `e` that has a parent directory (every entry that the host
can ask to remove: the one entry without a parent is the root, the mount
point) and whose inode is the parent of some tree row, `mysqlfs_unlink`
returns `-ENOTEMPTY` and leaves all three tables as they were. -/
theorem mysqlfs_unlink_not_empty (p : Pool) (path : List Byte) (e : inode_full)
    (hroom : p.borrowed < p.ceiling) (hf : p.conn.faults = [])
    (hres : (query_inode_full p.conn path true).2.1 = some e)
    (hpar : 0 ≤ e.parent)
    (hchild : ∃ t ∈ p.conn.db.tree, t.parent_eq e.inode = true) :
    (mysqlfs_unlink p path).1 = - ENOTEMPTY ∧
    (mysqlfs_unlink p path).2.conn.db = p.conn.db := by
  obtain ⟨row, hrow, -, hname, hinode, hparent, -, hq⟩ := query_inode_full_some _ _ _ _ hres
  obtain ⟨child, hchild, hcp⟩ := hchild
  have hrp : row.parent_eq e.parent = true := by
    unfold TreeRow.parent_eq
    cases hp : row.parent with
    | none => rw [hp] at hparent; simp only [] at hparent; omega
    | some q => rw [hp] at hparent; simp only [] at hparent; simp [hparent]
  have hcp2 : child.parent = some row.inode := by
    unfold TreeRow.parent_eq at hcp
    cases hp : child.parent with
    | none => rw [hp] at hcp; simp at hcp
    | some q =>
      rw [hp] at hcp
      simp only [decide_eq_true_eq] at hcp
      rw [hinode] at hcp
      have : q = row.inode := by exact_mod_cast hcp
      rw [this]
  have hcount : count_children p.conn.db e.name e.parent ≠ 0 :=
    count_children_ne_zero _ row child _ _ hrow hname.symm hrp hchild hcp2
  have hne : (- ENOTEMPTY : Int) < 0 := by decide
  unfold mysqlfs_unlink
  rw [pool_get_room hroom]
  simp only [hq, lt_self_iff_false, if_false]
  rw [query_rmdirentry_not_empty (by simp [hf]) _ _ (by simpa using hcount)]
  simp only [hne, if_true, pool_put, Conn.sent_db, and_self]

set_option maxRecDepth 100000 in
/-- C14 at the directory `/d` that holds the file `f`. -/
theorem mysqlfs_unlink_not_empty_witness :
    (query_inode_full ((sample_conn []).with_tree
        [⟨0, none, bytes "/"⟩, ⟨1, some 0, bytes "d"⟩, ⟨2, some 1, bytes "f"⟩]) (bytes "/d")
      true).2.1 = some { name := bytes "d", inode := 1, parent := 0, nlinks := 1 } ∧
    (mysqlfs_unlink (sample_pool ((sample_conn []).with_tree
        [⟨0, none, bytes "/"⟩, ⟨1, some 0, bytes "d"⟩, ⟨2, some 1, bytes "f"⟩]))
      (bytes "/d")).1 = - ENOTEMPTY ∧
    (mysqlfs_unlink (sample_pool ((sample_conn []).with_tree
        [⟨0, none, bytes "/"⟩, ⟨1, some 0, bytes "d"⟩, ⟨2, some 1, bytes "f"⟩]))
      (bytes "/d")).2.conn.db = ((sample_conn []).with_tree
        [⟨0, none, bytes "/"⟩, ⟨1, some 0, bytes "d"⟩, ⟨2, some 1, bytes "f"⟩]).db :=
  ⟨by decide,
    mysqlfs_unlink_not_empty (sample_pool ((sample_conn []).with_tree
        [⟨0, none, bytes "/"⟩, ⟨1, some 0, bytes "d"⟩, ⟨2, some 1, bytes "f"⟩])) (bytes "/d")
      { name := bytes "d", inode := 1, parent := 0, nlinks := 1 }
      (by decide) (by decide) (by decide) (by decide) (by decide)⟩

/-- C15.  With a session at hand and no statement failing, let the path
resolve to the last entry (`nlinks = 1`) of an inode, an entry other than the
root with no row below it, and let every inode row of that inode have
`inuse > 0`.  Then `mysqlfs_unlink` returns 0, removes the entry and leaves
the inode rows in place with `deleted = 1`; the `mysqlfs_release` that follows
on the inode returns 0, removes the rows whose `inuse` was 1, and leaves the
others with `inuse` lowered by one.  And whatever the pool, the path, the
handle and the faults: the inode rows that `mysqlfs_release` or
`mysqlfs_unlink` takes away are rows with `inuse = 0` and `deleted = 1` in
the table `X` at the time of the purge, which has the rows of the table
before, with the use count lowered, or with `deleted` set in some rows. -/
theorem purge_rule (p : Pool) (path : List Byte) (e : inode_full)
    (hroom : p.borrowed < p.ceiling) (hf : p.conn.faults = [])
    (hres : (query_inode_full p.conn path true).2.1 = some e)
    (hpar : 0 ≤ e.parent) (hlast : e.nlinks = 1)
    (hempty : count_children p.conn.db e.name e.parent = 0)
    (hinuse : ∀ r ∈ p.conn.db.inodes, (r.inode : Int) = e.inode → 0 < r.inuse) :
    (mysqlfs_unlink p path).1 = 0 ∧
    (mysqlfs_unlink p path).2.conn.db.tree =
      p.conn.db.tree.filter (fun t => ¬ (t.name = e.name ∧ t.parent_eq e.parent)) ∧
    (mysqlfs_unlink p path).2.conn.db.inodes =
      p.conn.db.inodes.map (fun r =>
        if (r.inode : Int) = e.inode then { r with deleted := true } else r) ∧
    (mysqlfs_release (mysqlfs_unlink p path).2 e.inode).1 = 0 ∧
    (mysqlfs_release (mysqlfs_unlink p path).2 e.inode).2.conn.db.inodes =
      (p.conn.db.inodes.filter (fun r => ¬ ((r.inode : Int) = e.inode ∧ r.inuse = 1))).map
        (fun r => if (r.inode : Int) = e.inode then
          { r with inuse := r.inuse - 1, deleted := true } else r) ∧
    (∀ (q : Pool) (fh : Int), ∃ X,
      (X = q.conn.db.inodes ∨ X = q.conn.db.inodes.map (fun r =>
        if (r.inode : Int) = fh then { r with inuse := r.inuse + -1 } else r)) ∧
      ((mysqlfs_release q fh).2.conn.db.inodes = X ∨
       (mysqlfs_release q fh).2.conn.db.inodes = X.filter
        (fun r => ¬ ((r.inode : Int) = fh ∧ r.inuse = 0 ∧ r.deleted = true)))) ∧
    (∀ (q : Pool) (path2 : List Byte), ∃ (X : List InodeRow) (i : Int) (P : InodeRow → Bool),
      X = q.conn.db.inodes.map (fun r => if P r = true then { r with deleted := true } else r) ∧
      ((mysqlfs_unlink q path2).2.conn.db.inodes = X ∨
       (mysqlfs_unlink q path2).2.conn.db.inodes = X.filter
        (fun r => ¬ ((r.inode : Int) = i ∧ r.inuse = 0 ∧ r.deleted = true)))) := by
  obtain ⟨u1, u2, u3, u4, u5, u6⟩ :=
    mysqlfs_unlink_last_entry p path e hroom hf hres hpar hlast hempty
  have hkeep : (p.conn.db.inodes.map (fun r =>
        if (r.inode : Int) = e.inode then { r with deleted := true } else r)).filter
        (fun r => ¬ ((r.inode : Int) = e.inode ∧ r.inuse = 0 ∧ r.deleted = true))
      = p.conn.db.inodes.map (fun r =>
        if (r.inode : Int) = e.inode then { r with deleted := true } else r) := by
    rw [List.filter_eq_self]
    intro r hr
    rw [List.mem_map] at hr
    obtain ⟨r0, hr0, rfl⟩ := hr
    by_cases hi : (r0.inode : Int) = e.inode
    · have := hinuse r0 hr0 hi
      have hne : ¬ (r0.inuse = 0) := by omega
      simp [hi, hne]
    · simp [hi]
  rw [hkeep] at u6
  have hroom1 : (mysqlfs_unlink p path).2.borrowed < (mysqlfs_unlink p path).2.ceiling := by
    rw [u2, u3]; exact hroom
  obtain ⟨v1, v2⟩ := mysqlfs_release_eq (mysqlfs_unlink p path).2 e.inode hroom1 u4
  refine ⟨u1, u5, u6, v1, ?_, mysqlfs_release_purges, mysqlfs_unlink_purges⟩
  rw [v2, u6, List.map_map, List.filter_map]
  congr 1
  · funext r
    by_cases hi : (r.inode : Int) = e.inode
    · simp [hi, Int.sub_eq_add_neg]
    · simp [hi]
  · apply List.filter_congr
    intro r _
    by_cases hi : (r.inode : Int) = e.inode
    · simp [hi]
      constructor <;> intro h <;> omega
    · simp [hi]

set_option maxRecDepth 100000 in
/-- C15 at the file `/a` after one `mysqlfs_open`: its inode row has `inuse = 1`;
the unlink leaves the row with `deleted = 1`, the release removes it. -/
theorem purge_rule_witness :
    (mysqlfs_open (sample_pool (sample_conn [])) (bytes "/a")).2.2.conn.db.inodes.map
      (fun r => (r.inode, r.inuse, r.deleted)) = [(0, 0, false), (1, 1, false)] ∧
    (query_inode_full (mysqlfs_open (sample_pool (sample_conn [])) (bytes "/a")).2.2.conn
      (bytes "/a") true).2.1 = some { name := bytes "a", inode := 1, parent := 0, nlinks := 1 } ∧
    (mysqlfs_unlink (mysqlfs_open (sample_pool (sample_conn [])) (bytes "/a")).2.2
      (bytes "/a")).1 = 0 ∧
    (mysqlfs_unlink (mysqlfs_open (sample_pool (sample_conn [])) (bytes "/a")).2.2
      (bytes "/a")).2.conn.db.inodes.map (fun r => (r.inode, r.inuse, r.deleted))
      = [(0, 0, false), (1, 1, true)] ∧
    (mysqlfs_release (mysqlfs_unlink (mysqlfs_open (sample_pool (sample_conn [])) (bytes "/a")).2.2
      (bytes "/a")).2 1).2.conn.db.inodes.map (fun r => (r.inode, r.inuse, r.deleted))
      = [(0, 0, false)] :=
  ⟨by decide, by decide,
    (purge_rule (mysqlfs_open (sample_pool (sample_conn [])) (bytes "/a")).2.2 (bytes "/a")
      { name := bytes "a", inode := 1, parent := 0, nlinks := 1 }
      (by decide) (by decide) (by decide) (by decide) (by decide) (by decide) (by decide)).1,
    by decide, by decide⟩

/-! ## Rename and link (C16, C17) -/

set_option maxRecDepth 100000 in
/-- C16 at a lookup that fails.  The tree holds `/a` (inode 1) and no `/b`;
`mysqlfs_rename("/a", "/b")` is called and the second statement, the lookup of
`/a` inside `query_rename`, fails at the server (the first is the lookup of
`mysqlfs_unlink("/b")`).  `query_rename` takes the `-EIO` of that lookup for
the inode, its `UPDATE ... WHERE inode=-5 ...` matches no row and succeeds,
and `mysqlfs_rename` returns 0: afterwards `/a` still resolves to inode 1 and
`/b` to nothing.  Without any fault, `mysqlfs_rename("/a", "/a/x")` returns 0
as well and makes the entry its own child, so that `/a/x` does not resolve. -/
theorem mysqlfs_rename_lookup_failure :
    (query_inode (sample_conn []) (bytes "/a")).1 = 1 ∧
    (mysqlfs_rename (sample_pool ((sample_conn []).with_faults [false, true]))
      (bytes "/a") (bytes "/b")).1 = 0 ∧
    (mysqlfs_rename (sample_pool ((sample_conn []).with_faults [false, true]))
      (bytes "/a") (bytes "/b")).2.conn.faults = [] ∧
    (mysqlfs_rename (sample_pool ((sample_conn []).with_faults [false, true]))
      (bytes "/a") (bytes "/b")).2.conn.log.getLast?
      = some (.update_tree (bytes "b") 0 (- EIO) (bytes "a") 0) ∧
    (query_inode (mysqlfs_rename (sample_pool ((sample_conn []).with_faults [false, true]))
      (bytes "/a") (bytes "/b")).2.conn (bytes "/a")).1 = 1 ∧
    (query_inode (mysqlfs_rename (sample_pool ((sample_conn []).with_faults [false, true]))
      (bytes "/a") (bytes "/b")).2.conn (bytes "/b")).1 = - ENOENT ∧
    (mysqlfs_rename (sample_pool (sample_conn [])) (bytes "/a") (bytes "/a/x")).1 = 0 ∧
    (mysqlfs_rename (sample_pool (sample_conn [])) (bytes "/a") (bytes "/a/x")).2.conn.db.tree
      = [⟨0, none, bytes "/"⟩, ⟨1, some 1, bytes "x"⟩] ∧
    (query_inode (mysqlfs_rename (sample_pool (sample_conn [])) (bytes "/a")
      (bytes "/a/x")).2.conn (bytes "/a/x")).1 = - ENOENT := by
  decide

set_option maxRecDepth 100000 in
/-- C17 at a name with a quote.  `mysqlfs_link("/a", "/it's")` returns 0 and
inserts one tree row with parent 0 and inode 1, whose name is the five bytes
`it\'s`: the base name `it's` is escaped in `mysqlfs_link` and a second time
in `query_mkdirentry`, and the server takes one level of escaping away.
`query_mkdirentry` called with the base name itself stores `it's`. -/
theorem mysqlfs_link_escapes_twice :
    basename (bytes "/it's") = [105, 116, 39, 115] ∧
    (mysqlfs_link (sample_pool (sample_conn [])) (bytes "/a") (bytes "/it's")).1 = 0 ∧
    (mysqlfs_link (sample_pool (sample_conn [])) (bytes "/a") (bytes "/it's")).2.conn.db.tree
      = [⟨0, none, bytes "/"⟩, ⟨1, some 0, bytes "a"⟩, ⟨1, some 0, [105, 116, 92, 39, 115]⟩] ∧
    (mysqlfs_link (sample_pool (sample_conn [])) (bytes "/a") (bytes "/it's")).2.conn.log.getLast?
      = some (.insert_tree [105, 116, 92, 92, 92, 39, 115] 0 1) ∧
    (query_mkdirentry (sample_conn []) 1 (bytes "it's") 0).2.db.tree
      = [⟨0, none, bytes "/"⟩, ⟨1, some 0, bytes "a"⟩, ⟨1, some 0, [105, 116, 39, 115]⟩] := by
  decide

/-! ## Modes and sizes (C18, C19, C20) -/

set_option maxRecDepth 100000 in
/-- C18 at a stored mode with the set-user-ID bit.  For the stored mode
`0104755` and the requested mode `0100755`, the statement of `query_chmod`
stores `0104755` again, where `(s AND S_IFMT) OR (m AND NOT S_IFMT)` is
`0100755`: the shift by 9 keeps the bits `07000` of the stored mode along
with the file type. -/
theorem query_chmod_keeps_setuid :
    query_chmod_sql 0o104755 0o100755 = 0o104755 ∧
    (0o104755 &&& S_IFMT) ||| (0o100755 &&& BIT_NOT S_IFMT) = 0o100755 ∧
    (query_chmod ((sample_conn []).with_inodes
      [sample_inode 0, { sample_inode 1 with mode := 0o104755 }]) 1 0o100755).1 = 0 ∧
    (query_chmod ((sample_conn []).with_inodes
      [sample_inode 0, { sample_inode 1 with mode := 0o104755 }]) 1 0o100755).2.db.inodes.map
      (fun r => r.mode) = [0o100644, 0o104755] := by
  decide

set_option maxRecDepth 100000 in
/-- C19 at the same modes.  The file `/a` has the mode `0100644`; after
`mysqlfs_chmod("/a", 0104755)`, which returns 0 and stores `0104755`, the call
`mysqlfs_chmod("/a", 0100755)` returns 0 and `mysqlfs_getattr` gives
`st_mode = 0104755`, whose low twelve bits are `04755` and not the `0755` of
the requested mode. -/
theorem mysqlfs_chmod_getattr_setuid :
    (mysqlfs_chmod (sample_pool (sample_conn [])) (bytes "/a") 0o104755).1 = 0 ∧
    (mysqlfs_getattr 4096 (mysqlfs_chmod (sample_pool (sample_conn [])) (bytes "/a")
      0o104755).2 (bytes "/a")).2.1.st_mode = 0o104755 ∧
    (mysqlfs_chmod (mysqlfs_chmod (sample_pool (sample_conn [])) (bytes "/a") 0o104755).2
      (bytes "/a") 0o100755).1 = 0 ∧
    (mysqlfs_getattr 4096 (mysqlfs_chmod (mysqlfs_chmod (sample_pool (sample_conn []))
      (bytes "/a") 0o104755).2 (bytes "/a") 0o100755).2 (bytes "/a")).1 = 0 ∧
    (mysqlfs_getattr 4096 (mysqlfs_chmod (mysqlfs_chmod (sample_pool (sample_conn []))
      (bytes "/a") 0o104755).2 (bytes "/a") 0o100755).2 (bytes "/a")).2.1.st_mode = 0o104755 ∧
    0o104755 &&& 0o7777 = 0o4755 ∧ 0o100755 &&& 0o7777 = 0o755 := by
  decide

set_option maxRecDepth 100000 in
/-- C20 at a file of one byte.  After one byte is written to `/a` (block size
4096) the stored size is 1; `mysqlfs_getattr` returns 0 with `st_size = 1` and
`st_blocks = 0`, where `(1 + 511) / 512 = 1`: the division `st_size / 512` is
done on integers, and `ceill` gets a whole number.  For a file of 513 bytes
`st_blocks` is 1, not 2. -/
theorem mysqlfs_getattr_blocks_rounded_down :
    (mysqlfs_getattr 4096 (sample_pool (query_write 4096 (sample_conn []) 1 [88] 1 0).2)
      (bytes "/a")).1 = 0 ∧
    (mysqlfs_getattr 4096 (sample_pool (query_write 4096 (sample_conn []) 1 [88] 1 0).2)
      (bytes "/a")).2.1.st_size = 1 ∧
    (mysqlfs_getattr 4096 (sample_pool (query_write 4096 (sample_conn []) 1 [88] 1 0).2)
      (bytes "/a")).2.1.st_blocks = 0 ∧
    (1 + 511) / 512 = 1 ∧
    (mysqlfs_getattr 4096 (sample_pool (query_write 4096 (sample_conn []) 1
      (List.replicate 513 88) 513 0).2) (bytes "/a")).2.1.st_size = 513 ∧
    (mysqlfs_getattr 4096 (sample_pool (query_write 4096 (sample_conn []) 1
      (List.replicate 513 88) 513 0).2) (bytes "/a")).2.1.st_blocks = 1 ∧
    (513 + 511) / 512 = 2 := by
  decide

/-! ## Owner, pool balance, directory listing (C21, C23, C24) -/

set_option maxRecDepth 100000 in
/-- C21 at inode 1.  With `uid = (uid_t)-1` and `gid = (gid_t)-1` the text that
`query_chown` builds is `UPDATE inodes SET WHERE inode=1`; it is sent (the log
holds the one statement), the server refuses it, and `query_chown` returns
`-EIO`, not 0.  The tables are left as they were. -/
theorem query_chown_no_change_fails :
    query_chown_sql 1 UID_NONE UID_NONE = bytes "UPDATE inodes SET WHERE inode=1" ∧
    (query_chown (sample_conn []) 1 UID_NONE UID_NONE).1 = - EIO ∧
    (query_chown (sample_conn []) 1 UID_NONE UID_NONE).2.log = [.update_owner none none 1] ∧
    (query_chown (sample_conn []) 1 UID_NONE UID_NONE).2.db = (sample_conn []).db := by
  decide

set_option maxRecDepth 100000 in
/-- C23 at a file with two names.  The inode 1 has the entries `/a` and `/b`;
`mysqlfs_unlink("/a")` removes the entry `/a` and returns 0 for `nlinks > 1`
without `pool_put`: of a pool with no session out, one session is out
afterwards.  (`mysqlfs_getattr` on `/a` leaves none out.) -/
theorem mysqlfs_unlink_keeps_session :
    (mysqlfs_unlink (sample_pool ((sample_conn []).with_tree
      [⟨0, none, bytes "/"⟩, ⟨1, some 0, bytes "a"⟩, ⟨1, some 0, bytes "b"⟩])) (bytes "/a")).1 = 0 ∧
    (mysqlfs_unlink (sample_pool ((sample_conn []).with_tree
      [⟨0, none, bytes "/"⟩, ⟨1, some 0, bytes "a"⟩, ⟨1, some 0, bytes "b"⟩]))
      (bytes "/a")).2.conn.db.tree = [⟨0, none, bytes "/"⟩, ⟨1, some 0, bytes "b"⟩] ∧
    (sample_pool ((sample_conn []).with_tree
      [⟨0, none, bytes "/"⟩, ⟨1, some 0, bytes "a"⟩, ⟨1, some 0, bytes "b"⟩])).borrowed = 0 ∧
    (mysqlfs_unlink (sample_pool ((sample_conn []).with_tree
      [⟨0, none, bytes "/"⟩, ⟨1, some 0, bytes "a"⟩, ⟨1, some 0, bytes "b"⟩]))
      (bytes "/a")).2.borrowed = 1 ∧
    (mysqlfs_getattr 4096 (sample_pool ((sample_conn []).with_tree
      [⟨0, none, bytes "/"⟩, ⟨1, some 0, bytes "a"⟩, ⟨1, some 0, bytes "b"⟩]))
      (bytes "/a")).2.2.borrowed = 0 := by
  decide

set_option maxRecDepth 100000 in
/-- C24 at a listing that fails.  On the root directory, with the lookup of the
path succeeding and the `SELECT name FROM tree ..` failing, `query_readdir`
returns `-EIO` (it is the second statement of the session, as it is the first
of a session where the first statement fails), and `mysqlfs_readdir` returns
0 after giving `.` and `..` to the filler. -/
theorem mysqlfs_readdir_drops_failure :
    (query_inode ((sample_conn []).with_faults [false, true]) (bytes "/")).1 = 0 ∧
    (query_readdir (query_inode ((sample_conn []).with_faults [false, true]) (bytes "/")).2
      0).1 = - EIO ∧
    (mysqlfs_readdir (sample_pool ((sample_conn []).with_faults [false, true]))
      (bytes "/")).1 = 0 ∧
    (mysqlfs_readdir (sample_pool ((sample_conn []).with_faults [false, true]))
      (bytes "/")).2.1 = [bytes ".", bytes ".."] ∧
    (mysqlfs_readdir (sample_pool ((sample_conn []).with_faults [false, true]))
      (bytes "/")).2.2.conn.log.getLast? = some (.select_names 0) := by
  decide

/-! ## Consistency repair (C25, C26) -/

set_option maxRecDepth 100000 in
/-- C25 at the two unchecked statements of stage 5.  The file `/a` has one block
of three bytes with `datalength = 7`.  When the fifth statement, the `UPDATE`
of `datalength`, fails, `query_fsck` goes on: it sends eleven statements in
all, stores the size 7 and returns 0.  When the seventh statement, the
`UPDATE` of the size of inode 1, fails, `query_fsck` sends eleven statements
as well, leaves the size 0 and returns 0. -/
theorem query_fsck_continues_after_failure :
    (query_fsck ((sample_conn [⟨1, 0, [1, 2, 3], 7⟩]).with_faults
      [false, false, false, false, true])).1 = 0 ∧
    (query_fsck ((sample_conn [⟨1, 0, [1, 2, 3], 7⟩]).with_faults
      [false, false, false, false, true])).2.log =
      [.delete_deleted_inodes, .delete_orphan_tree, .update_inuse_zero, .delete_orphan_blocks,
        .update_all_datalength, .select_sizes, .update_size 7 1, .update_total_inodes_count,
        .update_total_inodes_size, .optimize_inodes, .optimize_tree] ∧
    (query_fsck ((sample_conn [⟨1, 0, [1, 2, 3], 7⟩]).with_faults
      [false, false, false, false, true])).2.db.inodes.map (fun r => (r.inode, r.size))
      = [(0, 0), (1, 7)] ∧
    (query_fsck ((sample_conn [⟨1, 0, [1, 2, 3], 7⟩]).with_faults
      [false, false, false, false, false, false, true])).1 = 0 ∧
    (query_fsck ((sample_conn [⟨1, 0, [1, 2, 3], 7⟩]).with_faults
      [false, false, false, false, false, false, true])).2.log =
      [.delete_deleted_inodes, .delete_orphan_tree, .update_inuse_zero, .delete_orphan_blocks,
        .update_all_datalength, .select_sizes, .update_size 3 1, .update_total_inodes_count,
        .update_total_inodes_size, .optimize_inodes, .optimize_tree] ∧
    (query_fsck ((sample_conn [⟨1, 0, [1, 2, 3], 7⟩]).with_faults
      [false, false, false, false, false, false, true])).2.db.inodes.map
      (fun r => (r.inode, r.size)) = [(0, 0), (1, 0)] := by
  decide

set_option maxRecDepth 100000 in
/-- C26 at a file without blocks.  The inode 1 has the stored size 7 and no row
in `data_blocks`; no statement fails.  `query_fsck` returns 0 and the size of
inode 1 is 7 afterwards, where the sum over its rows is 0: the `SELECT .. GROUP
BY inode` has a row only for an inode that has blocks, and the size of no other
inode is written. -/
theorem query_fsck_keeps_size_without_blocks :
    (query_fsck ((sample_conn []).with_inodes
      [sample_inode 0, { sample_inode 1 with size := 7 }])).1 = 0 ∧
    (query_fsck ((sample_conn []).with_inodes
      [sample_inode 0, { sample_inode 1 with size := 7 }])).2.db.inodes.map
      (fun r => (r.inode, r.size)) = [(0, 0), (1, 7)] ∧
    sum_datalength (query_fsck ((sample_conn []).with_inodes
      [sample_inode 0, { sample_inode 1 with size := 7 }])).2.db.data_blocks 1 = 0 ∧
    (query_fsck ((sample_conn []).with_inodes
      [sample_inode 0, { sample_inode 1 with size := 7 }])).2.log =
      [.delete_deleted_inodes, .delete_orphan_tree, .update_inuse_zero, .delete_orphan_blocks,
        .update_all_datalength, .select_sizes, .update_total_inodes_count,
        .update_total_inodes_size, .optimize_inodes, .optimize_tree] := by
  decide

/-! ## Block arithmetic and the splice (C27, C28, C30) -/

/-- C27.  For a block size `B > 0` and a request that ends below `2 ^ 64`
(`offset + size < 2 ^ 64`: the sums of the machine do not wrap),
`fill_data_blocks_info` as the machine computes it gives `length_last = 0`
exactly when `(offset + size) mod B = 0`, and `seq_last = (offset + size) / B`
(so also in that case). -/
theorem fill_data_blocks_info_length_last_zero (B size offset : Nat) (hB : 0 < B)
    (hrange : offset + size < 2 ^ 64) :
    ((fill_data_blocks_info_size_t B size offset).length_last = 0 ↔
      (offset + size) % B = 0) ∧
    ((fill_data_blocks_info_size_t B size offset).length_last = 0 →
      (fill_data_blocks_info_size_t B size offset).seq_last = (offset + size) / B) ∧
    (fill_data_blocks_info_size_t B size offset).seq_last = (offset + size) / B := by
  have h1 : (offset % B + size) % B = (offset + size) % B := by
    rw [Nat.add_mod, Nat.mod_mod, ← Nat.add_mod]
  have h2 : offset / B + (offset % B + size) / B = (offset + size) / B := by
    conv_rhs => rw [← Nat.div_add_mod offset B]
    rw [Nat.add_assoc, Nat.mul_add_div hB]
  rw [fill_data_blocks_info_size_t_eq B size offset hrange]
  simp only [fill_data_blocks_info, h1, h2, implies_true, and_true]

/-- C27 at `B = 4096`, `offset = 4000`, `size = 4192`: the request ends at
`8192`, `length_last` is 0 and `seq_last` is 2. -/
theorem fill_data_blocks_info_length_last_zero_witness :
    0 < 4096 ∧ 4000 + 4192 < 2 ^ 64 ∧
    ((fill_data_blocks_info_size_t 4096 4192 4000).length_last = 0 ↔
      (4000 + 4192) % 4096 = 0) ∧
    (fill_data_blocks_info_size_t 4096 4192 4000).length_last = 0 ∧
    (fill_data_blocks_info_size_t 4096 4192 4000).seq_last = 2 :=
  ⟨by decide, by decide,
    (fill_data_blocks_info_length_last_zero 4096 4192 4000 (by decide) (by decide)).1,
    by decide, by decide⟩

/-- C28.  In a session where no statement fails, on a table with its primary
key whose row of block `(i, s)`, if there is one, has `datalength =
length(data) <= B`: for a payload `P` of one byte or more with `off + |P| <=
B`, `write_one_block` returns `|P|`, and the data of the block afterwards is
the reference splice of the data `D` before (empty when the row was absent)
— the first `off` bytes of `D` zero-padded to `off`, then `P`, then `D` from
`off + |P|` on — with `datalength` and length `max(|D|, off + |P|)`.  The
`CONCAT` that is sent, whichever of the three forms it has, evaluates to
that splice. -/
theorem write_one_block_reference_splice (B : Nat) (c : Conn) (i s : Nat) (P : List Byte)
    (off : Nat) (hB : B ≤ INT_MAX) (hf : c.faults = []) (hlen : 1 ≤ P.length)
    (hb : off + P.length ≤ B) (hpk : PrimaryKey c.db.data_blocks)
    (hinv : ∀ r ∈ c.db.data_blocks, r.inode = i → r.seq = s → BlockInv B r) :
    (write_one_block B c i s P P.length off).1 = P.length ∧
    block_data (write_one_block B c i s P P.length off).2.db.data_blocks i s =
      reference_splice (block_data c.db.data_blocks i s) off P ∧
    (∃ r, block_at (write_one_block B c i s P P.length off).2.db.data_blocks i s = some r ∧
      r.datalength = max (block_data c.db.data_blocks i s).length (off + P.length)) ∧
    (reference_splice (block_data c.db.data_blocks i s) off P).length =
      max (block_data c.db.data_blocks i s).length (off + P.length) ∧
    CONCAT (block_data c.db.data_blocks i s) P
      (write_one_block_sql (block_data c.db.data_blocks i s).length P.length off) =
      reference_splice (block_data c.db.data_blocks i s) off P := by
  obtain ⟨h1, _, _, _, h5⟩ := write_one_block_eq B c i s P P.length off hB hf (by omega) hb
    (le_refl _) hpk hinv
  rw [List.take_length] at h5
  obtain ⟨r, hr, _, _, hdl, hdata⟩ := put_block_block_at c.db.data_blocks i s off P
  have hsp : ∀ D : List Byte, reference_splice D off P = splice D off P := fun D => rfl
  refine ⟨h1, ?_, ⟨r, ?_, ?_⟩, ?_, ?_⟩
  · rw [h5, hsp]
    simp only [block_data, hr]
    exact hdata
  · rw [h5]; exact hr
  · rw [hdl, hdata, splice_length]; rfl
  · rw [hsp, splice_length]
  · rw [hsp]; exact CONCAT_write_one_block_sql _ P P.length off rfl

set_option maxRecDepth 100000 in
/-- C28 at a block of four bytes, `B = 8`: the payload `[9, 9]` at offset 1 of
the block `[1, 2, 3, 4]` of `/a`. -/
theorem write_one_block_reference_splice_witness :
    (write_one_block 8 (sample_conn [⟨1, 0, [1, 2, 3, 4], 4⟩]) 1 0 [9, 9] 2 1).1 = 2 ∧
    block_data (write_one_block 8 (sample_conn [⟨1, 0, [1, 2, 3, 4], 4⟩]) 1 0 [9, 9] 2
      1).2.db.data_blocks 1 0 = [1, 9, 9, 4] :=
  have h := write_one_block_reference_splice 8 (sample_conn [⟨1, 0, [1, 2, 3, 4], 4⟩]) 1 0
    [9, 9] 1 (by decide) rfl (by decide) (by decide) (by simp [PrimaryKey, sample_conn])
    (by intro r hr _ _
        simp only [sample_conn, List.mem_singleton] at hr
        subst hr
        exact ⟨rfl, by decide⟩)
  ⟨h.1, h.2.1⟩

/-- C29.  For a block size `B > 0`, every table and every `size` and `offset`:
`query_read` puts at most `size` bytes into the buffer; when its `SELECT`
succeeds (as it does in a session where no statement fails) the returned value
`r` has `0 <= r <= size`, and it is `-EIO` with nothing copied otherwise (the
count is returned as an `int`, so this part is for a `size` up to `INT_MAX`);
and a round of the loop for block `seq` adds at most `length_first` for the
first block, `length_last` for the last and `B` for a block in between. -/
theorem query_read_within_size (B : Nat) (c : Conn) (inode size offset : Nat) (hB : 0 < B) :
    (query_read B c inode size offset).2.1.length ≤ size ∧
    (size ≤ INT_MAX → c.faults = [] → 0 ≤ (query_read B c inode size offset).1 ∧
      (query_read B c inode size offset).1 ≤ size) ∧
    (size ≤ INT_MAX →
      (query_read B c inode size offset).1 = - EIO ∧ (query_read B c inode size offset).2.1 = [] ∨
      0 ≤ (query_read B c inode size offset).1 ∧ (query_read B c inode size offset).1 ≤ size) ∧
    (∀ (seq : Nat) (hit : Option BlockRow) (out : List Byte) (length : Nat) (out1 : List Byte)
      (length1 : Nat),
      query_read_block B (fill_data_blocks_info B size offset) seq hit out length
        = some (out1, length1) →
      length1 - length ≤ copy_bound B (fill_data_blocks_info B size offset) seq ∧
      out1.length - out.length ≤ length1 - length) ∧
    copy_bound B (fill_data_blocks_info B size offset)
      (fill_data_blocks_info B size offset).seq_first =
      (fill_data_blocks_info B size offset).length_first ∧
    (∀ seq, seq ≠ (fill_data_blocks_info B size offset).seq_first →
      copy_bound B (fill_data_blocks_info B size offset) seq =
        if seq = (fill_data_blocks_info B size offset).seq_last then
          (fill_data_blocks_info B size offset).length_last else B) := by
  obtain ⟨h1, h2⟩ := query_read_bound B c inode size offset hB
  refine ⟨h1, ?_, ?_, ?_, by simp [copy_bound], fun seq hs => by simp [copy_bound, hs]⟩
  · intro _ hf
    rcases h2 with ⟨h3, _⟩ | ⟨h3, h4, _⟩
    · exfalso
      have h0 : (query_read B c inode size offset).1 ≠ - EIO := by
        unfold query_read
        simp only []
        have hq := query_read_ok c
          (if (fill_data_blocks_info B size offset).seq_first =
              (fill_data_blocks_info B size offset).seq_last
            then .select_block inode (fill_data_blocks_info B size offset).seq_first
            else .select_blocks inode (fill_data_blocks_info B size offset).seq_first
              (fill_data_blocks_info B size offset).seq_last) hf
          (by split <;> simp [exec])
        generalize mysql_query c _ = q at hq ⊢
        obtain ⟨ret, c1⟩ := q
        simp only [] at hq
        subst hq
        simp only [ne_eq, not_true_eq_false, if_false]
        intro h
        have : (0 : Int) ≤ ((query_read_loop B (fill_data_blocks_info B size offset)
          ((fill_data_blocks_info B size offset).seq_last + 1 -
            (fill_data_blocks_info B size offset).seq_first)
          (fill_data_blocks_info B size offset).seq_first
          (select_blocks_rows c1.db inode (fill_data_blocks_info B size offset).seq_first
            (fill_data_blocks_info B size offset).seq_last) [] 0).2 : Int) := Int.ofNat_nonneg _
        rw [h] at this
        exact absurd this (by decide)
      exact h0 h3
    · exact ⟨h3, h4⟩
  · intro _
    rcases h2 with ⟨h3, h4⟩ | ⟨h3, h4, _⟩
    · exact Or.inl ⟨h3, h4⟩
    · exact Or.inr ⟨h3, h4⟩
  · intro seq hit out length out1 length1 h
    obtain ⟨b1, b2, b3⟩ := query_read_block_bound B _ seq hit out length out1 length1 h
    omega

set_option maxRecDepth 100000 in
/-- C29 at `B = 4`: ten bytes from offset 2 of a file whose block 1 holds
`[1, 2, 3]`. -/
theorem query_read_within_size_witness :
    0 < 4 ∧ (query_read 4 (sample_conn [⟨1, 1, [1, 2, 3], 3⟩]) 1 10 2).2.1.length ≤ 10 ∧
    (query_read 4 (sample_conn [⟨1, 1, [1, 2, 3], 3⟩]) 1 10 2).1 = 9 :=
  ⟨by decide, (query_read_within_size 4 (sample_conn [⟨1, 1, [1, 2, 3], 3⟩]) 1 10 2
    (by decide)).1, by decide⟩

/-! ## Symbolic links (C22) -/

/-- C22.  The path is `dir/name` with a last component `name` that is not empty,
has no slash and fits the column (255 bytes); the pool has a session left and
no statement fails; `n` fits the `int` in which the counts are returned; `tree` has its keys, the lookup of `dir` finds the one entry
`prow`, and `prow` has no entry `name` yet (the path is new); the inode number
that the server hands out next is in use neither in `inodes` nor in
`data_blocks` and fits an `int`, as do `uid` and `gid`; the two lookup statements
fit their buffer.  Then `mysqlfs_symlink(T, dir/name)` returns 0, and the
`mysqlfs_readlink` of the path into a buffer with `n > |T|` returns 0 and leaves
the buffer holding `T`, then `n - |T|` zero bytes (the buffer behind `n` is
not touched); the path resolves to the new inode number, whose one inode row
has the file type `S_IFLNK`; and no session stays out of the pool. -/
theorem mysqlfs_symlink_readlink_round_trip (B : Nat) (p : Pool) (T dir name buf : List Byte)
    (n uid gid : Nat) (prow : TreeRow) (hB : BlockSize B)
    (hroom : p.borrowed < p.ceiling) (hf : p.conn.faults = [])
    (hname : name ≠ []) (hslash : 47 ∉ name) (_hcol : name.length ≤ 255)
    (hpath : (dir ++ 47 :: name).length < PATH_MAX)
    (hsql : (query_inode_full_format dir false).length < SQL_MAX)
    (hsql2 : (query_inode_full_format (dir ++ 47 :: name) false).length < SQL_MAX)
    (hkey : TreeKey p.conn.db.tree)
    (hpar : select_path_rows p.conn.db (strtok_r dir) = [prow])
    (hnew : p.conn.db.tree.filter (fun t => t.name = name ∧ t.parent_eq prow.inode) = [])
    (hino : ∀ r ∈ p.conn.db.inodes, r.inode ≠ next_inode p.conn)
    (hblk : ∀ r ∈ p.conn.db.data_blocks, r.inode ≠ next_inode p.conn)
    (hpk : PrimaryKey p.conn.db.data_blocks)
    (hint : next_inode p.conn ≤ INT_MAX) (huid : uid ≤ INT_MAX) (hgid : gid ≤ INT_MAX)
    (hn : T.length < n) (_hnmax : n ≤ INT_MAX) :
    (mysqlfs_symlink B p T (dir ++ 47 :: name) uid gid).1 = 0 ∧
    (mysqlfs_readlink B (mysqlfs_symlink B p T (dir ++ 47 :: name) uid gid).2
      (dir ++ 47 :: name) buf n).1 = 0 ∧
    (mysqlfs_readlink B (mysqlfs_symlink B p T (dir ++ 47 :: name) uid gid).2
      (dir ++ 47 :: name) buf n).2.1 = T ++ List.replicate (n - T.length) 0 ++ buf.drop n ∧
    (query_inode (mysqlfs_symlink B p T (dir ++ 47 :: name) uid gid).2.conn
      (dir ++ 47 :: name)).1 = next_inode p.conn ∧
    ((mysqlfs_symlink B p T (dir ++ 47 :: name) uid gid).2.conn.db.inodes.filter
      (fun r => r.inode = next_inode p.conn)).map (fun r => r.mode &&& S_IFMT) = [S_IFLNK] ∧
    (mysqlfs_readlink B (mysqlfs_symlink B p T (dir ++ 47 :: name) uid gid).2
      (dir ++ 47 :: name) buf n).2.2.borrowed = p.borrowed := by
  obtain ⟨c, hs, f1, f2, f3, f4⟩ := mysqlfs_symlink_new B p T dir name uid gid prow hB hroom hf
    hname hslash hpath hsql hsql2 hkey hpar hnew hino hblk hpk hint huid hgid
  have hrow : select_path_rows c.db (strtok_r (dir ++ 47 :: name)) =
      [{ inode := next_inode p.conn, parent := some prow.inode, name := name }] := by
    rw [strtok_r_path dir name hname hslash,
      select_path_rows_congr c.db { p.conn.db with tree := p.conn.db.tree ++
        [{ inode := next_inode p.conn, parent := some prow.inode, name := name }] } _ f2]
    exact select_path_rows_insert p.conn.db _ prow (strtok_r dir) name hkey hpar hnew ⟨rfl, rfl⟩
  have hfresh : ∀ r ∈ p.conn.db.data_blocks, r.inode ≠ next_inode p.conn := hblk
  obtain ⟨r1, r2, r3⟩ := mysqlfs_readlink_text B { p with conn := c } (dir ++ 47 :: name) buf T n
    { inode := next_inode p.conn, parent := some prow.inode, name := name } hB.1 hroom f1 hsql2
    hrow (by rw [f4]; exact query_write_rows_pk B _ _ T 0 hpk)
    (by rw [f4]; exact file_holds_query_write_rows B _ _ T hB.1 hfresh) hn
  rw [hs]
  refine ⟨rfl, r1, r2, ?_, ?_, r3⟩
  · simp only []
    rw [query_inode_found c (dir ++ 47 :: name) _ f1 hsql2 hrow]
  · simp only []
    have hold : p.conn.db.inodes.filter (fun r => decide (r.inode = next_inode p.conn)) = [] := by
      rw [List.filter_eq_nil_iff]
      intro r hr
      simpa using hino r hr
    have hmap : ∀ g : InodeRow → InodeRow, (∀ r, (g r).inode = r.inode) →
        (p.conn.db.inodes.map g).filter (fun r => decide (r.inode = next_inode p.conn)) = [] := by
      intro g hg
      rw [List.filter_eq_nil_iff]
      intro r hr
      obtain ⟨r0, hr0, rfl⟩ := List.mem_map.mp hr
      rw [hg]
      simpa using hino r0 hr0
    rw [f3, List.map_append, List.filter_append, hmap _ (by intro r; split <;> rfl)]
    simp [new_inode_row]
    decide

set_option maxRecDepth 100000 in
/-- C22 at the link `/s` to `target`, read into a buffer of twelve bytes
with `n = 10`, block size 4096. -/
theorem mysqlfs_symlink_readlink_round_trip_witness :
    (mysqlfs_symlink 4096 (sample_pool (sample_conn [])) (bytes "target") ([] ++ 47 :: [115])
      7 8).1 = 0 ∧
    (mysqlfs_readlink 4096 (mysqlfs_symlink 4096 (sample_pool (sample_conn [])) (bytes "target")
      ([] ++ 47 :: [115]) 7 8).2 ([] ++ 47 :: [115]) (List.replicate 12 9) 10).2.1 =
      bytes "target" ++ List.replicate (10 - (bytes "target").length) 0 ++
        (List.replicate 12 9).drop 10 :=
  have h := mysqlfs_symlink_readlink_round_trip 4096 (sample_pool (sample_conn []))
    (bytes "target") [] [115] (List.replicate 12 9) 10 7 8 ⟨0, none, [47]⟩
    ⟨by decide, by decide⟩ (by decide) rfl (by decide) (by decide) (by decide) (by decide)
    (by decide) (by decide) (by unfold TreeKey; decide) (by decide) (by decide) (by decide)
    (by decide) (by simp [PrimaryKey, sample_pool, sample_conn]) (by decide) (by decide)
    (by decide) (by decide) (by decide)
  ⟨h.1, h.2.2.1⟩

end Mysqlfs
